import Mathlib

/-!
Verification of the jsql schema-inference / object-relational mapping engine.

The Go sources are shallowly embedded:
  * Go maps (`map[string]T`) become association lists `List (String × T)`;
    Go map iteration order is unspecified, so theorems quantify over the list
    order wherever it could matter.
  * JSON values (`interface{}` trees decoded by `encoding/json`) become the
    inductive type `JVal`; numbers are modelled exactly as decimal
    mantissa/exponent pairs (Go's float64 formatting is injective and
    round-trips through its own parser, which is the only property used here).
  * The SQLite store (an external collaborator of the repository, consumed
    through a minimal query/exec interface) is modelled as lists of rows with
    rowids assigned sequentially from 1.
  * Unbounded recursion through mutable structures (the table-order visitor,
    the row dumper) is modelled with an explicit fuel parameter; `none` stands
    for an aborted run (nil-map dereference or divergence).
-/

namespace JSQL

/-! ## String ordering (Go `sort.Strings`, bytewise `<`) -/

/-- Lexicographic less-or-equal on character lists, as Go compares strings. -/
def chLe : List Char → List Char → Bool
  | [], _ => true
  | _ :: _, [] => false
  | a :: as, b :: bs => if a = b then chLe as bs else decide (a < b)

/-- Go string comparison `a <= b`. -/
def strLe (a b : String) : Bool := chLe a.data b.data

theorem chLe_total (a b : List Char) : chLe a b = true ∨ chLe b a = true := by
  induction a generalizing b with
  | nil => exact Or.inl rfl
  | cons x xs ih =>
      cases b with
      | nil => exact Or.inr rfl
      | cons y ys =>
          by_cases hxy : x = y
          · subst hxy
            rcases ih ys with h | h
            · exact Or.inl (by simp [chLe, h])
            · exact Or.inr (by simp [chLe, h])
          · rcases lt_trichotomy x y with h | h | h
            · exact Or.inl (by simp [chLe, hxy, h])
            · exact absurd h hxy
            · exact Or.inr (by simp [chLe, Ne.symm hxy, h, not_lt_of_lt h])

theorem chLe_trans {a b c : List Char} (h1 : chLe a b = true) (h2 : chLe b c = true) :
    chLe a c = true := by
  induction a generalizing b c with
  | nil => rfl
  | cons x xs ih =>
      cases b with
      | nil => simp [chLe] at h1
      | cons y ys =>
          cases c with
          | nil => simp [chLe] at h2
          | cons z zs =>
              by_cases hxy : x = y <;> by_cases hyz : y = z
              · subst hxy; subst hyz
                simp only [chLe, if_pos rfl] at h1 h2 ⊢
                exact ih h1 h2
              · subst hxy
                simp only [chLe, if_pos rfl, if_neg hyz] at h2 ⊢
                exact h2
              · subst hyz
                simp only [chLe, if_neg hxy] at h1 ⊢
                exact h1
              · simp only [chLe, if_neg hxy] at h1
                simp only [chLe, if_neg hyz] at h2
                have hxz : x < z := lt_trans (of_decide_eq_true h1) (of_decide_eq_true h2)
                simp [chLe, ne_of_lt hxz, hxz]

/-- The sorting relation used to model `sort.Strings`. -/
def strLeP (a b : String) : Prop := strLe a b = true

instance : DecidableRel strLeP := fun _ _ => inferInstanceAs (Decidable (_ = true))

instance : IsTotal String strLeP := ⟨fun a b => chLe_total a.data b.data⟩

instance : IsTrans String strLeP := ⟨fun _ _ _ => chLe_trans⟩

/-- Go `sort.Strings`: the ascending sort of a list of strings. -/
def sortStrings (l : List String) : List String := l.insertionSort strLeP

theorem sortStrings_perm (l : List String) : (sortStrings l).Perm l :=
  List.perm_insertionSort strLeP l

theorem mem_sortStrings {l : List String} {x : String} : x ∈ sortStrings l ↔ x ∈ l :=
  (sortStrings_perm l).mem_iff

/-! ## Schema model (`types.go`)

Go declares `type FieldType string`; `ParseDDL` coerces arbitrary uppercased
words into it, so the model keeps it a plain string with the five named
constants. -/

/-- SQL field type; a plain string as in the source. -/
abbrev FieldType := String

def TypeInt : FieldType := "INTEGER"
def TypeReal : FieldType := "REAL"
def TypeText : FieldType := "TEXT"
def TypeBool : FieldType := "BOOLEAN"
def TypeJSON : FieldType := "JSON"

/-- Index definition generated by the analyzer. -/
structure IndexDef where
  Name : String
  Table : String
  Columns : List String
  Unique : Bool
deriving DecidableEq, Repr

/-- Schema of one table: fields (column → type) and foreign keys
(column → referenced table) are Go maps, embedded as association lists. -/
structure TableSchema where
  Name : String
  Fields : List (String × FieldType)
  FKs : List (String × String)
  Indexes : List IndexDef := []
deriving DecidableEq, Repr

/-- Schema of the whole database. -/
structure DatabaseSchema where
  Tables : List (String × TableSchema)
  TableOrder : List String
deriving DecidableEq, Repr

/-- Association-list lookup, the model of a Go map read (`m[k]`). -/
def alookup {α : Type} (m : List (String × α)) (k : String) : Option α :=
  match m with
  | [] => none
  | (k', v) :: rest => if k' = k then some v else alookup rest k

/-- Association-list update, the model of a Go map write (`m[k] = v`). -/
def aset {α : Type} (m : List (String × α)) (k : String) (v : α) : List (String × α) :=
  match m with
  | [] => [(k, v)]
  | (k', v') :: rest => if k' = k then (k, v) :: rest else (k', v') :: aset rest k v

theorem alookup_aset_self {α : Type} (m : List (String × α)) (k : String) (v : α) :
    alookup (aset m k v) k = some v := by
  induction m with
  | nil => simp [aset, alookup]
  | cons p rest ih =>
      by_cases h : p.1 = k
      · simp [aset, h, alookup]
      · simp [aset, h, alookup, ih]

theorem alookup_aset_ne {α : Type} (m : List (String × α)) {k k' : String} (v : α)
    (h : k ≠ k') : alookup (aset m k v) k' = alookup m k' := by
  induction m with
  | nil => simp [aset, alookup, h]
  | cons p rest ih =>
      by_cases hp : p.1 = k
      · simp [aset, hp, alookup, h]
      · simp only [aset, if_neg hp]
        by_cases hp' : p.1 = k'
        · simp [alookup, hp']
        · simp [alookup, hp', ih]

theorem alookup_mem {α : Type} {m : List (String × α)} {k : String} {v : α}
    (hnd : (m.map Prod.fst).Nodup) (hm : (k, v) ∈ m) : alookup m k = some v := by
  induction m with
  | nil => cases hm
  | cons p rest ih =>
      rcases List.mem_cons.mp hm with h | h
      · subst h; simp [alookup]
      · have hne : p.1 ≠ k := by
          intro he
          have : p.1 ∈ rest.map Prod.fst := he ▸ List.mem_map_of_mem Prod.fst h
          exact (List.nodup_cons.mp hnd).1 this
        simpa [alookup, hne] using ih (List.nodup_cons.mp hnd).2 h

theorem alookup_some_mem_keys {α : Type} {m : List (String × α)} {k : String} {v : α}
    (h : alookup m k = some v) : k ∈ m.map Prod.fst := by
  induction m with
  | nil => simp [alookup] at h
  | cons p rest ih =>
      by_cases hp : p.1 = k
      · simp [hp]
      · simp only [alookup, if_neg hp] at h
        simp [ih h]

theorem alookup_some_mem {α : Type} {m : List (String × α)} {k : String} {v : α}
    (h : alookup m k = some v) : (k, v) ∈ m := by
  induction m with
  | nil => simp [alookup] at h
  | cons p rest ih =>
      obtain ⟨k1, v1⟩ := p
      by_cases hp : k1 = k
      · subst hp
        simp only [alookup, if_pos trivial, eq_self_iff_true, ite_true, Option.some.injEq] at h
        subst h
        exact List.mem_cons_self _ _
      · simp only [alookup, if_neg hp] at h
        exact List.mem_cons_of_mem _ (ih h)

end JSQL

namespace JSQL

/-! ## Table ordering (`schema.go`, `resolveTableOrder`)

The Go visitor is

    visit = func(tbl string) {
      if visited[tbl] { return }
      for _, fk := range tables[tbl].FKs { visit(fk) }
      visited[tbl] = true
      order = append(order, tbl)
    }

driven over the lexicographically sorted key set.  `tables[tbl]` on a missing
key yields a nil pointer and `.FKs` dereferences it, so a missing referenced
table aborts the run; the model returns `none` for that (and for exhausted
fuel, which on an acyclic graph never happens once the fuel is large enough).

The model is a worklist formulation: `visitW tables fuel ws (visited, order)`
processes the pending table names `ws` in order; visiting an unvisited table
first runs the worklist of its foreign-key targets, then marks it. -/

/-- Worklist depth-first visit of `resolveTableOrder`.  State is
`(visited, order)`; `visited` is kept as the reverse of `order`. -/
def visitW (tables : List (String × TableSchema)) :
    Nat → List String → List String × List String → Option (List String × List String)
  | _, [], st => some st
  | 0, _ :: _, _ => none
  | fuel + 1, tbl :: rest, st =>
      if tbl ∈ st.1 then visitW tables fuel rest st
      else
        match alookup tables tbl with
        | none => none
        | some ts =>
            match visitW tables fuel (ts.FKs.map Prod.snd) st with
            | none => none
            | some st2 => visitW tables fuel rest (tbl :: st2.1, st2.2 ++ [tbl])

/-- Model of `resolveTableOrder`: visit all table names in sorted order. -/
def resolveTableOrder (tables : List (String × TableSchema)) (fuel : Nat) :
    Option (List String) :=
  (visitW tables fuel (sortStrings (tables.map Prod.fst)) ([], [])).map Prod.snd

/-- Direct foreign-key edge of the table graph: table `a` has some foreign key
whose target is `b`. -/
def fkEdge (tables : List (String × TableSchema)) (a b : String) : Prop :=
  ∃ ts, alookup tables a = some ts ∧ b ∈ ts.FKs.map Prod.snd

/-- Acyclicity of the foreign-key graph: no table reaches itself through a
nonempty chain of foreign keys. -/
def FKAcyclic (tables : List (String × TableSchema)) : Prop :=
  ∀ a, ¬ Relation.TransGen (fkEdge tables) a a

/-- Fuel monotonicity: a successful visit stays successful, with the same
result, when given one more unit of fuel. -/
theorem visitW_fuel_succ (tables : List (String × TableSchema)) :
    ∀ (fuel : Nat) (ws : List String) (st r : List String × List String),
      visitW tables fuel ws st = some r → visitW tables (fuel + 1) ws st = some r := by
  intro fuel
  induction fuel with
  | zero =>
      intro ws st r h
      cases ws with
      | nil => simpa [visitW] using h
      | cons t rest => simp [visitW] at h
  | succ f ih =>
      intro ws st r h
      cases ws with
      | nil => simpa [visitW] using h
      | cons t rest =>
          by_cases hv : t ∈ st.1
          · simp only [visitW, if_pos hv] at h ⊢
            exact ih _ _ _ h
          · simp only [visitW, if_neg hv] at h ⊢
            cases hlk : alookup tables t with
            | none => simp [hlk] at h
            | some ts =>
                simp only [hlk] at h ⊢
                cases hin : visitW tables f (ts.FKs.map Prod.snd) st with
                | none => simp [hin] at h
                | some st2 =>
                    rw [ih _ _ _ hin]
                    simp only [hin] at h
                    exact ih _ _ _ h

theorem visitW_fuel_le (tables : List (String × TableSchema)) {f1 f2 : Nat}
    (hle : f1 ≤ f2) {ws : List String} {st r : List String × List String}
    (h : visitW tables f1 ws st = some r) : visitW tables f2 ws st = some r := by
  obtain ⟨k, rfl⟩ := Nat.exists_eq_add_of_le hle
  clear hle
  induction k with
  | zero => exact h
  | succ n ih => exact visitW_fuel_succ tables (f1 + n) ws st r ih

end JSQL

namespace JSQL


/-! ### Structural facts about the visitor -/

/-- The visited list is always the reverse of the order list (both start
empty, and each marking pushes the same table on both). -/
theorem visitW_shape (tables : List (String × TableSchema)) :
    ∀ (fuel : Nat) (ws : List String) (st st' : List String × List String),
      visitW tables fuel ws st = some st' → st.1 = st.2.reverse → st'.1 = st'.2.reverse := by
  intro fuel ws st
  induction fuel, ws, st using visitW.induct tables with
  | case1 fuel st =>
      intro st' h hs
      rw [visitW] at h
      cases h
      exact hs
  | case2 t rest st => intro st' h _; simp [visitW] at h
  | case3 fuel t rest st hmem ih =>
      intro st' h hs
      rw [visitW, if_pos hmem] at h
      exact ih st' h hs
  | case4 fuel t rest st hmem hlk =>
      intro st' h _
      rw [visitW, if_neg hmem] at h
      simp [hlk] at h
  | case5 fuel t rest st hmem ts hlk hin =>
      intro st' h _
      rw [visitW, if_neg hmem] at h
      simp [hlk, hin] at h
  | case6 fuel t rest st hmem ts hlk st2 hin ih1 ih2 =>
      intro st' h hs
      rw [visitW, if_neg hmem] at h
      simp only [hlk, hin] at h
      have hs2 : st2.1 = st2.2.reverse := ih1 st2 hin hs
      exact ih2 st' h (by simp [hs2])

/-- Visited tables stay visited. -/
theorem visitW_mono (tables : List (String × TableSchema)) :
    ∀ (fuel : Nat) (ws : List String) (st st' : List String × List String),
      visitW tables fuel ws st = some st' → ∀ x ∈ st.1, x ∈ st'.1 := by
  intro fuel ws st
  induction fuel, ws, st using visitW.induct tables with
  | case1 fuel st =>
      intro st' h x hx
      rw [visitW] at h
      cases h
      exact hx
  | case2 t rest st => intro st' h; simp [visitW] at h
  | case3 fuel t rest st hmem ih =>
      intro st' h
      rw [visitW, if_pos hmem] at h
      exact ih st' h
  | case4 fuel t rest st hmem hlk =>
      intro st' h
      rw [visitW, if_neg hmem] at h
      simp [hlk] at h
  | case5 fuel t rest st hmem ts hlk hin =>
      intro st' h
      rw [visitW, if_neg hmem] at h
      simp [hlk, hin] at h
  | case6 fuel t rest st hmem ts hlk st2 hin ih1 ih2 =>
      intro st' h x hx
      rw [visitW, if_neg hmem] at h
      simp only [hlk, hin] at h
      exact ih2 st' h x (List.mem_cons_of_mem t (ih1 st2 hin x hx))

/-- Every table on the worklist ends up visited. -/
theorem visitW_ws_mem (tables : List (String × TableSchema)) :
    ∀ (fuel : Nat) (ws : List String) (st st' : List String × List String),
      visitW tables fuel ws st = some st' → ∀ x ∈ ws, x ∈ st'.1 := by
  intro fuel ws st
  induction fuel, ws, st using visitW.induct tables with
  | case1 fuel st => intro st' _ x hx; cases hx
  | case2 t rest st => intro st' h; simp [visitW] at h
  | case3 fuel t rest st hmem ih =>
      intro st' h x hx
      rw [visitW, if_pos hmem] at h
      rcases List.mem_cons.mp hx with rfl | hx'
      · exact visitW_mono tables _ _ _ _ h x hmem
      · exact ih st' h x hx'
  | case4 fuel t rest st hmem hlk =>
      intro st' h
      rw [visitW, if_neg hmem] at h
      simp [hlk] at h
  | case5 fuel t rest st hmem ts hlk hin =>
      intro st' h
      rw [visitW, if_neg hmem] at h
      simp [hlk, hin] at h
  | case6 fuel t rest st hmem ts hlk st2 hin ih1 ih2 =>
      intro st' h x hx
      rw [visitW, if_neg hmem] at h
      simp only [hlk, hin] at h
      rcases List.mem_cons.mp hx with rfl | hx'
      · exact visitW_mono tables _ _ _ _ h x (List.mem_cons_self _ _)
      · exact ih2 st' h x hx'

/-- Every newly visited table was looked up successfully and had all its
foreign-key targets visited by the end of the run. -/
theorem visitW_new (tables : List (String × TableSchema)) :
    ∀ (fuel : Nat) (ws : List String) (st st' : List String × List String),
      visitW tables fuel ws st = some st' → ∀ x ∈ st'.1, x ∈ st.1 ∨
        ∃ ts, alookup tables x = some ts ∧
          ∀ tgt ∈ ts.FKs.map Prod.snd, tgt ∈ st'.1 := by
  intro fuel ws st
  induction fuel, ws, st using visitW.induct tables with
  | case1 fuel st =>
      intro st' h x hx
      rw [visitW] at h
      cases h
      exact Or.inl hx
  | case2 t rest st => intro st' h; simp [visitW] at h
  | case3 fuel t rest st hmem ih =>
      intro st' h
      rw [visitW, if_pos hmem] at h
      exact ih st' h
  | case4 fuel t rest st hmem hlk =>
      intro st' h
      rw [visitW, if_neg hmem] at h
      simp [hlk] at h
  | case5 fuel t rest st hmem ts hlk hin =>
      intro st' h
      rw [visitW, if_neg hmem] at h
      simp [hlk, hin] at h
  | case6 fuel t rest st hmem ts hlk st2 hin ih1 ih2 =>
      intro st' h x hx
      rw [visitW, if_neg hmem] at h
      simp only [hlk, hin] at h
      rcases ih2 st' h x hx with hx2 | hgood
      · rcases List.mem_cons.mp hx2 with rfl | hx3
        · refine Or.inr ⟨ts, hlk, fun tgt htgt => ?_⟩
          have h1 : tgt ∈ st2.1 := visitW_ws_mem tables _ _ _ _ hin tgt htgt
          exact visitW_mono tables _ _ _ _ h tgt (List.mem_cons_of_mem _ h1)
        · rcases ih1 st2 hin x hx3 with hold | ⟨ts2, hlk2, htg2⟩
          · exact Or.inl hold
          · refine Or.inr ⟨ts2, hlk2, fun tgt htgt => ?_⟩
            exact visitW_mono tables _ _ _ _ h tgt (List.mem_cons_of_mem _ (htg2 tgt htgt))
      · exact Or.inr hgood

/-- Every newly visited table is reachable (by foreign-key edges) from some
table on the worklist. -/
theorem visitW_reach (tables : List (String × TableSchema)) :
    ∀ (fuel : Nat) (ws : List String) (st st' : List String × List String),
      visitW tables fuel ws st = some st' → ∀ x ∈ st'.1, x ∈ st.1 ∨
        ∃ w ∈ ws, Relation.ReflTransGen (fkEdge tables) w x := by
  intro fuel ws st
  induction fuel, ws, st using visitW.induct tables with
  | case1 fuel st =>
      intro st' h x hx
      rw [visitW] at h
      cases h
      exact Or.inl hx
  | case2 t rest st => intro st' h; simp [visitW] at h
  | case3 fuel t rest st hmem ih =>
      intro st' h x hx
      rw [visitW, if_pos hmem] at h
      rcases ih st' h x hx with h1 | ⟨w, hw, hr⟩
      · exact Or.inl h1
      · exact Or.inr ⟨w, List.mem_cons_of_mem _ hw, hr⟩
  | case4 fuel t rest st hmem hlk =>
      intro st' h
      rw [visitW, if_neg hmem] at h
      simp [hlk] at h
  | case5 fuel t rest st hmem ts hlk hin =>
      intro st' h
      rw [visitW, if_neg hmem] at h
      simp [hlk, hin] at h
  | case6 fuel t rest st hmem ts hlk st2 hin ih1 ih2 =>
      intro st' h x hx
      rw [visitW, if_neg hmem] at h
      simp only [hlk, hin] at h
      rcases ih2 st' h x hx with hx2 | ⟨w, hw, hr⟩
      · rcases List.mem_cons.mp hx2 with rfl | hx3
        · exact Or.inr ⟨x, List.mem_cons_self _ _, Relation.ReflTransGen.refl⟩
        · rcases ih1 st2 hin x hx3 with hold | ⟨w, hw, hr⟩
          · exact Or.inl hold
          · refine Or.inr ⟨t, List.mem_cons_self _ _, ?_⟩
            have he : fkEdge tables t w := ⟨ts, hlk, hw⟩
            exact Relation.ReflTransGen.head he hr
      · exact Or.inr ⟨w, List.mem_cons_of_mem _ hw, hr⟩

end JSQL

namespace JSQL

/-- Invariant: every visited table's foreign-key targets are visited. -/
def VisitedClosed (tables : List (String × TableSchema)) (st : List String × List String) :
    Prop :=
  ∀ x ∈ st.1, ∀ ts, alookup tables x = some ts → ∀ tgt ∈ ts.FKs.map Prod.snd, tgt ∈ st.1

/-- If the foreign-key graph is acyclic, the visitor appends each table to the
order at most once and never places a table before one of its foreign-key
targets: the order stays duplicate-free and reverse-topologically sorted. -/
theorem visitW_sorted (tables : List (String × TableSchema))
    (hacyc : FKAcyclic tables) :
    ∀ (fuel : Nat) (ws : List String) (st st' : List String × List String),
      visitW tables fuel ws st = some st' →
      st.1 = st.2.reverse → VisitedClosed tables st → st.2.Nodup →
      st.2.Pairwise (fun x y => ¬ fkEdge tables x y) →
      VisitedClosed tables st' ∧ st'.2.Nodup ∧
        st'.2.Pairwise (fun x y => ¬ fkEdge tables x y) := by
  intro fuel ws st
  induction fuel, ws, st using visitW.induct tables with
  | case1 fuel st =>
      intro st' h hs hc hn hp
      rw [visitW] at h
      cases h
      exact ⟨hc, hn, hp⟩
  | case2 t rest st => intro st' h; simp [visitW] at h
  | case3 fuel t rest st hmem ih =>
      intro st' h hs hc hn hp
      rw [visitW, if_pos hmem] at h
      exact ih st' h hs hc hn hp
  | case4 fuel t rest st hmem hlk =>
      intro st' h
      rw [visitW, if_neg hmem] at h
      simp [hlk] at h
  | case5 fuel t rest st hmem ts hlk hin =>
      intro st' h
      rw [visitW, if_neg hmem] at h
      simp [hlk, hin] at h
  | case6 fuel t rest st hmem ts hlk st2 hin ih1 ih2 =>
      intro st' h hs hc hn hp
      rw [visitW, if_neg hmem] at h
      simp only [hlk, hin] at h
      obtain ⟨hc2, hn2, hp2⟩ := ih1 st2 hin hs hc hn hp
      have hs2 : st2.1 = st2.2.reverse := visitW_shape tables _ _ _ _ hin hs
      -- the table being marked was not visited by the recursive call on its
      -- targets: that would close a foreign-key cycle
      have htnot : t ∉ st2.1 := by
        intro ht2
        rcases visitW_reach tables _ _ _ _ hin t ht2 with h1 | ⟨w, hw, hr⟩
        · exact hmem h1
        · have he : fkEdge tables t w := ⟨ts, hlk, hw⟩
          exact hacyc t (Relation.TransGen.head' he hr)
      -- all of the marked table's targets are visited after the recursive call
      have htgts : ∀ tgt ∈ ts.FKs.map Prod.snd, tgt ∈ st2.1 :=
        fun tgt htgt => visitW_ws_mem tables _ _ _ _ hin tgt htgt
      have hmem2 : ∀ x, x ∈ st2.1 ↔ x ∈ st2.2 := by
        intro x
        rw [hs2]
        exact List.mem_reverse
      refine ih2 st' h ?_ ?_ ?_ ?_
      · simp [hs2]
      · intro x hx ts' hlk' tgt htgt
        rcases List.mem_cons.mp hx with rfl | hx2
        · have : ts' = ts := by rw [hlk] at hlk'; cases hlk'; rfl
          subst this
          exact List.mem_cons_of_mem _ (htgts tgt htgt)
        · exact List.mem_cons_of_mem _ (hc2 x hx2 ts' hlk' tgt htgt)
      · rw [List.nodup_append]
        refine ⟨hn2, List.nodup_singleton t, ?_⟩
        intro a ha hb
        rw [List.mem_singleton] at hb
        subst hb
        exact htnot ((hmem2 a).mpr ha)
      · rw [List.pairwise_append]
        refine ⟨hp2, List.pairwise_singleton _ _, ?_⟩
        intro x hx y hy he
        rw [List.mem_singleton] at hy
        subst hy
        -- x was visited before t, so its targets were already visited, but t
        -- was not: contradiction with the edge x → t
        rcases he with ⟨tsx, hlkx, hmx⟩
        exact htnot (hc2 x ((hmem2 x).mpr hx) tsx hlkx y hmx)

end JSQL

namespace JSQL

/-! ### Termination of the visitor on acyclic graphs -/

/-- Descendants of a table in the foreign-key graph. -/
def fkDesc (tables : List (String × TableSchema)) (t : String) : Set String :=
  {x | Relation.TransGen (fkEdge tables) t x}

theorem fkDesc_finite (tables : List (String × TableSchema)) (t : String) :
    (fkDesc tables t).Finite := by
  apply Set.Finite.subset
    (List.finite_toSet (tables.flatMap (fun p => p.2.FKs.map Prod.snd)))
  intro x hx
  have hlast : ∃ a, fkEdge tables a x := by
    induction hx with
    | single h => exact ⟨t, h⟩
    | tail _ h => exact ⟨_, h⟩
  obtain ⟨a, ts, hlk, hmem⟩ := hlast
  exact List.mem_flatMap.mpr ⟨(a, ts), alookup_some_mem hlk, hmem⟩

theorem fkDesc_ssubset {tables : List (String × TableSchema)}
    (hacyc : FKAcyclic tables) {t b : String} (he : fkEdge tables t b) :
    fkDesc tables b ⊂ fkDesc tables t := by
  constructor
  · intro x hx
    exact Relation.TransGen.head he hx
  · intro hsup
    exact hacyc b (hsup (Relation.TransGen.single he))

/-- On an acyclic graph every table is accessible along reversed foreign-key
edges (the well-foundedness behind the visitor's termination). -/
theorem fkAcc {tables : List (String × TableSchema)} (hacyc : FKAcyclic tables) :
    ∀ t, Acc (fun b a => fkEdge tables a b) t := by
  have main : ∀ (n : Nat) (t : String), (fkDesc tables t).ncard ≤ n →
      Acc (fun b a => fkEdge tables a b) t := by
    intro n
    induction n with
    | zero =>
        intro t hn
        constructor
        intro b hb
        have hlt : (fkDesc tables b).ncard < (fkDesc tables t).ncard :=
          Set.ncard_lt_ncard (fkDesc_ssubset hacyc hb) (fkDesc_finite tables t)
        omega
    | succ n ih =>
        intro t hn
        constructor
        intro b hb
        have hlt : (fkDesc tables b).ncard < (fkDesc tables t).ncard :=
          Set.ncard_lt_ncard (fkDesc_ssubset hacyc hb) (fkDesc_finite tables t)
        exact ih b (by omega)
  exact fun t => main (fkDesc tables t).ncard t le_rfl

/-- Sequencing successful visits: a visit of `x` followed by a visit of the
rest of the worklist combines, with enough fuel, into one visit. -/
theorem visitW_seq (tables : List (String × TableSchema)) {f1 f2 : Nat} {x : String}
    {ws : List String} {st st1 st2 : List String × List String}
    (h1 : visitW tables f1 [x] st = some st1)
    (h2 : visitW tables f2 ws st1 = some st2) :
    visitW tables (max f1 f2 + 1) (x :: ws) st = some st2 := by
  cases f1 with
  | zero => simp [visitW] at h1
  | succ g =>
      by_cases hmem : x ∈ st.1
      · rw [visitW, if_pos hmem] at h1
        rw [visitW] at h1
        cases h1
        rw [visitW, if_pos hmem]
        exact visitW_fuel_le tables (le_max_right _ _) h2
      · rw [visitW, if_neg hmem] at h1
        cases hlk : alookup tables x with
        | none => simp [hlk] at h1
        | some ts =>
            simp only [hlk] at h1
            cases hin : visitW tables g (ts.FKs.map Prod.snd) st with
            | none => simp [hin] at h1
            | some stI =>
                simp only [hin] at h1
                rw [visitW] at h1
                cases h1
                rw [visitW, if_neg hmem]
                have hg : g ≤ max (g + 1) f2 := le_trans (Nat.le_succ g) (le_max_left _ _)
                simp only [hlk]
                rw [visitW_fuel_le tables hg hin]
                exact visitW_fuel_le tables (le_max_right _ _) h2


theorem alookup_exists_of_mem_keys {α : Type} {m : List (String × α)} {k : String}
    (h : k ∈ m.map Prod.fst) : ∃ v, alookup m k = some v := by
  induction m with
  | nil => cases h
  | cons p rest ih =>
      rw [List.map_cons] at h
      by_cases hp : p.1 = k
      · exact ⟨p.2, by simp [alookup, hp]⟩
      · rcases List.mem_cons.mp h with h1 | h1
        · exact absurd h1.symm hp
        · obtain ⟨v, hv⟩ := ih h1
          exact ⟨v, by simp [alookup, hp, hv]⟩

/-- With enough fuel, a worklist of accessible, present tables is visited
successfully. -/
theorem visitW_exists (tables : List (String × TableSchema))
    (hclosed : ∀ p ∈ tables, ∀ q ∈ p.2.FKs, q.2 ∈ tables.map Prod.fst) :
    ∀ (ws : List String), (∀ x ∈ ws, Acc (fun b a => fkEdge tables a b) x) →
      (∀ x ∈ ws, x ∈ tables.map Prod.fst) →
      ∀ st, ∃ fuel st', visitW tables fuel ws st = some st' := by
  have single : ∀ (t : String), Acc (fun b a => fkEdge tables a b) t →
      t ∈ tables.map Prod.fst →
      ∀ st, ∃ fuel st', visitW tables fuel [t] st = some st' := by
    intro t hacc
    induction hacc with
    | intro t hsub ih =>
        intro htmem st
        by_cases hmem : t ∈ st.1
        · exact ⟨1, st, by rw [visitW, if_pos hmem, visitW]⟩
        · obtain ⟨ts, hlk⟩ := alookup_exists_of_mem_keys htmem
          have htgt_mem : ∀ x ∈ ts.FKs.map Prod.snd, x ∈ tables.map Prod.fst := by
            intro x hx
            rcases List.mem_map.mp hx with ⟨q, hq, rfl⟩
            exact hclosed (t, ts) (alookup_some_mem hlk) q hq
          have run : ∀ (l : List String),
              (∀ x ∈ l, x ∈ tables.map Prod.fst) →
              (∀ x ∈ l, fkEdge tables t x) →
              ∀ s, ∃ fuel s', visitW tables fuel l s = some s' := by
            intro l
            induction l with
            | nil => exact fun _ _ s => ⟨0, s, rfl⟩
            | cons x xs ihl =>
                intro hlm hle s
                obtain ⟨f1, s1, h1⟩ := ih x (hle x (List.mem_cons_self _ _))
                  (hlm x (List.mem_cons_self _ _)) s
                obtain ⟨f2, s2, h2⟩ := ihl
                  (fun y hy => hlm y (List.mem_cons_of_mem _ hy))
                  (fun y hy => hle y (List.mem_cons_of_mem _ hy)) s1
                exact ⟨max f1 f2 + 1, s2, visitW_seq tables h1 h2⟩
          obtain ⟨fI, sI, hI⟩ := run (ts.FKs.map Prod.snd) htgt_mem
            (fun x hx => ⟨ts, hlk, hx⟩) st
          refine ⟨fI + 1, (t :: sI.1, sI.2 ++ [t]), ?_⟩
          rw [visitW, if_neg hmem]
          simp only [hlk]
          rw [hI]
          simp [visitW]
  intro ws
  induction ws with
  | nil => exact fun _ _ st => ⟨0, st, rfl⟩
  | cons x xs ih =>
      intro hacc hmem st
      obtain ⟨f1, s1, h1⟩ := single x (hacc x (List.mem_cons_self _ _))
        (hmem x (List.mem_cons_self _ _)) st
      obtain ⟨f2, s2, h2⟩ := ih (fun y hy => hacc y (List.mem_cons_of_mem _ hy))
        (fun y hy => hmem y (List.mem_cons_of_mem _ hy)) s1
      exact ⟨max f1 f2 + 1, s2, visitW_seq tables h1 h2⟩

end JSQL

namespace JSQL

/-! ### Helper facts about foreign-key edges on concrete schemas -/

theorem fkEdge_none_of_nil {tables : List (String × TableSchema)} {x : String}
    {ts : TableSchema} (hlk : alookup tables x = some ts) (hn : ts.FKs = []) :
    ∀ y, ¬ fkEdge tables x y := by
  rintro y ⟨ts2, hlk2, hm⟩
  rw [hlk] at hlk2
  cases hlk2
  rw [hn] at hm
  simp at hm

theorem transGen_none_of_no_out {tables : List (String × TableSchema)} {x : String}
    (h : ∀ y, ¬ fkEdge tables x y) (z : String) :
    ¬ Relation.TransGen (fkEdge tables) x z := by
  intro ht
  induction ht with
  | single hs => exact h _ hs
  | tail _ _ ih => exact ih

/-- Acyclicity follows from any ranking that decreases along edges. -/
theorem fkAcyclic_of_rank {tables : List (String × TableSchema)} (rk : String → Nat)
    (h : ∀ a b, fkEdge tables a b → rk b < rk a) : FKAcyclic tables := by
  intro a hcyc
  have hlt : ∀ {x y : String}, Relation.TransGen (fkEdge tables) x y → rk y < rk x := by
    intro x y ht
    induction ht with
    | single hs => exact h _ _ hs
    | tail _ hs ih => exact lt_trans (h _ _ hs) ih
  exact absurd (hlt hcyc) (lt_irrefl _)

/-! ### Claim C2: topological correctness of the table order -/

/--
Claim C2, amended.  For every table mapping with duplicate-free keys whose
foreign keys all target present tables and whose foreign-key graph is acyclic,
`resolveTableOrder` (run with enough fuel) returns a sequence containing every
table name exactly once in which, for every foreign key `A.col → B`, `B`
precedes `A`.  The original claim's tie-break clause is dropped: independent
tables do NOT generally appear in lexicographic order of table name (only the
outer traversal over the sorted key list is lexicographic; a depth-first visit
pulls foreign-key targets in front of lexicographically smaller independent
tables — see the counterexample).
-/
theorem C2_resolveTableOrder_topological
    (tables : List (String × TableSchema))
    (hnd : (tables.map Prod.fst).Nodup)
    (hclosed : ∀ p ∈ tables, ∀ q ∈ p.2.FKs, q.2 ∈ tables.map Prod.fst)
    (hacyc : FKAcyclic tables) :
    ∃ fuel order, resolveTableOrder tables fuel = some order ∧
      order.Perm (tables.map Prod.fst) ∧
      ∀ a ts c tgt, (a, ts) ∈ tables → (c, tgt) ∈ ts.FKs →
        order.indexOf tgt < order.indexOf a := by
  obtain ⟨fuel, st', hrun⟩ := visitW_exists tables hclosed
    (sortStrings (tables.map Prod.fst))
    (fun x _ => fkAcc hacyc x)
    (fun x hx => mem_sortStrings.mp hx) ([], [])
  have hshape : st'.1 = st'.2.reverse := visitW_shape tables _ _ _ _ hrun rfl
  obtain ⟨hcl, hnodup, hpair⟩ := visitW_sorted tables hacyc _ _ _ _ hrun rfl
    (by intro x hx; cases hx) List.nodup_nil List.Pairwise.nil
  have hmemiff : ∀ x, x ∈ st'.2 ↔ x ∈ tables.map Prod.fst := by
    intro x
    constructor
    · intro hx
      have hx1 : x ∈ st'.1 := by rw [hshape]; exact List.mem_reverse.mpr hx
      rcases visitW_new tables _ _ _ _ hrun x hx1 with h0 | ⟨ts, hlk, _⟩
      · cases h0
      · exact alookup_some_mem_keys hlk
    · intro hx
      have hx1 : x ∈ st'.1 :=
        visitW_ws_mem tables _ _ _ _ hrun x (mem_sortStrings.mpr hx)
      rw [hshape] at hx1
      exact List.mem_reverse.mp hx1
  refine ⟨fuel, st'.2, ?_, ?_, ?_⟩
  · rw [resolveTableOrder, hrun]
    rfl
  · exact (List.perm_ext_iff_of_nodup hnodup hnd).mpr hmemiff
  · intro a ts c tgt hats hcts
    have hlk : alookup tables a = some ts := alookup_mem hnd hats
    have htgt : tgt ∈ ts.FKs.map Prod.snd := List.mem_map.mpr ⟨(c, tgt), hcts, rfl⟩
    have he : fkEdge tables a tgt := ⟨ts, hlk, htgt⟩
    have hane : a ≠ tgt := by
      intro hae
      exact hacyc a (Relation.TransGen.single (hae ▸ he))
    have ha2 : a ∈ st'.2 := (hmemiff a).mpr (List.mem_map.mpr ⟨(a, ts), hats, rfl⟩)
    have ht2 : tgt ∈ st'.2 := (hmemiff tgt).mpr (hclosed (a, ts) hats (c, tgt) hcts)
    have hia : st'.2.indexOf a < st'.2.length := List.indexOf_lt_length.mpr ha2
    have hit : st'.2.indexOf tgt < st'.2.length := List.indexOf_lt_length.mpr ht2
    rcases Nat.lt_trichotomy (st'.2.indexOf tgt) (st'.2.indexOf a) with h | h | h
    · exact h
    · exfalso
      apply hane
      have h1 : st'.2.get ⟨st'.2.indexOf a, hia⟩ = a := List.indexOf_get hia
      have h2 : st'.2.get ⟨st'.2.indexOf tgt, hit⟩ = tgt := List.indexOf_get hit
      rw [← h1, ← h2]
      congr 1
      exact Fin.ext h.symm
    · exfalso
      have hpg := List.pairwise_iff_get.mp hpair ⟨_, hia⟩ ⟨_, hit⟩ h
      rw [List.indexOf_get hia, List.indexOf_get hit] at hpg
      exact hpg he

end JSQL

namespace JSQL

/-- Table with no foreign keys, used in concrete instances. -/
def tsNoFK (n : String) : TableSchema := ⟨n, [("id", TypeInt)], [], []⟩

/-- Three tables: `a` references `c`; `b` and `c` are independent. -/
def exC2 : List (String × TableSchema) :=
  [("a", ⟨"a", [("id", TypeInt), ("c_id", TypeInt)], [("c_id", "c")], []⟩),
   ("b", tsNoFK "b"),
   ("c", tsNoFK "c")]

theorem exC2_lookup_a :
    alookup exC2 "a" = some ⟨"a", [("id", TypeInt), ("c_id", TypeInt)], [("c_id", "c")], []⟩ := by
  decide

theorem exC2_lookup_b : alookup exC2 "b" = some (tsNoFK "b") := by decide

theorem exC2_lookup_c : alookup exC2 "c" = some (tsNoFK "c") := by decide

theorem exC2_edge {x y : String} (h : fkEdge exC2 x y) : x = "a" ∧ y = "c" := by
  obtain ⟨ts, hlk, hm⟩ := h
  by_cases hxa : x = "a"
  · subst hxa
    rw [exC2_lookup_a] at hlk
    cases hlk
    simp at hm
    exact ⟨rfl, hm⟩
  · by_cases hxb : x = "b"
    · subst hxb
      rw [exC2_lookup_b] at hlk
      cases hlk
      simp [tsNoFK] at hm
    · by_cases hxc : x = "c"
      · subst hxc
        rw [exC2_lookup_c] at hlk
        cases hlk
        simp [tsNoFK] at hm
      · have : alookup exC2 x = none := by
          simp only [exC2, alookup]
          rw [if_neg (fun h => hxa h.symm), if_neg (fun h => hxb h.symm),
            if_neg (fun h => hxc h.symm)]
        rw [this] at hlk
        cases hlk

theorem exC2_acyclic : FKAcyclic exC2 := by
  apply fkAcyclic_of_rank (fun x => if x = "a" then 1 else 0)
  intro a b h
  obtain ⟨rfl, rfl⟩ := exC2_edge h
  simp

/--
Claim C2, counterexample.  The input `exC2` satisfies every hypothesis of the
claim (duplicate-free keys, foreign keys target present tables, acyclic), yet
`resolveTableOrder` returns `["c", "a", "b"]`: the tables `b` and `c` are
independent (neither reaches the other through foreign keys) and `"b" < "c"`
lexicographically, but `c` appears before `b`.  The claimed lexicographic
tie-break for independent tables therefore fails: the depth-first visit of
`a` appends its target `c` before the outer loop ever reaches `b`.
-/
theorem C2_counterexample :
    (exC2.map Prod.fst).Nodup ∧
    (∀ p ∈ exC2, ∀ q ∈ p.2.FKs, q.2 ∈ exC2.map Prod.fst) ∧
    FKAcyclic exC2 ∧
    resolveTableOrder exC2 10 = some ["c", "a", "b"] ∧
    (¬ Relation.TransGen (fkEdge exC2) "b" "c") ∧
    (¬ Relation.TransGen (fkEdge exC2) "c" "b") ∧
    strLeP "b" "c" ∧ "b" ≠ "c" ∧
    ["c", "a", "b"].indexOf "c" < ["c", "a", "b"].indexOf "b" := by
  refine ⟨by decide, by decide, exC2_acyclic, by decide, ?_, ?_, by decide, by decide, by decide⟩
  · exact transGen_none_of_no_out (fkEdge_none_of_nil exC2_lookup_b rfl) "c"
  · exact transGen_none_of_no_out (fkEdge_none_of_nil exC2_lookup_c rfl) "b"

/-- Two tables, `p` referencing `q`; concrete instance for the C2 witness. -/
def exC2w : List (String × TableSchema) :=
  [("p", ⟨"p", [("id", TypeInt), ("q_id", TypeInt)], [("q_id", "q")], []⟩),
   ("q", tsNoFK "q")]

theorem exC2w_edge {x y : String} (h : fkEdge exC2w x y) : x = "p" ∧ y = "q" := by
  obtain ⟨ts, hlk, hm⟩ := h
  by_cases hxp : x = "p"
  · subst hxp
    have : alookup exC2w "p"
        = some ⟨"p", [("id", TypeInt), ("q_id", TypeInt)], [("q_id", "q")], []⟩ := by decide
    rw [this] at hlk
    cases hlk
    simp at hm
    exact ⟨rfl, hm⟩
  · by_cases hxq : x = "q"
    · subst hxq
      have : alookup exC2w "q" = some (tsNoFK "q") := by decide
      rw [this] at hlk
      cases hlk
      simp [tsNoFK] at hm
    · have : alookup exC2w x = none := by
        simp only [exC2w, alookup]
        rw [if_neg (fun h => hxp h.symm), if_neg (fun h => hxq h.symm)]
      rw [this] at hlk
      cases hlk

theorem exC2w_acyclic : FKAcyclic exC2w := by
  apply fkAcyclic_of_rank (fun x => if x = "p" then 1 else 0)
  intro a b h
  obtain ⟨rfl, rfl⟩ := exC2w_edge h
  simp

/-- Witness for `C2_resolveTableOrder_topological` at the concrete schema
`exC2w`, discharging all hypotheses. -/
theorem C2_witness :
    ((exC2w.map Prod.fst).Nodup ∧
      (∀ p ∈ exC2w, ∀ q ∈ p.2.FKs, q.2 ∈ exC2w.map Prod.fst) ∧ FKAcyclic exC2w) ∧
    (∃ fuel order, resolveTableOrder exC2w fuel = some order ∧
      order.Perm (exC2w.map Prod.fst) ∧
      ∀ a ts c tgt, (a, ts) ∈ exC2w → (c, tgt) ∈ ts.FKs →
        order.indexOf tgt < order.indexOf a) :=
  ⟨⟨by decide, by decide, exC2w_acyclic⟩,
    C2_resolveTableOrder_topological exC2w (by decide) (by decide) exC2w_acyclic⟩

end JSQL

namespace JSQL

/-! ### Claim C9: behaviour on a missing referenced table -/

/--
Claim C9, amended.  When a table's foreign key references a table name absent
from the mapping, `resolveTableOrder` does NOT silently skip it: the Go
visitor evaluates `tables[fk].FKs` on a nil pointer and panics, so no order is
ever returned (modelled: the result is `none` for every fuel).  The claimed
"missing reference is simply not expanded" behaviour does not exist in the
code.
-/
theorem C9_resolveTableOrder_missing_target_aborts
    (tables : List (String × TableSchema))
    (hnd : (tables.map Prod.fst).Nodup)
    {t : String} {ts : TableSchema} {c tgt : String}
    (hmem : (t, ts) ∈ tables) (hfk : (c, tgt) ∈ ts.FKs)
    (habs : tgt ∉ tables.map Prod.fst) :
    ∀ fuel, resolveTableOrder tables fuel = none := by
  intro fuel
  cases hres : visitW tables fuel (sortStrings (tables.map Prod.fst)) ([], []) with
  | none => simp [resolveTableOrder, hres]
  | some st' =>
      exfalso
      have ht : t ∈ st'.1 := visitW_ws_mem tables _ _ _ _ hres t
        (mem_sortStrings.mpr (List.mem_map.mpr ⟨(t, ts), hmem, rfl⟩))
      rcases visitW_new tables _ _ _ _ hres t ht with h0 | ⟨ts2, hlk2, htgts⟩
      · cases h0
      · have hts : ts2 = ts := by
          rw [alookup_mem hnd hmem] at hlk2
          cases hlk2
          rfl
        subst hts
        have htgtmem : tgt ∈ st'.1 :=
          htgts tgt (List.mem_map.mpr ⟨(c, tgt), hfk, rfl⟩)
        rcases visitW_new tables _ _ _ _ hres tgt htgtmem with h0 | ⟨ts3, hlk3, _⟩
        · cases h0
        · exact habs (alookup_some_mem_keys hlk3)

/-- Single table `a` whose foreign key references the absent table `b`. -/
def exC9 : List (String × TableSchema) :=
  [("a", ⟨"a", [("id", TypeInt), ("b_id", TypeInt)], [("b_id", "b")], []⟩)]

/--
Claim C9, counterexample.  On `exC9` (one table `a` with a foreign key to the
absent table `b`) the claim asserts that `resolveTableOrder` raises no error
and still returns an order for the present tables; in fact the run aborts (the
Go code dereferences the nil map entry `tables["b"]`): the model returns
`none`, not an order, at small and large fuel alike.
-/
theorem C9_counterexample :
    resolveTableOrder exC9 10 = none ∧ resolveTableOrder exC9 1000000 = none := by
  constructor
  · decide
  · have h1 : ("a" : String) ∉ (([], []) : List String × List String).1 := by decide
    have h2 : alookup exC9 "a"
        = some ⟨"a", [("id", TypeInt), ("b_id", TypeInt)], [("b_id", "b")], []⟩ := by decide
    have h3 : sortStrings (exC9.map Prod.fst) = ["a"] := by decide
    rw [resolveTableOrder, h3]
    rw [visitW, if_neg h1]
    simp only [h2]
    have h4 : alookup exC9 "b" = none := by decide
    have hb : ("b" : String) ∉ (([], []) : List String × List String).1 := by decide
    rw [show (⟨"a", [("id", TypeInt), ("b_id", TypeInt)], [("b_id", "b")], []⟩ :
      TableSchema).FKs.map Prod.snd = ["b"] from rfl]
    rw [visitW, if_neg hb]
    simp [h4]

/-- Witness for `C9_resolveTableOrder_missing_target_aborts` at `exC9`. -/
theorem C9_witness :
    ((exC9.map Prod.fst).Nodup ∧ ("a", (⟨"a", [("id", TypeInt), ("b_id", TypeInt)],
      [("b_id", "b")], []⟩ : TableSchema)) ∈ exC9 ∧
      ("b_id", "b") ∈ (⟨"a", [("id", TypeInt), ("b_id", TypeInt)],
        [("b_id", "b")], []⟩ : TableSchema).FKs ∧
      "b" ∉ exC9.map Prod.fst) ∧
    resolveTableOrder exC9 7 = none :=
  ⟨⟨by decide, by decide, by decide, by decide⟩,
    @C9_resolveTableOrder_missing_target_aborts exC9 (by decide) "a"
      ⟨"a", [("id", TypeInt), ("b_id", TypeInt)], [("b_id", "b")], []⟩ "b_id" "b"
      (by decide) (by decide) (by decide) 7⟩

end JSQL

namespace JSQL

/-! ## Text primitives (Go `strings` / `regexp` behaviour on DDL lines)

The DDL parser in `schema.go` is line-oriented: `strings.Split(ddl, "\n")`,
`strings.TrimSpace`, and two regular expressions.  These are modelled as
total functions on character lists. -/

/-- Go `strings.Split(s, "\n")`: maximal `\n`-free chunks; a trailing newline
yields a trailing empty chunk, and the empty string yields one empty chunk. -/
def splitNL : List Char → List (List Char)
  | [] => [[]]
  | c :: rest =>
      let r := splitNL rest
      if c = '\n' then [] :: r else (c :: r.headI) :: r.tail

theorem splitNL_ne_nil (cs : List Char) : splitNL cs ≠ [] := by
  cases cs with
  | nil => simp [splitNL]
  | cons c rest =>
      rw [splitNL]
      by_cases h : c = '\n' <;> simp [h]

theorem splitNL_append_newline {l : List Char} (hl : '\n' ∉ l) (r : List Char) :
    splitNL (l ++ '\n' :: r) = l :: splitNL r := by
  induction l with
  | nil => simp [splitNL]
  | cons c cs ih =>
      have hc : c ≠ '\n' := fun h => hl (h ▸ List.mem_cons_self _ _)
      have ih' := ih (fun h => hl (List.mem_cons_of_mem _ h))
      rw [List.cons_append, splitNL, ih']
      simp [hc]

/-- ASCII word character, Go regexp `\w` = `[0-9A-Za-z_]`. -/
def isWordChar (c : Char) : Bool :=
  (('a' ≤ c && c ≤ 'z') || ('A' ≤ c && c ≤ 'Z') || ('0' ≤ c && c ≤ '9') || c = '_')

/-- Go regexp `\s` inside the DDL line patterns. -/
def isSpaceChar (c : Char) : Bool :=
  c = ' ' || c = '\t' || c = '\n' || c = '\r' || c = '\x0c' || c = '\x0b'

/-- Go `strings.TrimSpace` (on newline-free DDL lines only spaces/tabs occur). -/
def trimSpace (cs : List Char) : List Char :=
  ((cs.dropWhile isSpaceChar).reverse.dropWhile isSpaceChar).reverse

/-- Case-insensitive literal prefix match, returning the remainder
(Go regexp `(?i)` on a literal). -/
def stripCI : List Char → List Char → Option (List Char)
  | [], cs => some cs
  | _ :: _, [] => none
  | p :: ps, c :: cs => if p.toLower = c.toLower then stripCI ps cs else none

/-- Exact literal prefix match, returning the remainder. -/
def stripLit : List Char → List Char → Option (List Char)
  | [], cs => some cs
  | _ :: _, [] => none
  | p :: ps, c :: cs => if p = c then stripLit ps cs else none

/-- Go `strings.HasPrefix`. -/
def hasPre (s pre : List Char) : Bool :=
  (stripLit pre s).isSome

/-- Go `strings.Contains(s, sub)`. -/
def containsSub (s sub : List Char) : Bool :=
  match s with
  | [] => (stripLit sub []).isSome
  | _ :: rest => (stripLit sub s).isSome || containsSub rest sub

/-- Go `strings.ToUpper` (ASCII, which is all `\w` can capture). -/
def toUpperStr (s : List Char) : List Char := s.map Char.toUpper

/-- Match of `(?i)^CREATE TABLE (\w+)` against a line. -/
def matchCreateTable (cs : List Char) : Option String :=
  match stripCI "CREATE TABLE ".data cs with
  | none => none
  | some rest =>
      let w := rest.takeWhile isWordChar
      if w.isEmpty then none else some (String.mk w)

/-- Match of `^\s*(\w+)\s+(\w+)(.*)$` against a (trimmed) line: the column
word, the type word, and the raw remainder. -/
def matchFieldLine (cs : List Char) : Option (String × String × List Char) :=
  let cs1 := cs.dropWhile isSpaceChar
  let w1 := cs1.takeWhile isWordChar
  let r1 := cs1.dropWhile isWordChar
  if w1.isEmpty then none
  else
    let sp := r1.takeWhile isSpaceChar
    let r2 := r1.dropWhile isSpaceChar
    if sp.isEmpty then none
    else
      let w2 := r2.takeWhile isWordChar
      let r3 := r2.dropWhile isWordChar
      if w2.isEmpty then none else some (String.mk w1, String.mk w2, r3)

/-- Leftmost match of `REFERENCES\s+(\w+)`: the captured target word. -/
def findRefTarget : List Char → Option String
  | [] => none
  | c :: rest =>
      match stripLit "REFERENCES".data (c :: rest) with
      | some r1 =>
          let sp := r1.takeWhile isSpaceChar
          let r2 := r1.dropWhile isSpaceChar
          let w := r2.takeWhile isWordChar
          if sp.isEmpty || w.isEmpty then findRefTarget rest else some (String.mk w)
      | none => findRefTarget rest

end JSQL

namespace JSQL

/-! ## DDL parser (`schema.go`, `ParseDDL`) -/

/-- State of the line loop: the tables built so far and the name of the table
currently being filled (Go's `curr` pointer; the map always holds the same
object, so the name identifies it). -/
abbrev PDState := List (String × TableSchema) × Option String

/-- Application of one parsed column-definition line to the current table:
record the (uppercased) type and, when the remainder carries a `REFERENCES`
clause, the foreign key. -/
def applyFieldLine (ts : TableSchema) (col typU : String) (rest : List Char) : TableSchema :=
  let ts1 := { ts with Fields := aset ts.Fields col typU }
  if containsSub rest "REFERENCES".data then
    match findRefTarget rest with
    | some tgt => { ts1 with FKs := aset ts1.FKs col tgt }
    | none => ts1
  else ts1

/-- One iteration of the `ParseDDL` line loop. -/
def parseDDLLine (st : PDState) (rawLine : List Char) : PDState :=
  let line := trimSpace rawLine
  if line = [] then st
  else if hasPre line "--".data then st
  else
    match matchCreateTable line with
    | some name => (aset st.1 name ⟨name, [], [], []⟩, some name)
    | none =>
        match st.2 with
        | none => st
        | some cur =>
            if hasPre line ");".data || line = ");".data || line = ")".data then
              (st.1, none)
            else
              match matchFieldLine line with
              | none => st
              | some (col, typ, rest) =>
                  match alookup st.1 cur with
                  | none => st
                  | some ts =>
                      (aset st.1 cur
                        (applyFieldLine ts col (String.mk (toUpperStr typ.data)) rest),
                        some cur)

/-- The table map produced by `ParseDDL` (before the table-order pass). -/
def parseDDLTables (ddl : String) : List (String × TableSchema) :=
  ((splitNL ddl.data).foldl parseDDLLine ([], none)).1

/-- Model of `ParseDDL`: the table map plus `resolveTableOrder` (which may
abort, hence the fuel and the `Option`). -/
def ParseDDL (ddl : String) (fuel : Nat) : Option DatabaseSchema :=
  let tabs := parseDDLTables ddl
  (resolveTableOrder tabs fuel).map (fun ord => ⟨tabs, ord⟩)

/-! ## DDL emitter (`analyzer.go`, lines 166–227 of `AnalyzeJSONWithOptions`) -/

/-- One emitted column definition (no trailing comma), as in the emitter's
`switch`: symbol-redirected fields are replaced by `<k>_symbol INTEGER
REFERENCES <k>_symbol(id)`; otherwise the natural type, `PRIMARY KEY` on
`id`, and a `REFERENCES` clause when a foreign key is recorded.  A missing
type reads as Go's zero value `""`. -/
def emitColumn (symbolFields symbolJSONFields : List String) (ts : TableSchema)
    (k : String) : List Char :=
  if symbolFields.contains k then
    ("  " ++ k ++ "_symbol INTEGER REFERENCES " ++ k ++ "_symbol(id)").data
  else if symbolJSONFields.contains k then
    ("  " ++ k ++ "_symbol INTEGER REFERENCES " ++ k ++ "_symbol(id)").data
  else
    ("  " ++ k ++ " " ++ (alookup ts.Fields k).getD "").data
      ++ (if k = "id" then " PRIMARY KEY".data else [])
      ++ (match alookup ts.FKs k with
          | some fk => (" REFERENCES " ++ fk ++ "(id)").data
          | none => [])

/-- One emitted `CREATE TABLE` block, columns in sorted key order, comma
separated, closed by `\n);\n\n`. -/
def joinSep (sep : List Char) : List (List Char) → List Char
  | [] => []
  | [c] => c
  | c :: c2 :: rest => c ++ sep ++ joinSep sep (c2 :: rest)

def emitTableBlock (symbolFields symbolJSONFields : List String)
    (ts : TableSchema) : List Char :=
  ("CREATE TABLE " ++ ts.Name ++ " (\n").data
    ++ joinSep ",\n".data
        ((sortStrings (ts.Fields.map Prod.fst)).map
          (emitColumn symbolFields symbolJSONFields ts))
    ++ "\n);\n\n".data

/-- One emitted symbol-table block. -/
def emitSymbolBlock (field : String) : List Char :=
  ("CREATE TABLE " ++ field ++ "_symbol (\n  id INTEGER PRIMARY KEY,\n  value TEXT UNIQUE\n);\n\n").data

/-- One emitted `CREATE INDEX` statement (`strings.Join` on the columns). -/
def emitIndexLine (idx : IndexDef) : List Char :=
  ("CREATE " ++ (if idx.Unique then "UNIQUE " else "") ++ "INDEX " ++ idx.Name
    ++ " ON " ++ idx.Table ++ " (").data
    ++ joinSep ", ".data (idx.Columns.map String.data) ++ ");\n".data

/-- The emitted index section for one table (a blank separator line follows
any table that has indexes). -/
def emitIndexBlock (ts : TableSchema) : List Char :=
  (ts.Indexes.map emitIndexLine).flatten
    ++ (if ts.Indexes.length > 0 then "\n".data else [])

/-- The full DDL text emitted by the analyzer for a given schema map, symbol
decisions and table order; `none` when a table named by `order` is missing
(Go would dereference a nil map entry). -/
def emitDDL (schema : List (String × TableSchema))
    (symbolFields symbolJSONFields : List String) (order : List String) :
    Option String := do
  let blocks ← order.mapM (fun tbl => (alookup schema tbl).map
    (emitTableBlock symbolFields symbolJSONFields))
  let idxBlocks ← order.mapM (fun tbl => (alookup schema tbl).map emitIndexBlock)
  let symBlocks := symbolFields.map emitSymbolBlock
    ++ (symbolJSONFields.filter (fun f => !symbolFields.contains f)).map emitSymbolBlock
  pure (String.mk (blocks.flatten ++ symBlocks.flatten ++ idxBlocks.flatten))

end JSQL

namespace JSQL

/-! ### Word-string facts used by the DDL round-trip -/

/-- Nonempty string of `\w` characters. -/
def wordB (s : String) : Bool := !s.data.isEmpty && s.data.all isWordChar

/-- The five field types the analyzer emits. -/
def T5 : List FieldType := [TypeInt, TypeReal, TypeText, TypeBool, TypeJSON]

theorem toLower_eq_space {c : Char} (h : c.toLower = ' ') : c = ' ' := by
  unfold Char.toLower at h
  dsimp only at h
  by_cases hc : c.toNat ≥ 65 ∧ c.toNat ≤ 90
  · exfalso
    rw [if_pos hc] at h
    obtain ⟨h1, h2⟩ := hc
    have h3 : c.toNat + 32 ≥ 97 := by omega
    have h4 : c.toNat + 32 ≤ 122 := by omega
    set m := c.toNat + 32 with hm
    clear_value m
    interval_cases m <;> exact absurd h (by decide)
  · rw [if_neg hc] at h
    exact h

theorem wordChar_not_spaceChar {c : Char} (h : isWordChar c = true) :
    isSpaceChar c = false := by
  by_contra hs
  rw [Bool.not_eq_false] at hs
  simp only [isSpaceChar, Bool.or_eq_true, decide_eq_true_eq] at hs
  rcases hs with ((((rfl | rfl) | rfl) | rfl) | rfl) | rfl <;> simp [isWordChar] at h

theorem wordChar_ne {c : Char} (h : isWordChar c = true) :
    c ≠ ' ' ∧ c ≠ '\n' ∧ c ≠ '-' ∧ c ≠ ')' ∧ c ≠ ',' ∧ c ≠ '(' := by
  refine ⟨?_, ?_, ?_, ?_, ?_, ?_⟩ <;> (intro he; subst he; exact absurd h (by decide))

/-- A run of satisfying characters followed by a stopping character (or the
end) is taken and dropped exactly. -/
theorem takeWhile_run {p : Char → Bool} {w r : List Char}
    (hw : ∀ c ∈ w, p c = true) (hr : ∀ c cs, r = c :: cs → p c = false) :
    (w ++ r).takeWhile p = w ∧ (w ++ r).dropWhile p = r := by
  induction w with
  | nil =>
      cases r with
      | nil => exact ⟨rfl, rfl⟩
      | cons c cs =>
          have := hr c cs rfl
          simp [List.takeWhile, List.dropWhile, this]
  | cons a w' ih =>
      have ha : p a = true := hw a (List.mem_cons_self _ _)
      have ⟨iht, ihd⟩ := ih (fun c hc => hw c (List.mem_cons_of_mem _ hc))
      simp [List.takeWhile, List.dropWhile, ha, iht, ihd]

theorem dropWhile_no {p : Char → Bool} {r : List Char}
    (hr : ∀ c cs, r = c :: cs → p c = false) : r.dropWhile p = r := by
  have := (takeWhile_run (w := []) (by intro c hc; cases hc) hr).2
  simpa using this

/-- Trimming a string of the shape spaces ++ core, where core starts and ends
with a non-space character, yields core. -/
theorem trimSpace_spec {sp core : List Char}
    (hsp : ∀ c ∈ sp, isSpaceChar c = true)
    (hhead : ∀ c cs, core = c :: cs → isSpaceChar c = false)
    (hlast : ∀ c cs, core.reverse = c :: cs → isSpaceChar c = false) :
    trimSpace (sp ++ core) = core := by
  rw [trimSpace]
  rw [(takeWhile_run hsp hhead).2]
  rw [dropWhile_no hlast]
  exact List.reverse_reverse core

/-- Exact-literal strip of a prefix of itself. -/
theorem stripLit_self_append (p r : List Char) : stripLit p (p ++ r) = some r := by
  induction p with
  | nil => rfl
  | cons c cs ih => simp [stripLit, ih]

/-- Case-insensitive strip of a prefix of itself. -/
theorem stripCI_self_append (p r : List Char) : stripCI p (p ++ r) = some r := by
  induction p with
  | nil => rfl
  | cons c cs ih => simp [stripCI, ih]

/-- A successful case-insensitive strip against a word run followed by a
space: either every pattern character has a word-character partner, or the
pattern splits at a space exactly at the word run's length. -/
theorem stripCI_word_space : ∀ (p w z : List Char) (r : List Char),
    (∀ c ∈ w, isWordChar c = true) → stripCI p (w ++ ' ' :: z) = some r →
    (∀ c ∈ p, ∃ d, isWordChar d = true ∧ c.toLower = d.toLower) ∨
    (∃ p1 p2, p = p1 ++ ' ' :: p2 ∧ p1.length = w.length ∧
      (∀ c ∈ p1, ∃ d, isWordChar d = true ∧ c.toLower = d.toLower) ∧
      stripCI p2 z = some r) := by
  intro p w
  induction w generalizing p with
  | nil =>
      intro z r _ h
      cases p with
      | nil => exact Or.inl (fun c hc => absurd hc (List.not_mem_nil c))
      | cons c ps =>
          simp only [List.nil_append] at h
          rw [stripCI] at h
          by_cases hc : c.toLower = ' '.toLower
          · rw [if_pos hc] at h
            have hcs : c = ' ' := toLower_eq_space hc
            subst hcs
            exact Or.inr ⟨[], ps, rfl, rfl, fun c hc => absurd hc (List.not_mem_nil c), h⟩
          · rw [if_neg hc] at h
            cases h
  | cons a w' ih =>
      intro z r hw h
      cases p with
      | nil => exact Or.inl (fun c hc => absurd hc (List.not_mem_nil c))
      | cons c ps =>
          simp only [List.cons_append] at h
          rw [stripCI] at h
          by_cases hc : c.toLower = a.toLower
          · rw [if_pos hc] at h
            have ha : isWordChar a = true := hw a (List.mem_cons_self _ _)
            rcases ih ps z r (fun d hd => hw d (List.mem_cons_of_mem _ hd)) h with
              hall | ⟨p1, p2, hp, hlen, hpart, hrest⟩
            · refine Or.inl ?_
              intro x hx
              rcases List.mem_cons.mp hx with rfl | hx'
              · exact ⟨a, ha, hc⟩
              · exact hall x hx'
            · refine Or.inr ⟨c :: p1, p2, by rw [hp]; rfl, by simp [hlen], ?_, hrest⟩
              intro x hx
              rcases List.mem_cons.mp hx with rfl | hx'
              · exact ⟨a, ha, hc⟩
              · exact hpart x hx'
          · rw [if_neg hc] at h
            cases h

theorem no_word_partner_space : ¬ ∃ d, isWordChar d = true ∧ ' '.toLower = d.toLower := by
  rintro ⟨d, hd, he⟩
  have : d = ' ' := toLower_eq_space he.symm
  subst this
  simp [isWordChar] at hd

end JSQL

namespace JSQL

theorem wordB_ne_nil {s : String} (h : wordB s = true) : s.data ≠ [] := by
  have := (Bool.and_eq_true _ _ |>.mp h).1
  simpa using this

theorem wordB_all {s : String} (h : wordB s = true) : ∀ c ∈ s.data, isWordChar c = true := by
  have := (Bool.and_eq_true _ _ |>.mp h).2
  simpa [List.all_eq_true] using this

/-- Character lists that end in a non-space character (trailing trim is a
no-op on them). -/
def EndsNonSpace (l : List Char) : Prop :=
  ∀ c cs, l.reverse = c :: cs → isSpaceChar c = false

theorem endsNonSpace_append {a b : List Char} (hb : EndsNonSpace b) (hbne : b ≠ []) :
    EndsNonSpace (a ++ b) := by
  intro c cs h
  rw [List.reverse_append] at h
  cases hbr : b.reverse with
  | nil => exact absurd (by simpa using congrArg List.reverse hbr) hbne
  | cons d ds =>
      rw [hbr, List.cons_append] at h
      injection h with h1 h2
      exact h1 ▸ hb d ds hbr

theorem endsNonSpace_word {s : String} (h : wordB s = true) : EndsNonSpace s.data := by
  intro c cs hr
  have hc : c ∈ s.data := by
    rw [← List.mem_reverse, hr]
    exact List.mem_cons_self _ _
  exact wordChar_not_spaceChar (wordB_all h c hc)

/-- Trimming is the identity on lines that start and end with non-space. -/
theorem trimSpace_id {l : List Char}
    (hhead : ∀ c cs, l = c :: cs → isSpaceChar c = false) (hlast : EndsNonSpace l) :
    trimSpace l = l := by
  have := @trimSpace_spec [] _ (by intro c hc; cases hc) hhead hlast
  simpa using this

theorem containsSub_append_right {x sub : List Char} (pre : List Char)
    (h : containsSub x sub = true) : containsSub (pre ++ x) sub = true := by
  induction pre with
  | nil => simpa using h
  | cons c cs ih =>
      cases hx : cs ++ x with
      | nil =>
          rw [hx] at ih
          cases x with
          | nil =>
              simp only [containsSub] at h ⊢
              cases sub with
              | nil => simp [stripLit]
              | cons s ss => simp [stripLit] at h
          | cons y ys => simp at hx
      | cons d ds =>
          simp only [List.cons_append, containsSub, hx]
          rw [← hx]
          simp [ih]

theorem containsSub_here {s sub r : List Char} (h : s = sub ++ r) :
    containsSub s sub = true := by
  subst h
  cases hs : sub ++ r with
  | nil =>
      simp only [containsSub]
      cases sub with
      | nil => simp [stripLit]
      | cons c cs => simp at hs
  | cons c cs =>
      simp only [containsSub, hs]
      rw [← hs]
      simp [stripLit_self_append]

end JSQL

namespace JSQL

/-- A column definition line never looks like a `CREATE TABLE` header: the
single space after the (word) column name would have to align with one of the
pattern's spaces, forcing the column to be named `create` and the type to
start like `TABLE`, which none of the five analyzer types does. -/
theorem matchCreateTable_column {k : String} (hk : wordB k = true)
    {type : FieldType} (ht : type ∈ T5) (rest : List Char) :
    matchCreateTable (k.data ++ ' ' :: (type.data ++ rest)) = none := by
  rw [matchCreateTable]
  cases hstrip : stripCI "CREATE TABLE ".data (k.data ++ ' ' :: (type.data ++ rest)) with
  | none => rfl
  | some r =>
      exfalso
      rcases stripCI_word_space _ _ _ _ (wordB_all hk) hstrip with
        hall | ⟨p1, p2, hp, hlen, hpart, hrest⟩
      · exact no_word_partner_space (hall ' ' (by decide))
      · have hget : ("CREATE TABLE ".data).get? p1.length = some ' ' := by
          rw [hp, List.get?_append_right (le_refl _)]
          simp
        have hlt : p1.length < 13 := by
          obtain ⟨hbound, _⟩ := List.get?_eq_some.mp hget
          have h13 : ("CREATE TABLE ".data).length = 13 := by decide
          omega
        have h612 : p1.length = 6 ∨ p1.length = 12 := by
          have hkey : ∀ n, n < 13 → ("CREATE TABLE ".data).get? n = some ' ' →
              n = 6 ∨ n = 12 := by decide
          exact hkey p1.length hlt hget
        have hsplit : p1.length = 6 := by
          rcases h612 with h6 | h12
          · exact h6
          · exfalso
            have hsp_mem : (' ' : Char) ∈ p1 := by
              have hpeq : p1 = ("CREATE TABLE ".data).take p1.length := by
                rw [hp]
                exact (List.take_left _ _).symm
              rw [hpeq, h12]
              decide
            exact no_word_partner_space (hpart ' ' hsp_mem)
        have hp2 : p2 = "TABLE ".data := by
          have hdrop : ' ' :: p2 = ("CREATE TABLE ".data).drop p1.length := by
            rw [hp]
            exact (List.drop_left _ _).symm
          rw [hsplit] at hdrop
          have : ("CREATE TABLE ".data).drop 6 = ' ' :: "TABLE ".data := by decide
          rw [this] at hdrop
          simpa using hdrop
        rw [hp2] at hrest
        fin_cases ht <;>
          simp [TypeInt, TypeReal, TypeText, TypeBool, TypeJSON, stripCI] at hrest

/-- The field-line pattern splits an emitted column line into the column
word, the type word and the raw remainder. -/
theorem matchFieldLine_spec {k type : String} (hk : wordB k = true)
    (ht : wordB type = true) {rest : List Char}
    (hrest : ∀ c cs, rest = c :: cs → isWordChar c = false) :
    matchFieldLine (k.data ++ ' ' :: (type.data ++ rest)) = some (k, type, rest) := by
  obtain ⟨c0, k', hk0⟩ : ∃ c0 k', k.data = c0 :: k' := by
    cases hkd : k.data with
    | nil => exact absurd hkd (wordB_ne_nil hk)
    | cons a b => exact ⟨a, b, rfl⟩
  have hc0 : isWordChar c0 = true := wordB_all hk c0 (by rw [hk0]; exact List.mem_cons_self _ _)
  obtain ⟨d0, t', ht0⟩ : ∃ d0 t', type.data = d0 :: t' := by
    cases htd : type.data with
    | nil => exact absurd htd (wordB_ne_nil ht)
    | cons a b => exact ⟨a, b, rfl⟩
  have hd0 : isWordChar d0 = true := wordB_all ht d0 (by rw [ht0]; exact List.mem_cons_self _ _)
  have hdw : (k.data ++ ' ' :: (type.data ++ rest)).dropWhile isSpaceChar
      = k.data ++ ' ' :: (type.data ++ rest) := by
    apply dropWhile_no
    intro c cs h
    rw [hk0, List.cons_append] at h
    injection h with h1 _
    exact h1 ▸ wordChar_not_spaceChar hc0
  have hw1 := takeWhile_run (p := isWordChar) (w := k.data)
    (r := ' ' :: (type.data ++ rest)) (wordB_all hk)
    (by rintro c cs ⟨rfl, rfl⟩; decide)
  have hsp1 := takeWhile_run (p := isSpaceChar) (w := [' '])
    (r := type.data ++ rest)
    (by intro c hc; rcases List.mem_singleton.mp hc with rfl; rfl)
    (by
      intro c cs h
      rw [ht0, List.cons_append] at h
      injection h with h1 _
      exact h1 ▸ wordChar_not_spaceChar hd0)
  have hw2 := takeWhile_run (p := isWordChar) (w := type.data) (r := rest)
    (wordB_all ht) hrest
  simp only [List.singleton_append] at hsp1
  rw [matchFieldLine]
  simp only [hdw, hw1.1, hw1.2, hsp1.1, hsp1.2, hw2.1, hw2.2]
  rw [if_neg (by simp [wordB_ne_nil hk]), if_neg (by simp),
    if_neg (by simp [wordB_ne_nil ht])]

/-- The `REFERENCES` scan on the emitted foreign-key clause finds the target. -/
theorem findRefTarget_fkrest {tgt : String} (hw : wordB tgt = true) (tail : List Char) :
    findRefTarget (" REFERENCES ".data ++ (tgt.data ++ '(' :: tail)) = some tgt := by
  have hword := wordB_all hw
  have hne := wordB_ne_nil hw
  have hsp : (tgt.data ++ '(' :: tail).takeWhile isSpaceChar = [] := by
    cases he : tgt.data with
    | nil => exact absurd he hne
    | cons c cs =>
        have hc : isWordChar c = true := hword c (by rw [he]; exact List.mem_cons_self _ _)
        simp [List.takeWhile, wordChar_not_spaceChar hc]
  have hdr : (tgt.data ++ '(' :: tail).dropWhile isSpaceChar = tgt.data ++ '(' :: tail := by
    cases he : tgt.data with
    | nil => exact absurd he hne
    | cons c cs =>
        have hc : isWordChar c = true := hword c (by rw [he]; exact List.mem_cons_self _ _)
        simp [List.dropWhile, wordChar_not_spaceChar hc]
  have htw : (tgt.data ++ '(' :: tail).takeWhile isWordChar = tgt.data :=
    (takeWhile_run hword (by rintro c cs ⟨rfl, rfl⟩; decide)).1
  have hspc : isSpaceChar ' ' = true := rfl
  have h1 : List.takeWhile isSpaceChar (' ' :: (tgt.data ++ '(' :: tail)) = [' '] := by
    rw [List.takeWhile_cons]
    simp [hspc, hsp]
  have h2 : List.dropWhile isSpaceChar (' ' :: (tgt.data ++ '(' :: tail))
      = tgt.data ++ '(' :: tail := by
    rw [List.dropWhile_cons]
    simp [hspc, hdr]
  simp [findRefTarget, stripLit, h1, h2, htw, hne]

/-- The scan skips over the `PRIMARY KEY` qualifier. -/
theorem findRefTarget_primary (r : List Char) :
    findRefTarget (" PRIMARY KEY".data ++ r) = findRefTarget r := by
  simp [findRefTarget, stripLit]

theorem containsSub_primary (r : List Char) :
    containsSub (" PRIMARY KEY".data ++ r) "REFERENCES".data
      = containsSub r "REFERENCES".data := by
  simp [containsSub, stripLit]

theorem containsSub_fkrest (tgt : String) (tail : List Char) :
    containsSub (" REFERENCES ".data ++ (tgt.data ++ '(' :: tail)) "REFERENCES".data
      = true := by
  have hx : containsSub ("REFERENCES".data ++ (' ' :: (tgt.data ++ '(' :: tail)))
      "REFERENCES".data = true := containsSub_here rfl
  exact containsSub_append_right [' '] hx

end JSQL

namespace JSQL

/-! ### Single-line behaviour of the DDL parser on emitted lines -/

theorem hasPre_word_head {c0 : Char} (hc0 : isWordChar c0 = true) (cs : List Char)
    (p : Char) (ps : List Char) (hp : isWordChar p = false) :
    hasPre (c0 :: cs) (p :: ps) = false := by
  have hne : p ≠ c0 := fun he => by rw [he] at hp; rw [hc0] at hp; cases hp
  simp [hasPre, stripLit, hne]

theorem parseDDLLine_blank (st : PDState) : parseDDLLine st [] = st := by
  rw [parseDDLLine]
  simp [trimSpace]

theorem parseDDLLine_header (tabs : List (String × TableSchema)) (cur : Option String)
    {name : String} (hname : wordB name = true) :
    parseDDLLine (tabs, cur) ("CREATE TABLE ".data ++ (name.data ++ " (".data))
      = (aset tabs name ⟨name, [], [], []⟩, some name) := by
  have htrim : trimSpace ("CREATE TABLE ".data ++ (name.data ++ " (".data))
      = "CREATE TABLE ".data ++ (name.data ++ " (".data) := by
    apply trimSpace_id
    · rintro c cs ⟨rfl, rfl⟩
      rfl
    · apply endsNonSpace_append
      · apply endsNonSpace_append (a := name.data) (b := " (".data)
        · intro c cs h
          simp at h
          rcases h with ⟨rfl, -⟩
          rfl
        · simp
      · simp [wordB_ne_nil hname]
  have hrun := takeWhile_run (p := isWordChar) (w := name.data) (r := " (".data)
    (wordB_all hname) (by rintro c cs ⟨rfl, rfl⟩; decide)
  have hmc : matchCreateTable ("CREATE TABLE ".data ++ (name.data ++ " (".data))
      = some name := by
    rw [matchCreateTable]
    simp only [stripCI_self_append]
    simp only [hrun.1]
    rw [if_neg (by simp [wordB_ne_nil hname])]
  rw [parseDDLLine]
  simp only [htrim, hmc]
  rw [if_neg (by simp), if_neg (by simp [hasPre, stripLit])]

theorem parseDDLLine_close (tabs : List (String × TableSchema)) (cur : String) :
    parseDDLLine (tabs, some cur) ");".data = (tabs, none) := by
  rw [parseDDLLine]
  rw [if_neg (by decide), if_neg (by decide)]
  have hmc : matchCreateTable (trimSpace ");".data) = none := by decide
  have htrim : trimSpace ");".data = ");".data := by decide
  rw [htrim] at hmc ⊢
  simp only [hmc]
  rw [if_pos (by decide)]

theorem parseDDLLine_inert (tabs : List (String × TableSchema)) (line : List Char)
    (h : matchCreateTable (trimSpace line) = none) :
    parseDDLLine (tabs, none) line = (tabs, none) := by
  rw [parseDDLLine]
  by_cases h1 : trimSpace line = []
  · rw [if_pos h1]
  · rw [if_neg h1]
    by_cases h2 : hasPre (trimSpace line) "--".data = true
    · rw [if_pos h2]
    · rw [if_neg h2]
      simp only [h]

theorem parseDDLLine_column_step (tabs : List (String × TableSchema)) (cur : String)
    {col typ : String} {rest : List Char}
    (hcol : wordB col = true) (htyp : wordB typ = true)
    (hrhead : ∀ c cs, rest = c :: cs → isWordChar c = false)
    (hends : EndsNonSpace (col.data ++ ' ' :: (typ.data ++ rest)))
    (hnotbl : matchCreateTable (col.data ++ ' ' :: (typ.data ++ rest)) = none) :
    parseDDLLine (tabs, some cur) ("  ".data ++ (col.data ++ ' ' :: (typ.data ++ rest)))
      = match alookup tabs cur with
        | none => (tabs, some cur)
        | some ts =>
            (aset tabs cur (applyFieldLine ts col (String.mk (toUpperStr typ.data)) rest),
              some cur) := by
  obtain ⟨c0, k', hk0⟩ : ∃ c0 k', col.data = c0 :: k' := by
    cases hkd : col.data with
    | nil => exact absurd hkd (wordB_ne_nil hcol)
    | cons a b => exact ⟨a, b, rfl⟩
  have hc0 : isWordChar c0 = true :=
    wordB_all hcol c0 (by rw [hk0]; exact List.mem_cons_self _ _)
  have htrim : trimSpace ("  ".data ++ (col.data ++ ' ' :: (typ.data ++ rest)))
      = col.data ++ ' ' :: (typ.data ++ rest) := by
    apply trimSpace_spec
    · intro c hc
      simp at hc
      subst hc
      rfl
    · intro c cs h
      rw [hk0, List.cons_append] at h
      injection h with h1 _
      exact h1 ▸ wordChar_not_spaceChar hc0
    · exact hends
  have hne : col.data ++ ' ' :: (typ.data ++ rest) ≠ [] := by
    rw [hk0]
    simp
  have hnp : hasPre (col.data ++ ' ' :: (typ.data ++ rest)) "--".data = false := by
    rw [hk0, List.cons_append]
    exact hasPre_word_head hc0 _ '-' _ (by decide)
  have hncl : hasPre (col.data ++ ' ' :: (typ.data ++ rest)) ");".data = false := by
    rw [hk0, List.cons_append]
    exact hasPre_word_head hc0 _ ')' _ (by decide)
  have hne1 : col.data ++ ' ' :: (typ.data ++ rest) ≠ ");".data := by
    rw [hk0, List.cons_append]
    intro h
    injection h with h1 _
    rw [h1] at hc0
    cases hc0
  have hne2 : col.data ++ ' ' :: (typ.data ++ rest) ≠ ")".data := by
    rw [hk0, List.cons_append]
    intro h
    injection h with h1 _
    rw [h1] at hc0
    cases hc0
  have hmf := matchFieldLine_spec hcol htyp hrhead
  rw [parseDDLLine]
  simp only [htrim, hnotbl, hmf]
  rw [if_neg (by simp [hne]), if_neg (by simp [hnp]),
    if_neg (by simp [hncl, hne1, hne2])]

end JSQL

namespace JSQL

/-! ### The schema described by the emitted DDL

These definitions spell out, following the spec's words, which tables,
column types and foreign keys the emitted DDL text describes; claim C4
compares them with what `ParseDDL` reconstructs. -/

/-- What one emitted column line describes: a symbol-redirected field turns
into an `INTEGER` column `<k>_symbol` referencing table `<k>_symbol`; any
other field keeps its recorded type and (optional) foreign-key target. -/
def descColApply (symF symJ : List String) (src : TableSchema) (k : String)
    (acc : TableSchema) : TableSchema :=
  if symF.contains k || symJ.contains k then
    { acc with Fields := aset acc.Fields (k ++ "_symbol") "INTEGER",
               FKs := aset acc.FKs (k ++ "_symbol") (k ++ "_symbol") }
  else
    let ty := (alookup src.Fields k).getD ""
    let acc1 := { acc with Fields := aset acc.Fields k ty }
    match alookup src.FKs k with
    | some tgt => { acc1 with FKs := aset acc1.FKs k tgt }
    | none => acc1

/-- The table described by one emitted `CREATE TABLE` block. -/
def ddlDescribedTable (symF symJ : List String) (ts : TableSchema) : TableSchema :=
  (sortStrings (ts.Fields.map Prod.fst)).foldl
    (fun acc k => descColApply symF symJ ts k acc) ⟨ts.Name, [], [], []⟩

/-- The two-column symbol table described by an emitted symbol block. -/
def symbolTS (f : String) : TableSchema :=
  ⟨f ++ "_symbol", [("id", "INTEGER"), ("value", "TEXT")], [], []⟩

/-- The redirected fields in emission order: the string-redirected ones, then
the JSON-redirected ones not already covered. -/
def symAll (symF symJ : List String) : List String :=
  symF ++ symJ.filter (fun f => !symF.contains f)

/-- The table map described by the full emitted DDL text. -/
def ddlDescribedTables (schema : List (String × TableSchema))
    (symF symJ : List String) (order : List String) : List (String × TableSchema) :=
  let base := order.foldl (fun acc tbl =>
    match alookup schema tbl with
    | none => acc
    | some ts => aset acc ts.Name (ddlDescribedTable symF symJ ts)) []
  (symAll symF symJ).foldl (fun acc f => aset acc (f ++ "_symbol") (symbolTS f)) base

/-! ### Splitting the emitted text into lines -/

/-- The emitted column lines once the comma separators are accounted for:
every line but the last carries a trailing comma; an empty column list leaves
one empty line (the emitter writes the header and footer around nothing). -/
def commaLines : List (List Char) → List (List Char)
  | [] => [[]]
  | [c] => [c]
  | c :: c2 :: rest => (c ++ [',']) :: commaLines (c2 :: rest)


theorem splitNL_joinSep {cols : List (List Char)}
    (h : ∀ c ∈ cols, '\n' ∉ c) (r : List Char) :
    splitNL (joinSep ",\n".data cols ++ '\n' :: r) = commaLines cols ++ splitNL r := by
  induction cols with
  | nil => simp [joinSep, splitNL, commaLines]
  | cons c cols ih =>
      cases cols with
      | nil =>
          rw [joinSep, commaLines]
          rw [splitNL_append_newline (h c (List.mem_cons_self _ _))]
          rfl
      | cons c2 rest =>
          rw [joinSep, commaLines]
          have hc : '\n' ∉ c ++ [','] := by
            intro hm
            rcases List.mem_append.mp hm with hm1 | hm2
            · exact h c (List.mem_cons_self _ _) hm1
            · simp at hm2
          have harr : (c ++ ",\n".data ++ joinSep ",\n".data (c2 :: rest)) ++ '\n' :: r
              = (c ++ [',']) ++ '\n' :: (joinSep ",\n".data (c2 :: rest) ++ '\n' :: r) := by
            simp
          rw [harr, splitNL_append_newline hc,
            ih (fun x hx => h x (List.mem_cons_of_mem _ hx))]
          rfl

end JSQL

namespace JSQL

theorem aset_aset {α : Type} (m : List (String × α)) (k : String) (v v' : α) :
    aset (aset m k v) k v' = aset m k v' := by
  induction m with
  | nil => simp [aset]
  | cons p rest ih =>
      by_cases hp : p.1 = k
      · simp [aset, hp]
      · simp [aset, hp, ih]

theorem wordB_append_symbol {k : String} (hk : wordB k = true) :
    wordB (k ++ "_symbol") = true := by
  have hall := wordB_all hk
  have hne := wordB_ne_nil hk
  have hdata : (k ++ "_symbol").data = k.data ++ "_symbol".data := String.data_append k _
  rw [wordB, hdata]
  rw [Bool.and_eq_true]
  constructor
  · rw [Bool.not_eq_true']
    rw [List.isEmpty_eq_false]
    simp [hne]
  · rw [List.all_eq_true]
    intro c hc
    rcases List.mem_append.mp hc with h1 | h1
    · exact hall c h1
    · fin_cases h1 <;> decide

theorem wordB_T5 {t : FieldType} (h : t ∈ T5) : wordB t = true := by
  fin_cases h <;> decide

theorem toUpperStr_T5 {t : FieldType} (h : t ∈ T5) :
    String.mk (toUpperStr t.data) = t := by
  fin_cases h <;> decide

theorem word_no_newline {s : String} (h : wordB s = true) : '\n' ∉ s.data := by
  intro hm
  have := wordB_all h '\n' hm
  simp [isWordChar] at this

end JSQL

namespace JSQL

theorem parseDDLLine_emitColumn
    (tabs : List (String × TableSchema)) (cur : String)
    (symF symJ : List String) (ts : TableSchema) (k : String) (suf : List Char)
    (hsuf : suf = [] ∨ suf = [','])
    (hk : wordB k = true)
    (hty : ∀ ty, alookup ts.Fields k = some ty → ty ∈ T5)
    (hkmem : k ∈ ts.Fields.map Prod.fst)
    (hfk : ∀ tgt, alookup ts.FKs k = some tgt → wordB tgt = true) :
    parseDDLLine (tabs, some cur) (emitColumn symF symJ ts k ++ suf)
      = match alookup tabs cur with
        | none => (tabs, some cur)
        | some acc => (aset tabs cur (descColApply symF symJ ts k acc), some cur) := by
  have hsufEnds : EndsNonSpace suf ∨ suf = [] := by
    rcases hsuf with rfl | rfl
    · exact Or.inr rfl
    · exact Or.inl (by intro c cs h; simp at h; rw [← h.1]; rfl)
  by_cases hsym : (symF.contains k || symJ.contains k) = true
  · -- symbol-redirected column
    have hcolw : wordB (k ++ "_symbol") = true := wordB_append_symbol hk
    set rest := " REFERENCES ".data ++ ((k ++ "_symbol").data ++ '(' :: ("id)".data ++ suf))
      with hrest
    have harr : emitColumn symF symJ ts k ++ suf
        = "  ".data ++ ((k ++ "_symbol").data ++ ' ' :: (("INTEGER" : String).data ++ rest)) := by
      rcases Bool.or_eq_true _ _ |>.mp hsym with h1 | h1
      · rw [emitColumn, if_pos h1]
        simp [hrest, String.data_append]
      · by_cases h2 : symF.contains k = true
        · rw [emitColumn, if_pos h2]
          simp [hrest, String.data_append]
        · rw [emitColumn, if_neg h2, if_pos h1]
          simp [hrest, String.data_append]
    have hstep := @parseDDLLine_column_step tabs cur (k ++ "_symbol")
      "INTEGER" rest hcolw (by decide)
      (by rintro c cs h; rw [hrest] at h; injection h with h1 _; rw [← h1]; decide)
      (by
        rcases hsuf with rfl | rfl
        · have : ((k ++ "_symbol").data ++ ' ' :: (("INTEGER" : String).data ++ rest))
              = ((k ++ "_symbol").data ++ ' ' :: (("INTEGER" : String).data
                ++ " REFERENCES ".data ++ (k ++ "_symbol").data)) ++ "(id)".data := by
            rw [hrest]
            simp
          rw [this]
          exact endsNonSpace_append (by intro c cs h; simp at h; rw [← h.1]; rfl) (by decide)
        · have : ((k ++ "_symbol").data ++ ' ' :: (("INTEGER" : String).data ++ rest))
              = ((k ++ "_symbol").data ++ ' ' :: (("INTEGER" : String).data
                ++ " REFERENCES ".data ++ (k ++ "_symbol").data ++ "(id)".data)) ++ [','] := by
            rw [hrest]
            simp
          rw [this]
          exact endsNonSpace_append (by intro c cs h; simp at h; rw [← h.1]; rfl) (by decide))
      (matchCreateTable_column hcolw (show ("INTEGER" : FieldType) ∈ T5 by decide) rest)
    rw [harr, hstep]
    cases alookup tabs cur with
    | none => rfl
    | some acc =>
        have hcontains : containsSub rest "REFERENCES".data = true := by
          rw [hrest]
          exact containsSub_fkrest _ _
        have hfind : findRefTarget rest = some (k ++ "_symbol") := by
          rw [hrest]
          exact findRefTarget_fkrest hcolw _
        simp only [applyFieldLine, hcontains, hfind, descColApply, hsym, if_pos, if_true]
        rfl
  · -- plain column
    have hsymF : symF.contains k = false := by
      by_contra hn
      rw [Bool.not_eq_false] at hn
      exact hsym (by rw [hn]; rfl)
    have hsymJ : symJ.contains k = false := by
      by_contra hn
      rw [Bool.not_eq_false] at hn
      exact hsym (by rw [hn, Bool.or_true])
    obtain ⟨ty0, hty0⟩ := alookup_exists_of_mem_keys hkmem
    have hty5 : ty0 ∈ T5 := hty ty0 hty0
    have htyw : wordB ty0 = true := wordB_T5 hty5
    have hdesc : ∀ acc, descColApply symF symJ ts k acc
        = (let acc1 := { acc with Fields := aset acc.Fields k ty0 }
          match alookup ts.FKs k with
          | some tgt => { acc1 with FKs := aset acc1.FKs k tgt }
          | none => acc1) := by
      intro acc
      rw [descColApply, if_neg hsym]
      rw [hty0]
      rfl
    have hrun : ∀ (rest : List Char),
        (∀ c cs, rest = c :: cs → isWordChar c = false) →
        EndsNonSpace (k.data ++ ' ' :: (ty0.data ++ rest)) →
        emitColumn symF symJ ts k ++ suf = "  ".data ++ (k.data ++ ' ' :: (ty0.data ++ rest)) →
        parseDDLLine (tabs, some cur) (emitColumn symF symJ ts k ++ suf)
          = match alookup tabs cur with
            | none => (tabs, some cur)
            | some acc =>
                (aset tabs cur (applyFieldLine acc k (String.mk (toUpperStr ty0.data)) rest),
                  some cur) := by
      intro rest hrh hend harr
      rw [harr]
      exact parseDDLLine_column_step tabs cur hk htyw hrh hend
        (matchCreateTable_column hk hty5 rest)
    have htyU : String.mk (toUpperStr ty0.data) = ty0 := toUpperStr_T5 hty5
    by_cases hid : k = "id"
    · cases hfkc : alookup ts.FKs k with
      | some fk =>
          have hfkw : wordB fk = true := hfk fk hfkc
          have hstep := hrun
            (" PRIMARY KEY".data ++ (" REFERENCES ".data ++ (fk.data ++ '(' :: ("id)".data ++ suf))))
            (by rintro c cs h; injection h with h1 _; rw [← h1]; decide)
            (by
              have hsh : k.data ++ ' ' :: (ty0.data ++ (" PRIMARY KEY".data
                  ++ (" REFERENCES ".data ++ (fk.data ++ '(' :: ("id)".data ++ suf)))))
                  = (k.data ++ ' ' :: (ty0.data ++ " PRIMARY KEY".data
                    ++ " REFERENCES ".data ++ fk.data)) ++ ('(' :: ("id)".data ++ suf)) := by
                simp
              rw [hsh]
              apply endsNonSpace_append _ (by simp)
              rcases hsuf with rfl | rfl
              · intro c cs h
                simp at h
                rw [← h.1]
                decide
              · intro c cs h
                simp at h
                rw [← h.1]
                decide)
            (by
              rw [emitColumn, if_neg (by simpa using hsymF), if_neg (by simpa using hsymJ), hty0, hfkc,
                if_pos hid, hid]
              simp [String.data_append])
          rw [hstep]
          cases alookup tabs cur with
          | none => rfl
          | some acc =>
              have hcontains : containsSub (" PRIMARY KEY".data ++ (" REFERENCES ".data
                  ++ (fk.data ++ '(' :: ("id)".data ++ suf)))) "REFERENCES".data = true := by
                rw [containsSub_primary]
                exact containsSub_fkrest _ _
              have hfind : findRefTarget (" PRIMARY KEY".data ++ (" REFERENCES ".data
                  ++ (fk.data ++ '(' :: ("id)".data ++ suf)))) = some fk := by
                rw [findRefTarget_primary]
                exact findRefTarget_fkrest hfkw _
              dsimp only
              rw [hdesc acc]
              simp only [applyFieldLine, hcontains, hfind, htyU, hfkc, if_true]
      | none =>
          have hstep := hrun (" PRIMARY KEY".data ++ suf)
            (by rintro c cs h; injection h with h1 _; rw [← h1]; decide)
            (by
              have hsh : k.data ++ ' ' :: (ty0.data ++ (" PRIMARY KEY".data ++ suf))
                  = (k.data ++ ' ' :: ty0.data) ++ (" PRIMARY KEY".data ++ suf) := by
                simp
              rw [hsh]
              apply endsNonSpace_append _ (by simp)
              rcases hsuf with rfl | rfl
              · intro c cs h
                simp at h
                rw [← h.1]
                decide
              · intro c cs h
                simp at h
                rw [← h.1]
                decide)
            (by
              rw [emitColumn, if_neg (by simpa using hsymF), if_neg (by simpa using hsymJ), hty0, hfkc,
                if_pos hid, hid]
              simp [String.data_append])
          rw [hstep]
          cases alookup tabs cur with
          | none => rfl
          | some acc =>
              have hcontains : containsSub (" PRIMARY KEY".data ++ suf) "REFERENCES".data
                  = false := by
                rw [containsSub_primary]
                rcases hsuf with rfl | rfl <;> decide
              dsimp only
              rw [hdesc acc]
              simp only [applyFieldLine, hcontains, htyU, hfkc, Bool.false_eq_true, if_false]
    · cases hfkc : alookup ts.FKs k with
      | some fk =>
          have hfkw : wordB fk = true := hfk fk hfkc
          have hstep := hrun
            (" REFERENCES ".data ++ (fk.data ++ '(' :: ("id)".data ++ suf)))
            (by rintro c cs h; injection h with h1 _; rw [← h1]; decide)
            (by
              have hsh : k.data ++ ' ' :: (ty0.data
                  ++ (" REFERENCES ".data ++ (fk.data ++ '(' :: ("id)".data ++ suf))))
                  = (k.data ++ ' ' :: (ty0.data ++ " REFERENCES ".data ++ fk.data))
                    ++ ('(' :: ("id)".data ++ suf)) := by
                simp
              rw [hsh]
              apply endsNonSpace_append _ (by simp)
              rcases hsuf with rfl | rfl
              · intro c cs h
                simp at h
                rw [← h.1]
                decide
              · intro c cs h
                simp at h
                rw [← h.1]
                decide)
            (by
              rw [emitColumn, if_neg (by simpa using hsymF), if_neg (by simpa using hsymJ), hty0, hfkc,
                if_neg hid]
              simp [String.data_append])
          rw [hstep]
          cases alookup tabs cur with
          | none => rfl
          | some acc =>
              have hcontains : containsSub (" REFERENCES ".data
                  ++ (fk.data ++ '(' :: ("id)".data ++ suf))) "REFERENCES".data = true :=
                containsSub_fkrest _ _
              have hfind : findRefTarget (" REFERENCES ".data
                  ++ (fk.data ++ '(' :: ("id)".data ++ suf))) = some fk :=
                findRefTarget_fkrest hfkw _
              dsimp only
              rw [hdesc acc]
              simp only [applyFieldLine, hcontains, hfind, htyU, hfkc, if_true]
      | none =>
          have hstep := hrun suf
            (by
              rintro c cs h
              rcases hsuf with rfl | rfl
              · cases h
              · injection h with h1 _
                rw [← h1]
                decide)
            (by
              rcases hsuf with rfl | rfl
              · have hsh : k.data ++ ' ' :: (ty0.data ++ []) = (k.data ++ [' ']) ++ ty0.data := by
                  simp
                rw [hsh]
                exact endsNonSpace_append (endsNonSpace_word htyw) (wordB_ne_nil htyw)
              · have hsh : k.data ++ ' ' :: (ty0.data ++ [','])
                    = (k.data ++ ' ' :: ty0.data) ++ [','] := by
                  simp
                rw [hsh]
                apply endsNonSpace_append _ (by simp)
                intro c cs h
                simp at h
                rw [← h.1]
                rfl)
            (by
              rw [emitColumn, if_neg (by simpa using hsymF), if_neg (by simpa using hsymJ), hty0, hfkc,
                if_neg hid]
              simp [String.data_append])
          rw [hstep]
          cases alookup tabs cur with
          | none => rfl
          | some acc =>
              have hcontains : containsSub suf "REFERENCES".data = false := by
                rcases hsuf with rfl | rfl <;> decide
              dsimp only
              rw [hdesc acc]
              simp only [applyFieldLine, hcontains, htyU, hfkc, Bool.false_eq_true, if_false]

end JSQL

namespace JSQL

/-! ### Assembling the emitted blocks -/

theorem no_nl_append {a b : List Char} (ha : '\n' ∉ a) (hb : '\n' ∉ b) :
    '\n' ∉ a ++ b := by
  intro h
  rcases List.mem_append.mp h with h | h
  · exact ha h
  · exact hb h

theorem emitColumn_no_newline (symF symJ : List String) (ts : TableSchema) (k : String)
    (hk : wordB k = true)
    (hty : ∀ ty, alookup ts.Fields k = some ty → ty ∈ T5)
    (hkmem : k ∈ ts.Fields.map Prod.fst)
    (hfk : ∀ tgt, alookup ts.FKs k = some tgt → wordB tgt = true) :
    '\n' ∉ emitColumn symF symJ ts k := by
  obtain ⟨ty0, hty0⟩ := alookup_exists_of_mem_keys hkmem
  have hty5 := hty ty0 hty0
  have hkn := word_no_newline hk
  have htyn := word_no_newline (wordB_T5 hty5)
  have hsym : ∀ h : (symF.contains k || symJ.contains k) = true,
      '\n' ∉ ("  " ++ k ++ "_symbol INTEGER REFERENCES " ++ k ++ "_symbol(id)").data := by
    intro _
    rw [show ("  " ++ k ++ "_symbol INTEGER REFERENCES " ++ k ++ "_symbol(id)").data
        = "  ".data ++ (k.data ++ ("_symbol INTEGER REFERENCES ".data
          ++ (k.data ++ "_symbol(id)".data))) from by
      simp [String.data_append]]
    exact no_nl_append (by decide) (no_nl_append hkn
      (no_nl_append (by decide) (no_nl_append hkn (by decide))))
  rw [emitColumn]
  by_cases h1 : symF.contains k = true
  · rw [if_pos h1]
    exact hsym (by rw [h1, Bool.true_or])
  · rw [if_neg h1]
    by_cases h2 : symJ.contains k = true
    · rw [if_pos h2]
      exact hsym (by rw [h2, Bool.or_true])
    · rw [if_neg h2, hty0]
      simp only [Option.getD_some]
      apply no_nl_append (no_nl_append ?_ ?_) ?_
      · rw [show ("  " ++ k ++ " " ++ ty0).data
            = "  ".data ++ (k.data ++ (" ".data ++ ty0.data)) from by
          simp [String.data_append]]
        exact no_nl_append (by decide) (no_nl_append hkn
          (no_nl_append (by decide) htyn))
      · split
        · decide
        · decide
      · cases hfkc : alookup ts.FKs k with
        | none => decide
        | some fk =>
            have hfkn := word_no_newline (hfk fk hfkc)
            dsimp only
            rw [show (" REFERENCES " ++ fk ++ "(id)").data
                = " REFERENCES ".data ++ (fk.data ++ "(id)".data) from by
              simp [String.data_append]]
            exact no_nl_append (by decide) (no_nl_append hfkn (by decide))

/-- The conditions on one analyzer table under which its emitted `CREATE
TABLE` block parses back exactly: word table name, word column names, the
five known types, word foreign-key targets, and word index components. -/
def GoodTable (ts : TableSchema) : Prop :=
  wordB ts.Name = true
  ∧ (∀ k ∈ ts.Fields.map Prod.fst, wordB k = true)
  ∧ (∀ p ∈ ts.Fields, p.2 ∈ T5)
  ∧ (∀ p ∈ ts.FKs, wordB p.2 = true)
  ∧ (∀ idx ∈ ts.Indexes, wordB idx.Name = true ∧ wordB idx.Table = true
      ∧ (∀ c ∈ idx.Columns, wordB c = true))

instance (ts : TableSchema) : Decidable (GoodTable ts) := by
  unfold GoodTable
  infer_instance

theorem goodTable_col {ts : TableSchema} (hg : GoodTable ts) {k : String}
    (hk : k ∈ ts.Fields.map Prod.fst) :
    wordB k = true ∧ (∀ ty, alookup ts.Fields k = some ty → ty ∈ T5)
      ∧ k ∈ ts.Fields.map Prod.fst
      ∧ (∀ tgt, alookup ts.FKs k = some tgt → wordB tgt = true) := by
  refine ⟨hg.2.1 k hk, ?_, hk, ?_⟩
  · intro ty hty
    exact hg.2.2.1 (k, ty) (alookup_some_mem hty)
  · intro tgt htgt
    exact hg.2.2.2.1 (k, tgt) (alookup_some_mem htgt)

end JSQL

namespace JSQL

/-- Folding the parser over the comma-separated emitted column lines applies
`descColApply` for each key in turn to the current table. -/
theorem fold_commaLines (symF symJ : List String) (ts : TableSchema) :
    ∀ (ks : List String) (tabs : List (String × TableSchema)) (cur : String)
      (acc : TableSchema), ks ≠ [] →
      alookup tabs cur = some acc →
      (∀ k ∈ ks, wordB k = true ∧ (∀ ty, alookup ts.Fields k = some ty → ty ∈ T5)
        ∧ k ∈ ts.Fields.map Prod.fst
        ∧ (∀ tgt, alookup ts.FKs k = some tgt → wordB tgt = true)) →
      (commaLines (ks.map (emitColumn symF symJ ts))).foldl parseDDLLine (tabs, some cur)
        = (aset tabs cur (ks.foldl (fun a k => descColApply symF symJ ts k a) acc),
            some cur)
  | [], _, _, _, hne, _, _ => absurd rfl hne
  | [k], tabs, cur, acc, _, hlk, hks => by
      have hh := hks k (List.mem_cons_self _ _)
      have h1 := parseDDLLine_emitColumn tabs cur symF symJ ts k [] (Or.inl rfl)
        hh.1 hh.2.1 hh.2.2.1 hh.2.2.2
      rw [List.append_nil] at h1
      simp only [List.map_cons, List.map_nil, commaLines, List.foldl_cons, List.foldl_nil]
      rw [h1, hlk]
  | k :: k2 :: ks, tabs, cur, acc, _, hlk, hks => by
      have hh := hks k (List.mem_cons_self _ _)
      have h1 := parseDDLLine_emitColumn tabs cur symF symJ ts k [','] (Or.inr rfl)
        hh.1 hh.2.1 hh.2.2.1 hh.2.2.2
      simp only [List.map_cons, commaLines, List.foldl_cons]
      rw [h1, hlk]
      dsimp only
      rw [show (List.foldl parseDDLLine
            (aset tabs cur (descColApply symF symJ ts k acc), some cur)
            (commaLines (emitColumn symF symJ ts k2 :: ks.map (emitColumn symF symJ ts))))
          = (commaLines ((k2 :: ks).map (emitColumn symF symJ ts))).foldl parseDDLLine
            (aset tabs cur (descColApply symF symJ ts k acc), some cur) from by
        simp]
      rw [fold_commaLines symF symJ ts (k2 :: ks)
        (aset tabs cur (descColApply symF symJ ts k acc)) cur
        (descColApply symF symJ ts k acc) (by simp)
        (alookup_aset_self _ _ _)
        (fun k' hk' => hks k' (List.mem_cons_of_mem _ hk'))]
      rw [aset_aset]
      simp only [List.foldl_cons]

end JSQL

namespace JSQL

theorem splitNL_newline_cons (r : List Char) : splitNL ('\n' :: r) = [] :: splitNL r := by
  rw [splitNL]
  simp

/-- Parsing one emitted `CREATE TABLE` block records exactly the table the
block describes and returns to the between-tables state. -/
theorem parse_table_block (symF symJ : List String) (ts : TableSchema)
    (tabs : List (String × TableSchema)) (r : List Char)
    (hg : GoodTable ts) :
    (splitNL (emitTableBlock symF symJ ts ++ r)).foldl parseDDLLine (tabs, none)
      = (splitNL r).foldl parseDDLLine
          (aset tabs ts.Name (ddlDescribedTable symF symJ ts), none) := by
  have hnamew := hg.1
  have hnl : '\n' ∉ "CREATE TABLE ".data ++ (ts.Name.data ++ " (".data) :=
    no_nl_append (by decide) (no_nl_append (word_no_newline hnamew) (by decide))
  have hcols : ∀ c ∈ (sortStrings (ts.Fields.map Prod.fst)).map (emitColumn symF symJ ts),
      '\n' ∉ c := by
    intro c hc
    obtain ⟨k, hk, rfl⟩ := List.mem_map.mp hc
    have hkk := goodTable_col hg (mem_sortStrings.mp hk)
    exact emitColumn_no_newline symF symJ ts k hkk.1 hkk.2.1 hkk.2.2.1 hkk.2.2.2
  have harr : emitTableBlock symF symJ ts ++ r
      = ("CREATE TABLE ".data ++ (ts.Name.data ++ " (".data)) ++ '\n'
        :: ((joinSep ",\n".data ((sortStrings (ts.Fields.map Prod.fst)).map
              (emitColumn symF symJ ts))) ++ '\n'
          :: (");".data ++ '\n' :: ('\n' :: r))) := by
    rw [emitTableBlock]
    simp [String.data_append]
  rw [harr, splitNL_append_newline hnl, splitNL_joinSep hcols,
    splitNL_append_newline (by decide), splitNL_newline_cons]
  rw [List.foldl_cons, parseDDLLine_header tabs none hnamew, List.foldl_append]
  have hmid : (commaLines ((sortStrings (ts.Fields.map Prod.fst)).map
        (emitColumn symF symJ ts))).foldl parseDDLLine
        (aset tabs ts.Name ⟨ts.Name, [], [], []⟩, some ts.Name)
      = (aset tabs ts.Name (ddlDescribedTable symF symJ ts), some ts.Name) := by
    rw [ddlDescribedTable]
    cases hks : sortStrings (ts.Fields.map Prod.fst) with
    | nil =>
        simp only [List.map_nil, commaLines, List.foldl_cons, List.foldl_nil]
        rw [parseDDLLine_blank]
    | cons k0 krest =>
        rw [fold_commaLines symF symJ ts (k0 :: krest)
          (aset tabs ts.Name ⟨ts.Name, [], [], []⟩) ts.Name ⟨ts.Name, [], [], []⟩
          (by simp) (alookup_aset_self _ _ _)
          (fun k' hk' => goodTable_col hg (mem_sortStrings.mp (by rw [hks]; exact hk')))]
        rw [aset_aset]
  rw [hmid, List.foldl_cons, parseDDLLine_close, List.foldl_cons, parseDDLLine_blank]

end JSQL

namespace JSQL

theorem parseDDLLine_symcol1 (tabs : List (String × TableSchema)) (cur : String) :
    parseDDLLine (tabs, some cur) "  id INTEGER PRIMARY KEY,".data
      = match alookup tabs cur with
        | none => (tabs, some cur)
        | some ts =>
            (aset tabs cur { ts with Fields := aset ts.Fields "id" "INTEGER" },
              some cur) := by
  have htrim : trimSpace "  id INTEGER PRIMARY KEY,".data
      = "id INTEGER PRIMARY KEY,".data := by decide
  have hnotbl : matchCreateTable "id INTEGER PRIMARY KEY,".data = none := by decide
  have hmf : matchFieldLine "id INTEGER PRIMARY KEY,".data
      = some ("id", "INTEGER", " PRIMARY KEY,".data) := by decide
  rw [parseDDLLine]
  simp only [htrim, hnotbl, hmf]
  rw [if_neg (by decide), if_neg (by decide), if_neg (by decide)]
  cases alookup tabs cur with
  | none => rfl
  | some ts =>
      dsimp only
      simp only [applyFieldLine,
        show containsSub " PRIMARY KEY,".data "REFERENCES".data = false from by decide,
        Bool.false_eq_true, if_false]
      rw [show String.mk (toUpperStr "INTEGER".data) = "INTEGER" from by decide]

theorem parseDDLLine_symcol2 (tabs : List (String × TableSchema)) (cur : String) :
    parseDDLLine (tabs, some cur) "  value TEXT UNIQUE".data
      = match alookup tabs cur with
        | none => (tabs, some cur)
        | some ts =>
            (aset tabs cur { ts with Fields := aset ts.Fields "value" "TEXT" },
              some cur) := by
  have htrim : trimSpace "  value TEXT UNIQUE".data = "value TEXT UNIQUE".data := by decide
  have hnotbl : matchCreateTable "value TEXT UNIQUE".data = none := by decide
  have hmf : matchFieldLine "value TEXT UNIQUE".data
      = some ("value", "TEXT", " UNIQUE".data) := by decide
  rw [parseDDLLine]
  simp only [htrim, hnotbl, hmf]
  rw [if_neg (by decide), if_neg (by decide), if_neg (by decide)]
  cases alookup tabs cur with
  | none => rfl
  | some ts =>
      dsimp only
      simp only [applyFieldLine,
        show containsSub " UNIQUE".data "REFERENCES".data = false from by decide,
        Bool.false_eq_true, if_false]
      rw [show String.mk (toUpperStr "TEXT".data) = "TEXT" from by decide]

/-- Parsing one emitted symbol-table block records the two-column symbol
table. -/
theorem parse_symbol_block (tabs : List (String × TableSchema)) (f : String)
    (hf : wordB f = true) (r : List Char) :
    (splitNL (emitSymbolBlock f ++ r)).foldl parseDDLLine (tabs, none)
      = (splitNL r).foldl parseDDLLine
          (aset tabs (f ++ "_symbol") (symbolTS f), none) := by
  have hw : wordB (f ++ "_symbol") = true := wordB_append_symbol hf
  have hnl : '\n' ∉ "CREATE TABLE ".data ++ ((f ++ "_symbol").data ++ " (".data) :=
    no_nl_append (by decide) (no_nl_append (word_no_newline hw) (by decide))
  have harr : emitSymbolBlock f ++ r
      = ("CREATE TABLE ".data ++ ((f ++ "_symbol").data ++ " (".data)) ++ '\n'
        :: ("  id INTEGER PRIMARY KEY,".data ++ '\n'
          :: ("  value TEXT UNIQUE".data ++ '\n'
            :: (");".data ++ '\n' :: ('\n' :: r)))) := by
    rw [emitSymbolBlock]
    simp [String.data_append]
  rw [harr, splitNL_append_newline hnl, splitNL_append_newline (by decide),
    splitNL_append_newline (by decide), splitNL_append_newline (by decide),
    splitNL_newline_cons]
  rw [List.foldl_cons, parseDDLLine_header tabs none hw]
  rw [List.foldl_cons, parseDDLLine_symcol1, alookup_aset_self]
  dsimp only
  rw [aset_aset]
  rw [List.foldl_cons, parseDDLLine_symcol2, alookup_aset_self]
  dsimp only
  rw [aset_aset]
  rw [List.foldl_cons, parseDDLLine_close, List.foldl_cons, parseDDLLine_blank]
  rfl

end JSQL

namespace JSQL

theorem stripCI_CT_U (rest : List Char) :
    stripCI "CREATE TABLE ".data ("CREATE U".data ++ rest) = none := by
  simp [stripCI]

theorem stripCI_CT_I (rest : List Char) :
    stripCI "CREATE TABLE ".data ("CREATE I".data ++ rest) = none := by
  simp [stripCI]

theorem no_nl_joinSep {sep : List Char} (hsep : '\n' ∉ sep) :
    ∀ {ls : List (List Char)}, (∀ c ∈ ls, '\n' ∉ c) → '\n' ∉ joinSep sep ls
  | [], _ => by simp [joinSep]
  | [c], h => by simpa [joinSep] using h c (List.mem_cons_self _ _)
  | c :: c2 :: rest, h => by
      rw [joinSep]
      exact no_nl_append (no_nl_append (h c (List.mem_cons_self _ _)) hsep)
        (no_nl_joinSep hsep (fun x hx => h x (List.mem_cons_of_mem _ hx)))

/-- A `CREATE [UNIQUE ]INDEX` line is inert for the DDL parser in the
between-tables state: it does not match the `CREATE TABLE` pattern and no
table is current. -/
theorem parse_index_content (tabs : List (String × TableSchema)) (pre mid : List Char)
    (hpre : pre = "CREATE U".data ∨ pre = "CREATE I".data)
    (hmidnl : '\n' ∉ mid) (r : List Char) :
    (splitNL ((pre ++ (mid ++ ");".data)) ++ '\n' :: r)).foldl parseDDLLine (tabs, none)
      = (splitNL r).foldl parseDDLLine (tabs, none) := by
  have hprenl : '\n' ∉ pre := by rcases hpre with rfl | rfl <;> decide
  have hnl : '\n' ∉ pre ++ (mid ++ ");".data) :=
    no_nl_append hprenl (no_nl_append hmidnl (by decide))
  have htrim : trimSpace (pre ++ (mid ++ ");".data)) = pre ++ (mid ++ ");".data) := by
    apply trimSpace_id
    · rcases hpre with rfl | rfl
      · intro c cs h
        rw [show ("CREATE U".data : List Char) = 'C' :: "REATE U".data from by decide,
          List.cons_append] at h
        injection h with h1 _
        rw [← h1]
        decide
      · intro c cs h
        rw [show ("CREATE I".data : List Char) = 'C' :: "REATE I".data from by decide,
          List.cons_append] at h
        injection h with h1 _
        rw [← h1]
        decide
    · apply endsNonSpace_append
      · apply endsNonSpace_append
        · intro c cs h
          rw [show ((");".data : List Char)).reverse = [';', ')'] from by decide] at h
          injection h with h1 _
          rw [← h1]
          decide
        · decide
      · simp
  have hmc : matchCreateTable (pre ++ (mid ++ ");".data)) = none := by
    rw [matchCreateTable]
    rcases hpre with rfl | rfl
    · rw [stripCI_CT_U]
    · rw [stripCI_CT_I]
  rw [splitNL_append_newline hnl, List.foldl_cons,
    parseDDLLine_inert tabs _ (by rw [htrim]; exact hmc)]

theorem parse_index_line (tabs : List (String × TableSchema)) (idx : IndexDef)
    (hn : wordB idx.Name = true) (htb : wordB idx.Table = true)
    (hcols : ∀ c ∈ idx.Columns, wordB c = true) (r : List Char) :
    (splitNL (emitIndexLine idx ++ r)).foldl parseDDLLine (tabs, none)
      = (splitNL r).foldl parseDDLLine (tabs, none) := by
  have hmidnl : ∀ pre2 : List Char, '\n' ∉ pre2 → '\n' ∉ pre2 ++ (idx.Name.data
      ++ (" ON ".data ++ (idx.Table.data ++ (" (".data
        ++ joinSep ", ".data (idx.Columns.map String.data))))) := fun pre2 h2 =>
    no_nl_append h2 (no_nl_append (word_no_newline hn) (no_nl_append (by decide)
      (no_nl_append (word_no_newline htb) (no_nl_append (by decide)
        (no_nl_joinSep (by decide) (fun c hc => by
          obtain ⟨s, hs, rfl⟩ := List.mem_map.mp hc
          exact word_no_newline (hcols s hs)))))))
  cases hu : idx.Unique with
  | true =>
      have harr : emitIndexLine idx ++ r
          = ("CREATE U".data ++ (("NIQUE INDEX ".data ++ (idx.Name.data
            ++ (" ON ".data ++ (idx.Table.data ++ (" (".data
              ++ joinSep ", ".data (idx.Columns.map String.data)))))) ++ ");".data))
            ++ '\n' :: r := by
        rw [emitIndexLine, hu]
        simp [String.data_append]
      rw [harr]
      exact parse_index_content tabs _ _ (Or.inl rfl)
        (hmidnl "NIQUE INDEX ".data (by decide)) r
  | false =>
      have harr : emitIndexLine idx ++ r
          = ("CREATE I".data ++ (("NDEX ".data ++ (idx.Name.data
            ++ (" ON ".data ++ (idx.Table.data ++ (" (".data
              ++ joinSep ", ".data (idx.Columns.map String.data)))))) ++ ");".data))
            ++ '\n' :: r := by
        rw [emitIndexLine, hu]
        simp [String.data_append]
      rw [harr]
      exact parse_index_content tabs _ _ (Or.inr rfl)
        (hmidnl "NDEX ".data (by decide)) r

theorem parse_index_lines (tabs : List (String × TableSchema)) :
    ∀ (idxs : List IndexDef) (r : List Char),
      (∀ idx ∈ idxs, wordB idx.Name = true ∧ wordB idx.Table = true
        ∧ (∀ c ∈ idx.Columns, wordB c = true)) →
      (splitNL ((idxs.map emitIndexLine).flatten ++ r)).foldl parseDDLLine (tabs, none)
        = (splitNL r).foldl parseDDLLine (tabs, none)
  | [], r, _ => by simp
  | idx :: idxs, r, h => by
      have hh := h idx (List.mem_cons_self _ _)
      rw [List.map_cons, List.flatten_cons, List.append_assoc,
        parse_index_line tabs idx hh.1 hh.2.1 hh.2.2]
      exact parse_index_lines tabs idxs r (fun i hi => h i (List.mem_cons_of_mem _ hi))

theorem parse_index_block (tabs : List (String × TableSchema)) (ts : TableSchema)
    (hidx : ∀ idx ∈ ts.Indexes, wordB idx.Name = true ∧ wordB idx.Table = true
      ∧ (∀ c ∈ idx.Columns, wordB c = true)) (r : List Char) :
    (splitNL (emitIndexBlock ts ++ r)).foldl parseDDLLine (tabs, none)
      = (splitNL r).foldl parseDDLLine (tabs, none) := by
  rw [emitIndexBlock]
  by_cases hlen : ts.Indexes.length > 0
  · rw [if_pos hlen, List.append_assoc,
      parse_index_lines tabs ts.Indexes _ hidx,
      show ("\n".data : List Char) ++ r = '\n' :: r from by
        rw [show ("\n".data : List Char) = ['\n'] from by decide]
        rfl,
      splitNL_newline_cons, List.foldl_cons, parseDDLLine_blank]
  · rw [if_neg hlen, List.append_nil]
    exact parse_index_lines tabs ts.Indexes r hidx

end JSQL

namespace JSQL

theorem parse_blocks (symF symJ : List String) (schema : List (String × TableSchema)) :
    ∀ (order : List String) (bl : List (List Char))
      (tabs : List (String × TableSchema)) (r : List Char),
      (∀ tbl ∈ order, ∀ ts, alookup schema tbl = some ts → GoodTable ts) →
      order.mapM (fun tbl => (alookup schema tbl).map
        (emitTableBlock symF symJ)) = some bl →
      (splitNL (bl.flatten ++ r)).foldl parseDDLLine (tabs, none)
        = (splitNL r).foldl parseDDLLine
            (order.foldl (fun acc tbl =>
              match alookup schema tbl with
              | none => acc
              | some ts => aset acc ts.Name (ddlDescribedTable symF symJ ts)) tabs, none)
  | [], bl, tabs, r, _, hmap => by
      simp only [List.mapM_nil, Option.pure_def, Option.some.injEq] at hmap
      subst hmap
      simp
  | tbl :: order, bl, tabs, r, hg, hmap => by
      rw [List.mapM_cons] at hmap
      cases hlk : alookup schema tbl with
      | none =>
          rw [hlk] at hmap
          simp at hmap
      | some ts =>
          cases hrec : List.mapM (fun tbl => (alookup schema tbl).map
              (emitTableBlock symF symJ)) order with
          | none =>
              rw [hlk, hrec] at hmap
              simp at hmap
          | some bls =>
              rw [hlk, hrec] at hmap
              simp only [Option.map_some', Option.bind_eq_bind, Option.some_bind,
                Option.pure_def, Option.some.injEq] at hmap
              subst hmap
              rw [List.flatten_cons, List.append_assoc,
                parse_table_block symF symJ ts tabs _
                  (hg tbl (List.mem_cons_self _ _) ts hlk),
                parse_blocks symF symJ schema order bls _ r
                  (fun t ht ts' hts' => hg t (List.mem_cons_of_mem _ ht) ts' hts') hrec,
                List.foldl_cons, hlk]

theorem parse_sym_blocks :
    ∀ (fs : List String) (tabs : List (String × TableSchema)) (r : List Char),
      (∀ f ∈ fs, wordB f = true) →
      (splitNL ((fs.map emitSymbolBlock).flatten ++ r)).foldl parseDDLLine (tabs, none)
        = (splitNL r).foldl parseDDLLine
            (fs.foldl (fun acc f => aset acc (f ++ "_symbol") (symbolTS f)) tabs, none)
  | [], tabs, r, _ => by simp
  | f :: fs, tabs, r, h => by
      rw [List.map_cons, List.flatten_cons, List.append_assoc,
        parse_symbol_block tabs f (h f (List.mem_cons_self _ _)),
        parse_sym_blocks fs _ r (fun g hg => h g (List.mem_cons_of_mem _ hg)),
        List.foldl_cons]

theorem parse_idx_blocks (schema : List (String × TableSchema)) :
    ∀ (order : List String) (ibl : List (List Char))
      (tabs : List (String × TableSchema)) (r : List Char),
      (∀ tbl ∈ order, ∀ ts, alookup schema tbl = some ts → GoodTable ts) →
      order.mapM (fun tbl => (alookup schema tbl).map emitIndexBlock) = some ibl →
      (splitNL (ibl.flatten ++ r)).foldl parseDDLLine (tabs, none)
        = (splitNL r).foldl parseDDLLine (tabs, none)
  | [], ibl, tabs, r, _, hmap => by
      simp only [List.mapM_nil, Option.pure_def, Option.some.injEq] at hmap
      subst hmap
      simp
  | tbl :: order, ibl, tabs, r, hg, hmap => by
      rw [List.mapM_cons] at hmap
      cases hlk : alookup schema tbl with
      | none =>
          rw [hlk] at hmap
          simp at hmap
      | some ts =>
          cases hrec : List.mapM (fun tbl => (alookup schema tbl).map emitIndexBlock)
              order with
          | none =>
              rw [hlk, hrec] at hmap
              simp at hmap
          | some ibls =>
              rw [hlk, hrec] at hmap
              simp only [Option.map_some', Option.bind_eq_bind, Option.some_bind,
                Option.pure_def, Option.some.injEq] at hmap
              subst hmap
              rw [List.flatten_cons, List.append_assoc,
                parse_index_block tabs ts
                  (hg tbl (List.mem_cons_self _ _) ts hlk).2.2.2.2 _]
              exact parse_idx_blocks schema order ibls tabs r
                (fun t ht ts' hts' => hg t (List.mem_cons_of_mem _ ht) ts' hts') hrec

end JSQL

namespace JSQL

/-- C4: parsing the analyzer's emitted DDL text recovers exactly the tables,
column types, and foreign keys that the text describes, whenever the schema
lies in the analyzer's word-shaped output language: word table names, word
column names, the five analyzer field types, word foreign-key targets and
word index components (the amended statement; the unrestricted claim fails,
see the counterexample). -/
theorem C4_ddl_roundtrip
    (schema : List (String × TableSchema)) (symF symJ : List String)
    (order : List String) (ddl : String)
    (hgood : ∀ tbl ∈ order, ∀ ts, alookup schema tbl = some ts → GoodTable ts)
    (hsymw : ∀ f ∈ symAll symF symJ, wordB f = true)
    (hemit : emitDDL schema symF symJ order = some ddl) :
    parseDDLTables ddl = ddlDescribedTables schema symF symJ order := by
  rw [emitDDL] at hemit
  cases hbl : order.mapM (fun tbl => (alookup schema tbl).map
      (emitTableBlock symF symJ)) with
  | none =>
      rw [hbl] at hemit
      simp at hemit
  | some bl =>
      cases hil : order.mapM (fun tbl => (alookup schema tbl).map emitIndexBlock) with
      | none =>
          rw [hbl, hil] at hemit
          simp at hemit
      | some ibl =>
          rw [hbl, hil] at hemit
          simp only [Option.bind_eq_bind, Option.some_bind, Option.pure_def,
            Option.some.injEq] at hemit
          subst hemit
          rw [parseDDLTables]
          rw [show (String.mk (bl.flatten
              ++ (symF.map emitSymbolBlock
                ++ (symJ.filter (fun f => !symF.contains f)).map emitSymbolBlock).flatten
              ++ ibl.flatten)).data
              = bl.flatten ++ (((symAll symF symJ).map emitSymbolBlock).flatten
                ++ (ibl.flatten ++ ([] : List Char))) from by
            simp [symAll, List.map_append]]
          rw [parse_blocks symF symJ schema order bl [] _ hgood hbl]
          rw [parse_sym_blocks (symAll symF symJ) _ _ hsymw]
          rw [parse_idx_blocks schema order ibl _ [] hgood hil]
          rw [show splitNL [] = [[]] from rfl, List.foldl_cons, parseDDLLine_blank,
            List.foldl_nil]
          rw [ddlDescribedTables]

end JSQL

namespace JSQL

/-- A schema the analyzer can produce from a JSON key containing a space: its
emitted column line `  a b TEXT` is misread by the field-line pattern as a
column named `a` of type `B`. -/
def exC4 : List (String × TableSchema) := [("t", ⟨"t", [("a b", "TEXT")], [], []⟩)]

/-- C4 counterexample: the DDL emitted for `exC4` parses back to a different
table map (a column `a` typed `B` instead of the column `a b` typed `TEXT`),
so emitter and parser are not mutual inverses on all analyzer output. -/
theorem C4_counterexample :
    ∃ ddl, emitDDL exC4 [] [] ["t"] = some ddl
      ∧ parseDDLTables ddl ≠ ddlDescribedTables exC4 [] [] ["t"] := by
  refine ⟨_, rfl, ?_⟩
  decide

def exC4w : List (String × TableSchema) :=
  [("t", ⟨"t", [("id", "INTEGER"), ("name", "TEXT")], [], []⟩)]

def exC4wDDL : String := "CREATE TABLE t (\n  id INTEGER PRIMARY KEY,\n  name TEXT\n);\n\n"

/-- Witness: the round-trip theorem applied to a concrete two-column table. -/
theorem C4_witness :
    parseDDLTables exC4wDDL = ddlDescribedTables exC4w [] [] ["t"] :=
  C4_ddl_roundtrip exC4w [] [] ["t"] exC4wDDL
    (by
      intro tbl htbl ts hts
      simp at htbl
      subst htbl
      simp [exC4w, alookup] at hts
      subst hts
      decide)
    (by decide)
    (by decide)

end JSQL

namespace JSQL

/-! ## JSON values (`encoding/json` decoding into `map[string]interface{}`)

Numbers are modelled as the integral `float64` values (Go prints such values
back as plain decimal integers, which is all the modelled inputs use). -/

inductive JVal where
  | null : JVal
  | bool : Bool → JVal
  | num : Int → JVal
  | str : String → JVal
  | arr : List JVal → JVal
  | obj : List (String × JVal) → JVal

/-- The two brace characters, named to keep them out of string literals. -/
def lbrace : Char := Char.ofNat 123

def rbrace : Char := Char.ofNat 125

/-- Decimal integer as Go prints an integral `float64`. -/
def intRepr (n : Int) : List Char :=
  if n < 0 then '-' :: Nat.toDigits 10 n.natAbs else Nat.toDigits 10 n.natAbs

def hexDigit (n : Nat) : Char :=
  if n < 10 then Char.ofNat ('0'.toNat + n) else Char.ofNat ('a'.toNat + (n - 10))

/-- One string character as `json.Marshal` emits it (HTML escaping on). -/
def escCharM (c : Char) : List Char :=
  if c = '"' then ['\\', '"']
  else if c = '\\' then ['\\', '\\']
  else if c = '\n' then ['\\', 'n']
  else if c = '\r' then ['\\', 'r']
  else if c = '\t' then ['\\', 't']
  else if c = '<' then "\\u003c".data
  else if c = '>' then "\\u003e".data
  else if c = '&' then "\\u0026".data
  else if c.toNat < 0x20 then
    "\\u00".data ++ [hexDigit (c.toNat / 16), hexDigit (c.toNat % 16)]
  else if c.toNat = 0x2028 then "\\u2028".data
  else if c.toNat = 0x2029 then "\\u2029".data
  else [c]

def encStrM (s : String) : List Char := '"' :: (s.data.flatMap escCharM ++ ['"'])

/-- Key order used by `json.Marshal` on a Go map: sorted keys. -/
def pairLe (p q : String × JVal) : Prop := strLeP p.1 q.1

instance : DecidableRel pairLe := fun p q => inferInstanceAs (Decidable (strLeP p.1 q.1))

def sortPairs (l : List (String × JVal)) : List (String × JVal) :=
  List.insertionSort pairLe l

mutual
/-- Recursively put every object's fields into `json.Marshal`'s key order. -/
def canonJ : JVal → JVal
  | .null => .null
  | .bool b => .bool b
  | .num n => .num n
  | .str s => .str s
  | .arr l => .arr (canonArr l)
  | .obj l => .obj (sortPairs (canonPairs l))

def canonArr : List JVal → List JVal
  | [] => []
  | v :: vs => canonJ v :: canonArr vs

def canonPairs : List (String × JVal) → List (String × JVal)
  | [] => []
  | (k, v) :: ps => (k, canonJ v) :: canonPairs ps
end

mutual
/-- Plain encoder (object fields in list order). -/
def encodeJVal : JVal → List Char
  | .null => "null".data
  | .bool true => "true".data
  | .bool false => "false".data
  | .num n => intRepr n
  | .str s => encStrM s
  | .arr l => '[' :: (encodeArr l ++ [']'])
  | .obj l => lbrace :: (encodeObj l ++ [rbrace])

def encodeArr : List JVal → List Char
  | [] => []
  | [v] => encodeJVal v
  | v :: v2 :: vs => encodeJVal v ++ ',' :: encodeArr (v2 :: vs)

def encodeObj : List (String × JVal) → List Char
  | [] => []
  | [(k, v)] => encStrM k ++ ':' :: encodeJVal v
  | (k, v) :: p :: ps => encStrM k ++ ':' :: encodeJVal v ++ ',' :: encodeObj (p :: ps)
end

/-- `json.Marshal`: canonical key order, then encode. -/
def jMarshal (v : JVal) : List Char := encodeJVal (canonJ v)

end JSQL

namespace JSQL

/-! ## SQLite store model (`database/sql` + go-sqlite3, idealized per spec §5)

A database is a map from table name to its list of rows; a row is an
association list from column name to stored value (the implicit
`id INTEGER PRIMARY KEY` is the row's position + 1 and is not stored).
Booleans are bound as integers 0/1 and integral floats as REAL, as the
driver does. -/

inductive SQLVal where
  | null : SQLVal
  | int : Int → SQLVal
  | real : Int → SQLVal
  | text : List Char → SQLVal
deriving DecidableEq, Repr

abbrev Row := List (String × SQLVal)

abbrev DB := List (String × List Row)

/-- Go `strings.HasSuffix`. -/
def strHasSuffix (s suf : String) : Bool := suf.data.isSuffixOf s.data

/-- Go `strings.TrimSuffix`. -/
def trimSuffix (s suf : String) : String :=
  if strHasSuffix s suf then String.mk (s.data.take (s.data.length - suf.data.length))
  else s

/-- The map value `obj[k]` as a Go interface: a missing key and a JSON null
are both the nil interface. -/
def goVal (obj : List (String × JVal)) (k : String) : Option JVal :=
  match alookup obj k with
  | none => none
  | some .null => none
  | some v => some v

/-- `SELECT id FROM <sym> WHERE value = ?`: the row whose `value` column
holds the stored encoding (unique by the table's UNIQUE constraint). -/
def symFind : List Row → List Char → Option Nat
  | [], _ => none
  | r :: rs, stored =>
      if alookup r "value" = some (SQLVal.text stored) then some 0
      else (symFind rs stored).map Nat.succ

/-- `getOrInsertSymbol`: nil values resolve to id 0 without touching the
table; otherwise the JSON encoding is selected or inserted-then-selected.
A nil `*TableSchema` (missing referenced table) is a panic, hence `none`. -/
def getOrInsertSymbol (db : DB) (symTab : Option TableSchema) (val : Option JVal) :
    Option (Int × DB) :=
  match val with
  | none => some (0, db)
  | some v =>
      match symTab with
      | none => none
      | some ts =>
          let stored := jMarshal v
          match alookup db ts.Name with
          | none => none
          | some rows =>
              match symFind rows stored with
              | some i => some ((i : Int) + 1, db)
              | none => some ((rows.length : Int) + 1,
                  aset db ts.Name (rows ++ [[("value", SQLVal.text stored)]]))

end JSQL

namespace JSQL

theorem symFind_spec : ∀ (rows : List Row) (s : List Char) (i : Nat),
    symFind rows s = some i →
    ∃ r, rows.get? i = some r ∧ alookup r "value" = some (SQLVal.text s)
  | [], s, i, h => by simp [symFind] at h
  | r :: rs, s, i, h => by
      rw [symFind] at h
      by_cases hr : alookup r "value" = some (SQLVal.text s)
      · rw [if_pos hr] at h
        injection h with h1
        subst h1
        exact ⟨r, rfl, hr⟩
      · rw [if_neg hr] at h
        cases hf : symFind rs s with
        | none =>
            rw [hf] at h
            cases h
        | some j =>
            rw [hf] at h
            simp only [Option.map_some', Option.some.injEq] at h
            subst h
            obtain ⟨r', hget, hval⟩ := symFind_spec rs s j hf
            exact ⟨r', by simpa using hget, hval⟩

theorem symFind_lt {rows : List Row} {s : List Char} {i : Nat}
    (h : symFind rows s = some i) : i < rows.length := by
  obtain ⟨r, hget, -⟩ := symFind_spec rows s i h
  exact List.get?_eq_some.mp hget |>.1

theorem symFind_append_one : ∀ (rows : List Row) (s : List Char) (r : Row),
    symFind (rows ++ [r]) s
      = match symFind rows s with
        | some i => some i
        | none =>
            if alookup r "value" = some (SQLVal.text s) then some rows.length
            else none
  | [], s, r => by
      simp [symFind]
  | r0 :: rs, s, r => by
      rw [List.cons_append, symFind, symFind]
      by_cases hr : alookup r0 "value" = some (SQLVal.text s)
      · rw [if_pos hr, if_pos hr]
      · rw [if_neg hr, if_neg hr, symFind_append_one rs s r]
        cases hf : symFind rs s with
        | some j => simp
        | none =>
            by_cases hv : alookup r "value" = some (SQLVal.text s)
            · simp [hv]
            · simp [hv]

/-- C5: two sequential `getOrInsertSymbol` calls on the same symbol table
resolve to the same id exactly when the stored JSON encodings are equal:
equal encodings give equal ids, distinct encodings give distinct ids. -/
theorem C5_getOrInsertSymbol_deterministic
    (db : DB) (symTab : TableSchema) (rows0 : List Row)
    (hdb : alookup db symTab.Name = some rows0)
    (v1 v2 : JVal) (id1 id2 : Int) (db1 db2 : DB)
    (h1 : getOrInsertSymbol db (some symTab) (some v1) = some (id1, db1))
    (h2 : getOrInsertSymbol db1 (some symTab) (some v2) = some (id2, db2)) :
    (jMarshal v1 = jMarshal v2 → id1 = id2)
      ∧ (jMarshal v1 ≠ jMarshal v2 → id1 ≠ id2) := by
  rw [getOrInsertSymbol] at h1
  simp only [hdb] at h1
  cases hf1 : symFind rows0 (jMarshal v1) with
  | some i =>
      rw [hf1] at h1
      injection h1 with h1'
      injection h1' with hid1 hdb1
      subst hid1
      subst hdb1
      rw [getOrInsertSymbol] at h2
      simp only [hdb] at h2
      cases hf2 : symFind rows0 (jMarshal v2) with
      | some j =>
          rw [hf2] at h2
          injection h2 with h2'
          injection h2' with hid2 hdb2
          subst hid2
          constructor
          · intro he
            rw [he] at hf1
            rw [hf1] at hf2
            injection hf2 with hij
            rw [hij]
          · intro hne hid
            have hij : i = j := by omega
            subst hij
            obtain ⟨r1, hg1, hv1⟩ := symFind_spec rows0 (jMarshal v1) i hf1
            obtain ⟨r2, hg2, hv2⟩ := symFind_spec rows0 (jMarshal v2) i hf2
            rw [hg1] at hg2
            injection hg2 with hr
            subst hr
            rw [hv1] at hv2
            injection hv2 with hv
            injection hv with hv'
            exact hne hv'
      | none =>
          rw [hf2] at h2
          injection h2 with h2'
          injection h2' with hid2 hdb2
          subst hid2
          constructor
          · intro he
            rw [he] at hf1
            rw [hf1] at hf2
            cases hf2
          · intro hne hid
            have hilt : i < rows0.length := symFind_lt hf1
            omega
  | none =>
      rw [hf1] at h1
      injection h1 with h1'
      injection h1' with hid1 hdb1
      subst hid1
      subst hdb1
      rw [getOrInsertSymbol] at h2
      simp only [alookup_aset_self] at h2
      rw [symFind_append_one] at h2
      cases hf2 : symFind rows0 (jMarshal v2) with
      | some j =>
          rw [hf2] at h2
          injection h2 with h2'
          injection h2' with hid2 hdb2
          subst hid2
          constructor
          · intro he
            rw [he] at hf1
            rw [hf1] at hf2
            cases hf2
          · intro hne hid
            have hjlt : j < rows0.length := symFind_lt hf2
            omega
      | none =>
          rw [hf2] at h2
          by_cases hv : alookup [("value", SQLVal.text (jMarshal v1))] "value"
              = some (SQLVal.text (jMarshal v2))
          · rw [if_pos hv] at h2
            injection h2 with h2'
            injection h2' with hid2 hdb2
            subst hid2
            have hveq : jMarshal v1 = jMarshal v2 := by
              simp [alookup] at hv
              exact hv
            constructor
            · intro _
              rfl
            · intro hne
              exact absurd hveq hne
          · rw [if_neg hv] at h2
            injection h2 with h2'
            injection h2' with hid2 hdb2
            subst hid2
            constructor
            · intro he
              exact absurd (by rw [he]; simp [alookup]) hv
            · intro hne hid
              have hlen : (rows0 ++ [[("value", SQLVal.text (jMarshal v1))]]).length
                  = rows0.length + 1 := by simp
              rw [hlen] at hid
              omega

end JSQL

namespace JSQL

instance : DecidableEq (Int × DB) := fun a b =>
  decidable_of_iff (a.1 = b.1 ∧ a.2 = b.2) Prod.ext_iff.symm

def exC5db : DB := [("s_symbol", [])]

def exC5ts : TableSchema := ⟨"s_symbol", [("id", "INTEGER"), ("value", "TEXT")], [], []⟩

/-- Witness: the determinism theorem applied to two concrete inserts. -/
theorem C5_witness :
    (jMarshal (JVal.str "a") = jMarshal (JVal.str "b") → (1 : Int) = 2)
      ∧ (jMarshal (JVal.str "a") ≠ jMarshal (JVal.str "b") → (1 : Int) ≠ 2) :=
  C5_getOrInsertSymbol_deterministic exC5db exC5ts [] (by decide)
    (JVal.str "a") (JVal.str "b") 1 2
    [("s_symbol", [[("value", SQLVal.text "\"a\"".data)]])]
    [("s_symbol", [[("value", SQLVal.text "\"a\"".data)],
      [("value", SQLVal.text "\"b\"".data)]])]
    (by decide) (by decide)

end JSQL

namespace JSQL

/-! ## Row insertion (`InsertRow`)

The per-field loop walks the table's field map (embedded as the association
list in its order); nested objects recurse through `InsertRow`, so the model
carries fuel.  `none` models an error return or a panic (nil schema
dereference / missing table). -/

/-- The stored value for a "normal" field: the raw scalar, or the JSON
encoding for arrays and objects (as the driver binds them). -/
def normalVal (obj : List (String × JVal)) (field : String) : SQLVal :=
  match alookup obj field with
  | none => SQLVal.null
  | some JVal.null => SQLVal.null
  | some (JVal.str s) => SQLVal.text s.data
  | some (JVal.num n) => SQLVal.real n
  | some (JVal.bool b) => SQLVal.int (if b then 1 else 0)
  | some (JVal.arr l) => SQLVal.text (jMarshal (JVal.arr l))
  | some (JVal.obj o) => SQLVal.text (jMarshal (JVal.obj o))

/-- One iteration of the `InsertRow` field loop: the appended (column,
value) pair — `none` for the skipped `id` field — and the threaded store;
`sub` is the recursive `InsertRow` call at one fuel less. -/
def insertOneCol (dbs : List (String × TableSchema))
    (sub : TableSchema → List (String × JVal) → DB → Option (Int × DB))
    (ts : TableSchema) (obj : List (String × JVal)) (field : String) (db : DB) :
    Option (Option (String × SQLVal) × DB) :=
  if field = "id" then some (none, db)
  else if (alookup ts.FKs field).getD "" ≠ "" ∧ strHasSuffix field "_symbol" then
    match getOrInsertSymbol db (alookup dbs ((alookup ts.FKs field).getD ""))
        (goVal obj (trimSuffix field "_symbol")) with
    | none => none
    | some (id, db1) => some (some (field, SQLVal.int id), db1)
  else if (alookup ts.FKs field).getD "" ≠ "" ∧ strHasSuffix field "_id" then
    match alookup obj (trimSuffix field "_id") with
    | some (JVal.obj o) =>
        (match alookup dbs ((alookup ts.FKs field).getD "") with
        | none => none
        | some subTab =>
            match sub subTab o db with
            | none => none
            | some (subID, db1) => some (some (field, SQLVal.int subID), db1))
    | _ => some (some (field, SQLVal.null), db)
  else
    some (some (field, normalVal obj field), db)

/-- The field loop of `InsertRow`: builds the (column, value) pairs in
iteration order while threading the store through symbol and sub-table
inserts. -/
def insertColsWith (dbs : List (String × TableSchema))
    (sub : TableSchema → List (String × JVal) → DB → Option (Int × DB))
    (ts : TableSchema) (obj : List (String × JVal)) :
    List (String × FieldType) → DB → Option (Row × DB)
  | [], db => some ([], db)
  | (field, _) :: rest, db =>
      match insertOneCol dbs sub ts obj field db with
      | none => none
      | some (pair?, db1) =>
          match insertColsWith dbs sub ts obj rest db1 with
          | none => none
          | some (row, db2) =>
              match pair? with
              | none => some (row, db2)
              | some p => some (p :: row, db2)

/-- `InsertRow`: build the column list; an empty column list returns id 0
without inserting; otherwise the row is appended and its rowid returned. -/
def InsertRow (dbs : List (String × TableSchema)) :
    Nat → TableSchema → List (String × JVal) → DB → Option (Int × DB)
  | 0, _, _, _ => none
  | Nat.succ fuel, ts, obj, db =>
      match insertColsWith dbs (InsertRow dbs fuel) ts obj ts.Fields db with
      | none => none
      | some (row, db1) =>
          if row.isEmpty then some (0, db1)
          else
            match alookup db1 ts.Name with
            | none => none
            | some rows =>
                some ((rows.length : Int) + 1, aset db1 ts.Name (rows ++ [row]))

end JSQL

namespace JSQL

theorem insertOneCol_key (dbs : List (String × TableSchema))
    (sub : TableSchema → List (String × JVal) → DB → Option (Int × DB))
    (ts : TableSchema) (obj : List (String × JVal)) (field : String) (db : DB)
    (q : Option (String × SQLVal)) (db1 : DB) (hid : field ≠ "id")
    (h : insertOneCol dbs sub ts obj field db = some (q, db1)) :
    ∃ v, q = some (field, v) := by
  rw [insertOneCol, if_neg hid] at h
  by_cases hc1 : ((alookup ts.FKs field).getD "" ≠ ""
      ∧ strHasSuffix field "_symbol" = true)
  · rw [if_pos hc1] at h
    cases hg : getOrInsertSymbol db (alookup dbs ((alookup ts.FKs field).getD ""))
        (goVal obj (trimSuffix field "_symbol")) with
    | none =>
        rw [hg] at h
        cases h
    | some p =>
        obtain ⟨id, db2⟩ := p
        rw [hg] at h
        injection h with h'
        injection h' with h1 h2
        exact ⟨_, h1.symm⟩
  · rw [if_neg hc1] at h
    by_cases hc2 : ((alookup ts.FKs field).getD "" ≠ ""
        ∧ strHasSuffix field "_id" = true)
    · rw [if_pos hc2] at h
      cases ho : alookup obj (trimSuffix field "_id") with
      | none =>
          rw [ho] at h
          injection h with h'
          injection h' with h1 h2
          exact ⟨_, h1.symm⟩
      | some jv =>
          rw [ho] at h
          cases jv with
          | obj o =>
              dsimp only at h
              cases hsub : alookup dbs ((alookup ts.FKs field).getD "") with
              | none =>
                  rw [hsub] at h
                  cases h
              | some subTab =>
                  rw [hsub] at h
                  dsimp only at h
                  cases hs : sub subTab o db with
                  | none =>
                      rw [hs] at h
                      cases h
                  | some p =>
                      obtain ⟨subID, db2⟩ := p
                      rw [hs] at h
                      injection h with h'
                      injection h' with h1 h2
                      exact ⟨_, h1.symm⟩
          | null =>
              injection h with h'
              injection h' with h1 h2
              exact ⟨_, h1.symm⟩
          | bool b =>
              injection h with h'
              injection h' with h1 h2
              exact ⟨_, h1.symm⟩
          | num n =>
              injection h with h'
              injection h' with h1 h2
              exact ⟨_, h1.symm⟩
          | str s =>
              injection h with h'
              injection h' with h1 h2
              exact ⟨_, h1.symm⟩
          | arr l =>
              injection h with h'
              injection h' with h1 h2
              exact ⟨_, h1.symm⟩
    · rw [if_neg hc2] at h
      injection h with h'
      injection h' with h1 h2
      exact ⟨_, h1.symm⟩

theorem insertCols_field (dbs : List (String × TableSchema))
    (sub : TableSchema → List (String × JVal) → DB → Option (Int × DB))
    (ts : TableSchema) (obj : List (String × JVal)) :
    ∀ (fields : List (String × FieldType)) (db : DB) (row : Row) (db' : DB)
      (field : String),
      (fields.map Prod.fst).Nodup →
      field ∈ fields.map Prod.fst →
      field ≠ "id" →
      insertColsWith dbs sub ts obj fields db = some (row, db') →
      ∃ dbmid v db1, insertOneCol dbs sub ts obj field dbmid
          = some (some (field, v), db1)
        ∧ alookup row field = some v
  | [], db, row, db', field, _, hmem, _, _ => by simp at hmem
  | (hf, ty) :: rest, db, row, db', field, hnd, hmem, hid, h => by
      rw [insertColsWith] at h
      cases h1 : insertOneCol dbs sub ts obj hf db with
      | none =>
          rw [h1] at h
          simp at h
      | some qdb1 =>
          obtain ⟨q, db1⟩ := qdb1
          rw [h1] at h
          dsimp only at h
          cases h2 : insertColsWith dbs sub ts obj rest db1 with
          | none =>
              rw [h2] at h
              simp at h
          | some rdb2 =>
              obtain ⟨rowR, db2⟩ := rdb2
              rw [h2] at h
              dsimp only at h
              rw [List.map_cons] at hmem hnd
              rcases List.mem_cons.mp hmem with heq | hmem'
              · subst heq
                obtain ⟨v, hq⟩ := insertOneCol_key dbs sub ts obj field db q db1 hid h1
                subst hq
                dsimp only at h
                injection h with h'
                injection h' with hrow hdb
                subst hrow
                exact ⟨db, v, db1, h1, by simp [alookup]⟩
              · have hne : hf ≠ field := by
                  intro he
                  exact (List.nodup_cons.mp hnd).1 (he ▸ hmem')
                obtain ⟨dbmid, v, dbx, hone, hlk⟩ :=
                  insertCols_field dbs sub ts obj rest db1 rowR db2 field
                    (List.nodup_cons.mp hnd).2 hmem' hid h2
                by_cases hhf : hf = "id"
                · subst hhf
                  rw [insertOneCol, if_pos rfl] at h1
                  injection h1 with h1'
                  injection h1' with hq hdb1
                  subst hq
                  dsimp only at h
                  injection h with h'
                  injection h' with hrow hdb
                  subst hrow
                  exact ⟨dbmid, v, dbx, hone, hlk⟩
                · obtain ⟨v', hq⟩ := insertOneCol_key dbs sub ts obj hf db q db1 hhf h1
                  subst hq
                  dsimp only at h
                  injection h with h'
                  injection h' with hrow hdb
                  subst hrow
                  exact ⟨dbmid, v, dbx, hone, by simp [alookup, hne, hlk]⟩

end JSQL

namespace JSQL

instance : DecidableEq (Row × DB) := fun a b =>
  decidable_of_iff (a.1 = b.1 ∧ a.2 = b.2) Prod.ext_iff.symm

/-- C8 (amended): in the `InsertRow` field loop a `_symbol` column always
receives the integer id resolved by `getOrInsertSymbol`; when the base field
is absent or null that id is 0 — the code stores integer 0, not SQL NULL. -/
theorem C8_insert_symbol_stores_id
    (dbs : List (String × TableSchema)) (fuel : Nat) (ts : TableSchema)
    (obj : List (String × JVal)) (fields : List (String × FieldType))
    (db : DB) (row : Row) (db' : DB) (field : String)
    (hnd : (fields.map Prod.fst).Nodup)
    (hmem : field ∈ fields.map Prod.fst)
    (hid : field ≠ "id")
    (hfk : (alookup ts.FKs field).getD "" ≠ "")
    (hsuf : strHasSuffix field "_symbol" = true)
    (h : insertColsWith dbs (InsertRow dbs fuel) ts obj fields db = some (row, db')) :
    (goVal obj (trimSuffix field "_symbol") = none →
      alookup row field = some (SQLVal.int 0))
    ∧ (∀ v, goVal obj (trimSuffix field "_symbol") = some v →
        ∃ dbmid id db1,
          getOrInsertSymbol dbmid (alookup dbs ((alookup ts.FKs field).getD ""))
              (some v) = some (id, db1)
            ∧ alookup row field = some (SQLVal.int id)) := by
  obtain ⟨dbmid, v0, db1, hone, hlk⟩ :=
    insertCols_field dbs (InsertRow dbs fuel) ts obj fields db row db' field
      hnd hmem hid h
  rw [insertOneCol, if_neg hid, if_pos ⟨hfk, hsuf⟩] at hone
  constructor
  · intro hnull
    rw [hnull] at hone
    dsimp only [getOrInsertSymbol] at hone
    injection hone with h'
    injection h' with h1 hdb1
    injection h1 with h2
    injection h2 with h2a h2b
    rw [hlk, ← h2b]
  · intro v hv
    rw [hv] at hone
    cases hg : getOrInsertSymbol dbmid
        (alookup dbs ((alookup ts.FKs field).getD "")) (some v) with
    | none =>
        rw [hg] at hone
        cases hone
    | some p =>
        obtain ⟨idv, db2⟩ := p
        rw [hg] at hone
        dsimp only at hone
        injection hone with h'
        injection h' with h1 hdb1
        injection h1 with h2
        injection h2 with h2a h2b
        exact ⟨dbmid, idv, db2, hg, by rw [hlk, ← h2b]⟩

def exC8main : TableSchema :=
  ⟨"main", [("id", "INTEGER"), ("s_symbol", "INTEGER")], [("s_symbol", "s_symbol")], []⟩

def exC8dbs : List (String × TableSchema) :=
  [("main", exC8main), ("s_symbol", symbolTS "s")]

def exC8db0 : DB := [("main", []), ("s_symbol", [])]

/-- C8 counterexample: inserting an object lacking the base field stores
integer id 0 in the `_symbol` column, not SQL NULL as the spec claims. -/
theorem C8_counterexample :
    InsertRow exC8dbs 2 exC8main [] exC8db0
      = some (1, [("main", [[("s_symbol", SQLVal.int 0)]]), ("s_symbol", [])])
    ∧ SQLVal.int 0 ≠ SQLVal.null := by decide

/-- Witness: the amended C8 theorem applied to a concrete insert with the
base field absent. -/
theorem C8_witness :
    (goVal [] (trimSuffix "s_symbol" "_symbol") = none →
      alookup [("s_symbol", SQLVal.int 0)] "s_symbol" = some (SQLVal.int 0))
    ∧ (∀ v, goVal [] (trimSuffix "s_symbol" "_symbol") = some v →
        ∃ dbmid id db1,
          getOrInsertSymbol dbmid
              (alookup exC8dbs ((alookup exC8main.FKs "s_symbol").getD ""))
              (some v) = some (id, db1)
            ∧ alookup [("s_symbol", SQLVal.int 0)] "s_symbol"
                = some (SQLVal.int id)) :=
  C8_insert_symbol_stores_id exC8dbs 1 exC8main [] exC8main.Fields exC8db0
    [("s_symbol", SQLVal.int 0)] exC8db0 "s_symbol"
    (by decide) (by decide) (by decide) (by decide) (by decide) (by decide)

end JSQL

namespace JSQL

/-- The object key one schema field makes `InsertRow` read: the base name
for `_symbol` and `_id` foreign-key columns, the field itself otherwise,
nothing for `id`. -/
def consultedKey (ts : TableSchema) (field : String) : Option String :=
  if field = "id" then none
  else if (alookup ts.FKs field).getD "" ≠ "" ∧ strHasSuffix field "_symbol" then
    some (trimSuffix field "_symbol")
  else if (alookup ts.FKs field).getD "" ≠ "" ∧ strHasSuffix field "_id" then
    some (trimSuffix field "_id")
  else some field

def consultedKeys (ts : TableSchema) : List String :=
  (ts.Fields.map Prod.fst).filterMap (consultedKey ts)

theorem insertOneCol_congr (dbs : List (String × TableSchema))
    (sub : TableSchema → List (String × JVal) → DB → Option (Int × DB))
    (ts : TableSchema) (field : String) (db : DB)
    (obj1 obj2 : List (String × JVal))
    (hag : ∀ k, consultedKey ts field = some k → alookup obj1 k = alookup obj2 k) :
    insertOneCol dbs sub ts obj1 field db = insertOneCol dbs sub ts obj2 field db := by
  rw [insertOneCol, insertOneCol]
  by_cases hid : field = "id"
  · rw [if_pos hid, if_pos hid]
  · rw [if_neg hid, if_neg hid]
    by_cases hc1 : ((alookup ts.FKs field).getD "" ≠ ""
        ∧ strHasSuffix field "_symbol" = true)
    · rw [if_pos hc1, if_pos hc1]
      have hk := hag (trimSuffix field "_symbol")
        (by rw [consultedKey, if_neg hid, if_pos hc1])
      rw [goVal, goVal, hk]
    · rw [if_neg hc1, if_neg hc1]
      by_cases hc2 : ((alookup ts.FKs field).getD "" ≠ ""
          ∧ strHasSuffix field "_id" = true)
      · rw [if_pos hc2, if_pos hc2]
        have hk := hag (trimSuffix field "_id")
          (by rw [consultedKey, if_neg hid, if_neg hc1, if_pos hc2])
        rw [hk]
      · rw [if_neg hc2, if_neg hc2]
        have hk := hag field
          (by rw [consultedKey, if_neg hid, if_neg hc1, if_neg hc2])
        rw [normalVal, normalVal, hk]

theorem insertCols_congr (dbs : List (String × TableSchema))
    (sub : TableSchema → List (String × JVal) → DB → Option (Int × DB))
    (ts : TableSchema) :
    ∀ (fields : List (String × FieldType)) (obj1 obj2 : List (String × JVal))
      (db : DB),
      (∀ f ∈ fields.map Prod.fst, ∀ k, consultedKey ts f = some k →
        alookup obj1 k = alookup obj2 k) →
      insertColsWith dbs sub ts obj1 fields db
        = insertColsWith dbs sub ts obj2 fields db
  | [], _, _, _, _ => rfl
  | (f, ty) :: rest, obj1, obj2, db, hag => by
      rw [insertColsWith, insertColsWith,
        insertOneCol_congr dbs sub ts f db obj1 obj2 (hag f (by simp))]
      cases h1 : insertOneCol dbs sub ts obj2 f db with
      | none => rfl
      | some p =>
          obtain ⟨q, db1⟩ := p
          dsimp only
          rw [insertCols_congr dbs sub ts rest obj1 obj2 db1
            (fun g hg k hk => hag g (List.mem_cons_of_mem _ hg) k hk)]

/-- C10 (amended): `InsertRow` reads the input object only at the consulted
keys — the base names of `_symbol`/`_id` foreign-key columns and the other
non-`id` column names.  Two objects that agree there (in particular, objects
differing only in fields that no schema column consults) produce identical
results; the object's `id` field is read only when a column such as `id_id`
or `id_symbol` consults it, which refutes the unconditional claim. -/
theorem C10_insertRow_consulted_only
    (dbs : List (String × TableSchema)) (fuel : Nat) (ts : TableSchema)
    (obj1 obj2 : List (String × JVal)) (db : DB)
    (hag : ∀ k ∈ consultedKeys ts, alookup obj1 k = alookup obj2 k) :
    InsertRow dbs fuel ts obj1 db = InsertRow dbs fuel ts obj2 db := by
  cases fuel with
  | zero => rfl
  | succ fuel =>
      rw [InsertRow, InsertRow,
        insertCols_congr dbs (InsertRow dbs fuel) ts ts.Fields obj1 obj2 db
          (fun f hf k hk => hag k (List.mem_filterMap.mpr ⟨f, hf, hk⟩))]

def exC10main : TableSchema :=
  ⟨"main", [("id", "INTEGER"), ("id_id", "INTEGER")], [("id_id", "id")], []⟩

def exC10dbs : List (String × TableSchema) :=
  [("main", exC10main), ("id", ⟨"id", [("id", "INTEGER"), ("v", "TEXT")], [], []⟩)]

def exC10db0 : DB := [("main", []), ("id", [])]

/-- C10 counterexample: a JSON field that is not a schema column (`s`, read
through the `s_symbol` column) and the literal field `id` (read through an
`id_id` column) both change the stored result. -/
theorem C10_counterexample :
    InsertRow exC8dbs 2 exC8main [("s", JVal.str "x")] exC8db0
        ≠ InsertRow exC8dbs 2 exC8main [] exC8db0
    ∧ "s" ∉ exC8main.Fields.map Prod.fst
    ∧ InsertRow exC10dbs 2 exC10main
          [("id", JVal.obj [("v", JVal.str "x")])] exC10db0
        ≠ InsertRow exC10dbs 2 exC10main [] exC10db0 := by
  decide

/-- Witness: an object whose only field no schema column consults inserts
exactly like the empty object. -/
theorem C10_witness :
    InsertRow exC8dbs 2 exC8main [("junk", JVal.str "x")] exC8db0
      = InsertRow exC8dbs 2 exC8main [] exC8db0 :=
  C10_insertRow_consulted_only exC8dbs 2 exC8main
    [("junk", JVal.str "x")] [] exC8db0
    (by
      intro k hk
      rw [show consultedKeys exC8main = ["s"] from rfl] at hk
      simp at hk
      subst hk
      rfl)

end JSQL

namespace JSQL

/-! ## The analyzer's sampling pass (`analyzeObjectSymbol`) and the symbol
threshold (`AnalyzeJSONWithOptions`, lines 142–161) -/

abbrev StringSet := List String

/-- Go set insert (`stringSet`); kept in first-insertion order. -/
def setInsert (s : StringSet) (v : String) : StringSet :=
  if v ∈ s then s else s ++ [v]

/-- `schema`, `fieldStringUniques`, `fieldJSONUniques`. -/
abbrev AnaState :=
  List (String × TableSchema) × List (String × StringSet) × List (String × StringSet)

def updSet (m : List (String × StringSet)) (k : String) (v : String) :
    List (String × StringSet) :=
  match alookup m k with
  | none => aset m k (setInsert [] v)
  | some s => aset m k (setInsert s v)

def updFKs (schema : List (String × TableSchema)) (tblName col tgt : String) :
    List (String × TableSchema) :=
  match alookup schema tblName with
  | none => schema
  | some ts => aset schema tblName { ts with FKs := aset ts.FKs col tgt }

/-- One `k, v` iteration of the row-field loop; `sub` is the recursive
`analyzeObjectSymbol` call at one fuel less. -/
def anaFieldWith (sub : String → List (List (String × JVal)) → AnaState → Option AnaState)
    (rows : List (List (String × JVal))) (tblName : String)
    (k : String) (v : JVal) (ftypes : List (String × FieldType)) (st : AnaState) :
    Option (List (String × FieldType) × AnaState) :=
  match v with
  | JVal.obj _ =>
      let ftypes1 := aset ftypes (k ++ "_id") TypeInt
      let subrows := rows.filterMap (fun xrow =>
        match alookup xrow k with
        | some (JVal.obj o) => some o
        | _ => none)
      match sub k subrows st with
      | none => none
      | some st1 =>
          some (ftypes1, (updFKs st1.1 tblName (k ++ "_id") k, st1.2.1, st1.2.2))
  | JVal.arr l =>
      some (aset ftypes k TypeJSON,
        (st.1, st.2.1, updSet st.2.2 k (String.mk (jMarshal (JVal.arr l)))))
  | JVal.str s =>
      some (aset ftypes k TypeText, (st.1, updSet st.2.1 k s, st.2.2))
  | JVal.num _ => some (aset ftypes k TypeReal, st)
  | JVal.bool _ => some (aset ftypes k TypeBool, st)
  | JVal.null => some (aset ftypes k TypeText, st)

def anaFieldsWith (sub : String → List (List (String × JVal)) → AnaState → Option AnaState)
    (rows : List (List (String × JVal))) (tblName : String) :
    List (String × JVal) → List (String × FieldType) → AnaState →
    Option (List (String × FieldType) × AnaState)
  | [], ftypes, st => some (ftypes, st)
  | (k, v) :: kvs, ftypes, st =>
      match anaFieldWith sub rows tblName k v ftypes st with
      | none => none
      | some (f1, st1) => anaFieldsWith sub rows tblName kvs f1 st1

def anaRowsWith (sub : String → List (List (String × JVal)) → AnaState → Option AnaState)
    (rows : List (List (String × JVal))) (tblName : String) :
    List (List (String × JVal)) → List (String × FieldType) → AnaState →
    Option (List (String × FieldType) × AnaState)
  | [], ftypes, st => some (ftypes, st)
  | row :: more, ftypes, st =>
      match anaFieldsWith sub rows tblName row ftypes st with
      | none => none
      | some (f1, st1) => anaRowsWith sub rows tblName more f1 st1

/-- The post-loop write-back: `curr.Fields[f] = t` for the collected field
types, then `curr.Fields["id"] = TypeInt`. -/
def updFields (schema : List (String × TableSchema)) (tblName : String)
    (ftypes : List (String × FieldType)) : List (String × TableSchema) :=
  match alookup schema tblName with
  | none => schema
  | some ts =>
      let fs := aset (ftypes.foldl (fun m p => aset m p.1 p.2) ts.Fields) "id" TypeInt
      aset schema tblName { ts with Fields := fs }

def analyzeObjectSymbol :
    Nat → String → List (List (String × JVal)) → AnaState → Option AnaState
  | 0, _, _, _ => none
  | Nat.succ fuel, tblName, rows, st =>
      let schema0 := if (alookup st.1 tblName).isSome then st.1
        else aset st.1 tblName ⟨tblName, [], [], []⟩
      match anaRowsWith (analyzeObjectSymbol fuel) rows tblName rows []
          (schema0, st.2.1, st.2.2) with
      | none => none
      | some (ftypes, st1) =>
          some (updFields st1.1 tblName ftypes, st1.2.1, st1.2.2)

/-- Lines 152–156 / 157–161: the fields marked for symbol redirection. -/
def symbolDecision (uniques : List (String × StringSet)) (numRows : Nat) :
    List String :=
  (uniques.filter (fun p => p.2.length < numRows / 5)).map Prod.fst

end JSQL

namespace JSQL

def exC3rows : List (List (String × JVal)) :=
  (List.range 20).map (fun i => [("s", JVal.str (if i % 2 = 0 then "a" else "b"))])

def exC3st : AnaState :=
  (analyzeObjectSymbol 3 "main" exC3rows ([], [], [])).getD ([], [], [])

def exC3symF : List String := symbolDecision exC3st.2.1 exC3rows.length

def exC3order : List String := (resolveTableOrder exC3st.1 10).getD []

def exC3ddl : String := (emitDDL exC3st.1 exC3symF [] exC3order).getD ""

/-- C3: a field with a uniqueness set is marked for symbol redirection
exactly when its distinct-value count is strictly below numRows / 5 (numRows
being the size of the sampled batch); and in the concrete 20-record scenario
with a string field taking two distinct values, the emitted DDL contains the
`s_symbol` table and redirects the main column to `s_symbol INTEGER` instead
of a direct `s TEXT` column. -/
theorem C3_symbol_threshold :
    (∀ (uniques : List (String × StringSet)) (n : Nat) (f : String) (u : StringSet),
      (uniques.map Prod.fst).Nodup → alookup uniques f = some u →
      (f ∈ symbolDecision uniques n ↔ u.length < n / 5))
    ∧ (exC3rows.length = 20
      ∧ alookup exC3st.2.1 "s" = some ["a", "b"]
      ∧ exC3symF = ["s"]
      ∧ containsSub exC3ddl.data (emitSymbolBlock "s") = true
      ∧ containsSub exC3ddl.data "  s_symbol INTEGER REFERENCES s_symbol(id)".data = true
      ∧ containsSub exC3ddl.data "  s TEXT".data = false) := by
  constructor
  · intro uniques n f u hnd hlk
    constructor
    · intro hmem
      obtain ⟨pr, hpr, hfst⟩ := List.mem_map.mp hmem
      obtain ⟨hprm, hp⟩ := List.mem_filter.mp hpr
      have : alookup uniques f = some pr.2 := by
        apply alookup_mem hnd
        rw [← hfst]
        exact hprm
      rw [hlk] at this
      injection this with hu
      rw [hu]
      simpa using hp
    · intro hlen
      apply List.mem_map.mpr
      refine ⟨(f, u), List.mem_filter.mpr ⟨alookup_some_mem hlk, by simpa using hlen⟩, rfl⟩
  · decide

/-- Witness: the threshold rule applied to the concrete uniqueness map of the
scenario. -/
theorem C3_witness :
    "s" ∈ symbolDecision [("s", ["a", "b"])] 20 ↔ (["a", "b"] : StringSet).length < 20 / 5 :=
  C3_symbol_threshold.1 [("s", ["a", "b"])] 20 "s" ["a", "b"] (by decide) (by decide)

end JSQL

namespace JSQL

/-! ## JSON decoding (`encoding/json.Unmarshal`)

A recursive-descent reading of the JSON grammar on the modelled value
domain (numbers are the integral ones, the only numbers the embedding
carries).  Duplicate object keys overwrite as a Go map write does. -/

def isJWS (c : Char) : Bool := c = ' ' || c = '\t' || c = '\n' || c = '\r'

def hexVal (c : Char) : Option Nat :=
  if '0' ≤ c ∧ c ≤ '9' then some (c.toNat - '0'.toNat)
  else if 'a' ≤ c ∧ c ≤ 'f' then some (c.toNat - 'a'.toNat + 10)
  else if 'A' ≤ c ∧ c ≤ 'F' then some (c.toNat - 'A'.toNat + 10)
  else none

def escDecode (c : Char) : Option Char :=
  if c = '"' then some '"'
  else if c = '\\' then some '\\'
  else if c = '/' then some '/'
  else if c = 'n' then some '\n'
  else if c = 'r' then some '\r'
  else if c = 't' then some '\t'
  else if c = 'b' then some '\x08'
  else if c = 'f' then some '\x0c'
  else none

/-- String body after the opening quote: decoded characters and the rest of
the input after the closing quote. -/
def parseStrBody : Nat → List Char → Option (List Char × List Char)
  | 0, _ => none
  | Nat.succ _, [] => none
  | Nat.succ fuel, c :: rest =>
      if c = '"' then some ([], rest)
      else if c = '\\' then
        match rest with
        | [] => none
        | e :: rest2 =>
            if e = 'u' then
              match rest2 with
              | h1 :: h2 :: h3 :: h4 :: rest3 =>
                  match hexVal h1, hexVal h2, hexVal h3, hexVal h4 with
                  | some a, some b, some c2, some d =>
                      let n := ((a * 16 + b) * 16 + c2) * 16 + d
                      if n < 0xd800 ∨ (0xe000 ≤ n ∧ n < 0x110000) then
                        match parseStrBody fuel rest3 with
                        | some (s, r) => some (Char.ofNat n :: s, r)
                        | none => none
                      else none
                  | _, _, _, _ => none
              | _ => none
            else
              match escDecode e with
              | none => none
              | some ch =>
                  match parseStrBody fuel rest2 with
                  | some (s, r) => some (ch :: s, r)
                  | none => none
      else
        match parseStrBody fuel rest with
        | some (s, r) => some (c :: s, r)
        | none => none

def digitsToNat (l : List Char) : Nat :=
  l.foldl (fun a c => a * 10 + (c.toNat - '0'.toNat)) 0

def isDigit (c : Char) : Bool := '0' ≤ c && c ≤ '9'

def parseNum (cs : List Char) : Option (Int × List Char) :=
  match cs with
  | '-' :: rest =>
      let digs := rest.takeWhile isDigit
      if digs.isEmpty then none
      else some (-(digitsToNat digs : Int), rest.dropWhile isDigit)
  | _ =>
      let digs := cs.takeWhile isDigit
      if digs.isEmpty then none
      else some ((digitsToNat digs : Int), cs.dropWhile isDigit)

mutual
def parseVal : Nat → List Char → Option (JVal × List Char)
  | 0, _ => none
  | Nat.succ fuel, cs =>
      match cs.dropWhile isJWS with
      | [] => none
      | c :: rest =>
          if c = 'n' then (stripLit "ull".data rest).map (fun r => (JVal.null, r))
          else if c = 't' then (stripLit "rue".data rest).map (fun r => (JVal.bool true, r))
          else if c = 'f' then (stripLit "alse".data rest).map (fun r => (JVal.bool false, r))
          else if c = '"' then
            (parseStrBody (rest.length + 1) rest).map
              (fun p => (JVal.str (String.mk p.1), p.2))
          else if c = '[' then
            match (rest.dropWhile isJWS) with
            | ']' :: r2 => some (JVal.arr [], r2)
            | _ => (parseArrItems fuel rest).map (fun p => (JVal.arr p.1, p.2))
          else if c = lbrace then
            match (rest.dropWhile isJWS) with
            | d :: r2 =>
                if d = rbrace then some (JVal.obj [], r2)
                else (parseObjItems fuel rest).map (fun p => (JVal.obj p.1, p.2))
            | [] => none
          else
            (parseNum (c :: rest)).map (fun p => (JVal.num p.1, p.2))

def parseArrItems : Nat → List Char → Option (List JVal × List Char)
  | 0, _ => none
  | Nat.succ fuel, cs =>
      match parseVal fuel cs with
      | none => none
      | some (v, rest) =>
          match rest.dropWhile isJWS with
          | ',' :: r2 =>
              match parseArrItems fuel r2 with
              | none => none
              | some (vs, r3) => some (v :: vs, r3)
          | ']' :: r2 => some ([v], r2)
          | _ => none

def parseObjItems : Nat → List Char → Option (List (String × JVal) × List Char)
  | 0, _ => none
  | Nat.succ fuel, cs =>
      match cs.dropWhile isJWS with
      | '"' :: rest =>
          match parseStrBody (rest.length + 1) rest with
          | none => none
          | some (k, r1) =>
              match r1.dropWhile isJWS with
              | ':' :: r2 =>
                  match parseVal fuel r2 with
                  | none => none
                  | some (v, r3) =>
                      match r3.dropWhile isJWS with
                      | ',' :: r4 =>
                          match parseObjItems fuel r4 with
                          | none => none
                          | some (ps, r5) =>
                              if (alookup ps (String.mk k)).isSome then some (ps, r5)
                              else some ((String.mk k, v) :: ps, r5)
                      | d :: r4 =>
                          if d = rbrace then some ([(String.mk k, v)], r4)
                          else none
                      | [] => none
              | _ => none
      | _ => none
end

/-- `json.Unmarshal` into `interface{}`: a full value with only trailing
whitespace. -/
def jUnmarshal (cs : List Char) : Option JVal :=
  match parseVal (cs.length + 1) cs with
  | some (v, rest) => if rest.dropWhile isJWS = [] then some v else none
  | none => none

/-- `json.Unmarshal` into `map[string]interface{}`: the top level must be an
object. -/
def jUnmarshalObj (cs : List Char) : Option (List (String × JVal)) :=
  match jUnmarshal cs with
  | some (JVal.obj o) => some o
  | _ => none

end JSQL

namespace JSQL

/-! ## Stream loading (`LoadData`) -/

/-- Observable actions of a `LoadData` run: the transaction boundaries and
each line's disposition. -/
inductive LoadEvent where
  | begin : LoadEvent
  | commit : LoadEvent
  | inserted : Nat → LoadEvent
  | skipParse : Nat → LoadEvent
  | skipInsert : Nat → LoadEvent
deriving DecidableEq, Repr

/-- The scanner loop: blank lines are skipped silently; a line that fails to
parse as a JSON object, or whose insert errors, is logged and skipped;
`none` only for the nil-main-table panic. -/
def loadLoop (dbs : DatabaseSchema) (fuel : Nat) (mainTab : Option TableSchema) :
    List (List Char) → Nat → DB → Option (DB × List LoadEvent)
  | [], _, db => some (db, [])
  | line :: rest, n, db =>
      if trimSpace line = [] then loadLoop dbs fuel mainTab rest (n + 1) db
      else
        match jUnmarshalObj line with
        | none =>
            (loadLoop dbs fuel mainTab rest (n + 1) db).map
              (fun p => (p.1, LoadEvent.skipParse n :: p.2))
        | some obj =>
            match mainTab with
            | none => none
            | some mt =>
                match InsertRow dbs.Tables fuel mt obj db with
                | none =>
                    (loadLoop dbs fuel mainTab rest (n + 1) db).map
                      (fun p => (p.1, LoadEvent.skipInsert n :: p.2))
                | some (_, db1) =>
                    (loadLoop dbs fuel mainTab rest (n + 1) db1).map
                      (fun p => (p.1, LoadEvent.inserted n :: p.2))

/-- `LoadData`: one `Begin` before the loop, one `Commit` after it. -/
def LoadData (dbs : DatabaseSchema) (fuel : Nat) (lines : List (List Char))
    (db : DB) : Option (DB × List LoadEvent) :=
  match loadLoop dbs fuel (alookup dbs.Tables "main") lines 1 db with
  | none => none
  | some (db', evs) =>
      some (db', LoadEvent.begin :: evs ++ [LoadEvent.commit])

theorem loadLoop_no_txn (dbs : DatabaseSchema) (fuel : Nat)
    (mainTab : Option TableSchema) :
    ∀ (lines : List (List Char)) (n : Nat) (db : DB) (db' : DB)
      (evs : List LoadEvent),
      loadLoop dbs fuel mainTab lines n db = some (db', evs) →
      ∀ e ∈ evs, e ≠ LoadEvent.begin ∧ e ≠ LoadEvent.commit
  | [], n, db, db', evs, h => by
      rw [loadLoop] at h
      injection h with h'
      injection h' with h1 h2
      subst h2
      intro e he
      cases he
  | line :: rest, n, db, db', evs, h => by
      rw [loadLoop] at h
      by_cases hbl : trimSpace line = []
      · rw [if_pos hbl] at h
        exact loadLoop_no_txn dbs fuel mainTab rest (n + 1) db db' evs h
      · rw [if_neg hbl] at h
        cases hp : jUnmarshalObj line with
        | none =>
            rw [hp] at h
            cases hrec : loadLoop dbs fuel mainTab rest (n + 1) db with
            | none => rw [hrec] at h; cases h
            | some p =>
                rw [hrec] at h
                injection h with h'
                injection h' with h1 h2
                subst h2
                intro e he
                rcases List.mem_cons.mp he with rfl | he'
                · exact ⟨fun hc => LoadEvent.noConfusion hc,
                    fun hc => LoadEvent.noConfusion hc⟩
                · exact loadLoop_no_txn dbs fuel mainTab rest (n + 1) db p.1 p.2
                    (by rw [hrec]) e he'
        | some obj =>
            rw [hp] at h
            cases mainTab with
            | none => cases h
            | some mt =>
                dsimp only at h
                cases hins : InsertRow dbs.Tables fuel mt obj db with
                | none =>
                    rw [hins] at h
                    cases hrec : loadLoop dbs fuel (some mt) rest (n + 1) db with
                    | none => rw [hrec] at h; cases h
                    | some p =>
                        rw [hrec] at h
                        injection h with h'
                        injection h' with h1 h2
                        subst h2
                        intro e he
                        rcases List.mem_cons.mp he with rfl | he'
                        · exact ⟨fun hc => LoadEvent.noConfusion hc,
                            fun hc => LoadEvent.noConfusion hc⟩
                        · exact loadLoop_no_txn dbs fuel (some mt) rest (n + 1) db p.1 p.2
                            (by rw [hrec]) e he'
                | some iddb =>
                    obtain ⟨rid, db1⟩ := iddb
                    rw [hins] at h
                    dsimp only at h
                    cases hrec : loadLoop dbs fuel (some mt) rest (n + 1) db1 with
                    | none => rw [hrec] at h; cases h
                    | some p =>
                        rw [hrec] at h
                        injection h with h'
                        injection h' with h1 h2
                        subst h2
                        intro e he
                        rcases List.mem_cons.mp he with rfl | he'
                        · exact ⟨fun hc => LoadEvent.noConfusion hc,
                            fun hc => LoadEvent.noConfusion hc⟩
                        · exact loadLoop_no_txn dbs fuel (some mt) rest (n + 1) db1 p.1 p.2
                            (by rw [hrec]) e he'

end JSQL

namespace JSQL

theorem loadLoop_fst_numindep (dbs : DatabaseSchema) (fuel : Nat)
    (mainTab : Option TableSchema) :
    ∀ (lines : List (List Char)) (n m : Nat) (db : DB),
      (loadLoop dbs fuel mainTab lines n db).map Prod.fst
        = (loadLoop dbs fuel mainTab lines m db).map Prod.fst
  | [], n, m, db => rfl
  | line :: rest, n, m, db => by
      rw [loadLoop, loadLoop]
      by_cases hbl : trimSpace line = []
      · rw [if_pos hbl, if_pos hbl]
        exact loadLoop_fst_numindep dbs fuel mainTab rest (n + 1) (m + 1) db
      · rw [if_neg hbl, if_neg hbl]
        cases hp : jUnmarshalObj line with
        | none =>
            simp only [Option.map_map]
            exact loadLoop_fst_numindep dbs fuel mainTab rest (n + 1) (m + 1) db
        | some obj =>
            cases mainTab with
            | none => rfl
            | some mt =>
                dsimp only
                cases hins : InsertRow dbs.Tables fuel mt obj db with
                | none =>
                    simp only [Option.map_map]
                    exact loadLoop_fst_numindep dbs fuel (some mt) rest (n + 1) (m + 1) db
                | some iddb =>
                    obtain ⟨rid, db1⟩ := iddb
                    simp only [Option.map_map]
                    exact loadLoop_fst_numindep dbs fuel (some mt) rest (n + 1) (m + 1) db1

theorem loadLoop_skip_removed (dbs : DatabaseSchema) (fuel : Nat)
    (mainTab : Option TableSchema) (l0 : List Char)
    (hbl : trimSpace l0 ≠ [])
    (hfail : jUnmarshalObj l0 = none
      ∨ (∃ obj, jUnmarshalObj l0 = some obj
          ∧ ∃ mt, mainTab = some mt
            ∧ ∀ dbx, InsertRow dbs.Tables fuel mt obj dbx = none)) :
    ∀ (pre post : List (List Char)) (n : Nat) (db : DB),
      (loadLoop dbs fuel mainTab (pre ++ l0 :: post) n db).map Prod.fst
        = (loadLoop dbs fuel mainTab (pre ++ post) n db).map Prod.fst
  | [], post, n, db => by
      rw [List.nil_append, List.nil_append, loadLoop, if_neg hbl]
      rcases hfail with hp | ⟨obj, hp, mt, hmt, hins⟩
      · rw [hp]
        simp only [Option.map_map]
        exact loadLoop_fst_numindep dbs fuel mainTab post (n + 1) n db
      · rw [hp, hmt]
        dsimp only
        rw [hins db]
        simp only [Option.map_map]
        exact loadLoop_fst_numindep dbs fuel (some mt) post (n + 1) n db
  | l1 :: pre, post, n, db => by
      rw [List.cons_append, List.cons_append, loadLoop, loadLoop]
      by_cases hbl1 : trimSpace l1 = []
      · rw [if_pos hbl1, if_pos hbl1]
        exact loadLoop_skip_removed dbs fuel mainTab l0 hbl hfail pre post (n + 1) db
      · rw [if_neg hbl1, if_neg hbl1]
        cases hp1 : jUnmarshalObj l1 with
        | none =>
            simp only [Option.map_map]
            exact loadLoop_skip_removed dbs fuel mainTab l0 hbl hfail pre post (n + 1) db
        | some obj1 =>
            cases hmt : mainTab with
            | none => rfl
            | some mt =>
                dsimp only
                cases hins1 : InsertRow dbs.Tables fuel mt obj1 db with
                | none =>
                    simp only [Option.map_map]
                    exact loadLoop_skip_removed dbs fuel (some mt) l0 hbl
                      (hmt ▸ hfail) pre post (n + 1) db
                | some iddb =>
                    obtain ⟨rid, db1⟩ := iddb
                    simp only [Option.map_map]
                    exact loadLoop_skip_removed dbs fuel (some mt) l0 hbl
                      (hmt ▸ hfail) pre post (n + 1) db1

end JSQL

namespace JSQL

instance : DecidableEq (DB × List LoadEvent) := fun a b =>
  decidable_of_iff (a.1 = b.1 ∧ a.2 = b.2) Prod.ext_iff.symm

/-- C7: every `LoadData` run wraps the whole stream in exactly one
transaction — the event trace is one `begin`, per-line dispositions only,
and one final `commit` — and a line that fails to parse or whose insert
fails is skipped without affecting the final database or the run's success:
removing such a line yields the same result. -/
theorem C7_loadData_single_txn (dbs : DatabaseSchema) (fuel : Nat) :
    (∀ (lines : List (List Char)) (db : DB) (db' : DB) (evs : List LoadEvent),
      LoadData dbs fuel lines db = some (db', evs) →
      ∃ body, evs = LoadEvent.begin :: body ++ [LoadEvent.commit]
        ∧ ∀ e ∈ body, e ≠ LoadEvent.begin ∧ e ≠ LoadEvent.commit)
    ∧ (∀ (l0 : List Char) (pre post : List (List Char)) (db : DB),
        trimSpace l0 ≠ [] →
        (jUnmarshalObj l0 = none
          ∨ (∃ obj, jUnmarshalObj l0 = some obj
              ∧ ∃ mt, alookup dbs.Tables "main" = some mt
                ∧ ∀ dbx, InsertRow dbs.Tables fuel mt obj dbx = none)) →
        (LoadData dbs fuel (pre ++ l0 :: post) db).map Prod.fst
          = (LoadData dbs fuel (pre ++ post) db).map Prod.fst) := by
  constructor
  · intro lines db db' evs h
    rw [LoadData] at h
    cases hl : loadLoop dbs fuel (alookup dbs.Tables "main") lines 1 db with
    | none => rw [hl] at h; cases h
    | some p =>
        rw [hl] at h
        injection h with h'
        injection h' with h1 h2
        subst h2
        exact ⟨p.2, rfl,
          loadLoop_no_txn dbs fuel (alookup dbs.Tables "main") lines 1 db p.1 p.2
            (by rw [hl])⟩
  · intro l0 pre post db hbl hfail
    have hrem := loadLoop_skip_removed dbs fuel (alookup dbs.Tables "main") l0 hbl
      (by
        rcases hfail with hp | ⟨obj, hp, mt, hmt, hins⟩
        · exact Or.inl hp
        · exact Or.inr ⟨obj, hp, mt, hmt, hins⟩)
      pre post 1 db
    rw [LoadData, LoadData]
    cases hA : loadLoop dbs fuel (alookup dbs.Tables "main") (pre ++ l0 :: post) 1 db with
    | none =>
        rw [hA] at hrem
        cases hB : loadLoop dbs fuel (alookup dbs.Tables "main") (pre ++ post) 1 db with
        | none => rfl
        | some q => rw [hB] at hrem; cases hrem
    | some p =>
        rw [hA] at hrem
        cases hB : loadLoop dbs fuel (alookup dbs.Tables "main") (pre ++ post) 1 db with
        | none => rw [hB] at hrem; cases hrem
        | some q =>
            rw [hB] at hrem
            simp only [Option.map_some', Option.some.injEq] at hrem
            dsimp only
            rw [hrem]
            rfl

def exC7main : TableSchema := ⟨"main", [("id", "INTEGER"), ("a", "REAL")], [], []⟩

def exC7dbs : DatabaseSchema := ⟨[("main", exC7main)], ["main"]⟩

def exC7lines : List (List Char) := ["\x7b\"a\":1\x7d".data, "oops".data]

/-- Witness: one parsed-and-inserted line and one malformed line produce the
single-transaction trace `begin, inserted, skipParse, commit`. -/
theorem C7_witness :
    ∃ body, ([LoadEvent.begin, LoadEvent.inserted 1, LoadEvent.skipParse 2,
        LoadEvent.commit])
        = LoadEvent.begin :: body ++ [LoadEvent.commit]
      ∧ ∀ e ∈ body, e ≠ LoadEvent.begin ∧ e ≠ LoadEvent.commit :=
  (C7_loadData_single_txn exC7dbs 3).1 exC7lines [("main", [])]
    [("main", [[("a", SQLVal.real 1)]])]
    [LoadEvent.begin, LoadEvent.inserted 1, LoadEvent.skipParse 2, LoadEvent.commit]
    (by decide)

end JSQL

namespace JSQL

/-! ## Dumping (`dumpRowValueSet`, `dumpRowByID`, `DumpRows`)

`none` at the outer level models the nil-schema panic; a per-row error
(`sql.ErrNoRows`, a missing table in a sub-query) makes the dumper omit the
field, exactly as the source's `err == nil` guards do. -/

/-- Row addressed by rowid (`WHERE id = ?`). -/
def rowAt (rows : List Row) (id : Int) : Option Row :=
  if id ≤ 0 then none else rows.get? (id.toNat - 1)

/-- `getSymbolValue`: the stored text, JSON-decoded when possible. -/
def getSymbolValue (db : DB) (symTable : String) (id : Int) : Option JVal :=
  match alookup db symTable with
  | none => none
  | some rows =>
      match rowAt rows id with
      | none => none
      | some r =>
          match alookup r "value" with
          | some (SQLVal.text s) =>
              match jUnmarshal s with
              | some v => some v
              | none => some (JVal.str (String.mk s))
          | _ => none

/-- The driver's value as the dumper re-encodes it in the default branch. -/
def sqlToJ (v : SQLVal) : JVal :=
  match v with
  | SQLVal.null => JVal.null
  | SQLVal.int n => JVal.num n
  | SQLVal.real n => JVal.num n
  | SQLVal.text s => JVal.str (String.mk s)

/-- The `int64`/`Sscanf` extraction of an id from a scanned value. -/
def symIdOf (v : SQLVal) : Int :=
  match v with
  | SQLVal.int n => n
  | _ => 0

/-- The object key one dumped column assigns. -/
def dumpKey (ts : TableSchema) (col : String) : String :=
  match alookup ts.FKs col with
  | some _ =>
      if strHasSuffix col "_symbol" then trimSuffix col "_symbol"
      else if strHasSuffix col "_id" then trimSuffix col "_id"
      else col
  | none => col

/-- The JSON/TEXT re-decoding of a plain column value (lines 158–186). -/
def dumpPlainVal (ts : TableSchema) (col : String) (val : SQLVal) : JVal :=
  if (alookup ts.Fields col).getD "" = TypeJSON
      ∨ (alookup ts.Fields col).getD "" = TypeText then
    match val with
    | SQLVal.text s =>
        match s with
        | c :: _ =>
            if c = '[' ∨ c = lbrace then
              match jUnmarshal s with
              | some out => out
              | none => JVal.str (String.mk s)
            else JVal.str (String.mk s)
        | [] => JVal.str ""
    | _ => sqlToJ val
  else sqlToJ val

/-- One iteration of the dump column loop: `none` is a panic, `some none`
no assignment, `some (some (k, v))` the assignment `obj[k] = v`; `subByID`
is the recursive `dumpRowByID` at one fuel less. -/
def dumpOneCol (dbs : List (String × TableSchema)) (db : DB)
    (subByID : TableSchema → Int → Option (Option (List (String × JVal))))
    (ts : TableSchema) (row : Row) (col : String) :
    Option (Option (String × JVal)) :=
  if (alookup row col).getD SQLVal.null = SQLVal.null then some none
  else if col = "id" then some none
  else
    match alookup ts.FKs col with
    | some ref =>
        if strHasSuffix col "_symbol" then
          match getSymbolValue db ref (symIdOf ((alookup row col).getD SQLVal.null)) with
          | some s => some (some (trimSuffix col "_symbol", s))
          | none => some none
        else if strHasSuffix col "_id" then
          if symIdOf ((alookup row col).getD SQLVal.null) = 0 then some none
          else
            match alookup dbs ref with
            | none => none
            | some st =>
                match subByID st (symIdOf ((alookup row col).getD SQLVal.null)) with
                | none => none
                | some none => some none
                | some (some subObj) =>
                    if subObj.isEmpty then some none
                    else some (some (trimSuffix col "_id", JVal.obj subObj))
        else some (some (col, dumpPlainVal ts col ((alookup row col).getD SQLVal.null)))
    | none => some (some (col, dumpPlainVal ts col ((alookup row col).getD SQLVal.null)))

def dumpColsF (dbs : List (String × TableSchema)) (db : DB)
    (subByID : TableSchema → Int → Option (Option (List (String × JVal))))
    (ts : TableSchema) (row : Row) :
    List String → List (String × JVal) → Option (List (String × JVal))
  | [], obj => some obj
  | col :: more, obj =>
      match dumpOneCol dbs db subByID ts row col with
      | none => none
      | some none => dumpColsF dbs db subByID ts row more obj
      | some (some (k, v)) => dumpColsF dbs db subByID ts row more (aset obj k v)

/-- `dumpRowByID`: fetch by rowid and reconstruct; `some none` is the
error return the caller's `err == nil` guard turns into an omission. -/
def dumpRowByIDF (dbs : List (String × TableSchema)) (db : DB) :
    Nat → TableSchema → Int → Option (Option (List (String × JVal)))
  | 0, _, _ => none
  | Nat.succ fuel, ts, id =>
      match alookup db ts.Name with
      | none => some none
      | some rows =>
          match rowAt rows id with
          | none => some none
          | some r =>
              (dumpColsF dbs db (dumpRowByIDF dbs db fuel) ts r
                (ts.Fields.map Prod.fst) []).map some

/-- `dumpRowValueSet` on a stored row. -/
def dumpRowValueSetF (dbs : List (String × TableSchema)) (db : DB) (fuel : Nat)
    (ts : TableSchema) (row : Row) : Option (List (String × JVal)) :=
  dumpColsF dbs db (dumpRowByIDF dbs db fuel) ts row (ts.Fields.map Prod.fst) []

/-- `DumpRows`: every row of `main`, in rowid order. -/
def DumpRows (dbs : List (String × TableSchema)) (db : DB) (fuel : Nat) :
    Option (List (List (String × JVal))) :=
  match alookup dbs "main" with
  | none => none
  | some mt =>
      match alookup db mt.Name with
      | none => none
      | some rows => rows.mapM (fun r => dumpRowValueSetF dbs db fuel mt r)

end JSQL

namespace JSQL

theorem dumpOneCol_key (dbs : List (String × TableSchema)) (db : DB)
    (subByID : TableSchema → Int → Option (Option (List (String × JVal))))
    (ts : TableSchema) (row : Row) (col : String) (k : String) (v : JVal)
    (h : dumpOneCol dbs db subByID ts row col = some (some (k, v))) :
    k = dumpKey ts col := by
  rw [dumpOneCol] at h
  by_cases h0 : (alookup row col).getD SQLVal.null = SQLVal.null
  · rw [if_pos h0] at h
    injection h with h'
    cases h'
  · rw [if_neg h0] at h
    by_cases h1 : col = "id"
    · rw [if_pos h1] at h
      injection h with h'
      cases h'
    · rw [if_neg h1] at h
      cases href : alookup ts.FKs col with
      | none =>
          rw [href] at h
          injection h with h'
          injection h' with h''
          injection h'' with hk hv
          rw [← hk, dumpKey, href]
      | some ref =>
          rw [href] at h
          dsimp only at h
          rw [dumpKey, href]
          by_cases hs : strHasSuffix col "_symbol" = true
          · rw [if_pos hs] at h
            rw [if_pos hs]
            cases hg : getSymbolValue db ref
                (symIdOf ((alookup row col).getD SQLVal.null)) with
            | none =>
                rw [hg] at h
                injection h with h'
                cases h'
            | some s =>
                rw [hg] at h
                injection h with h'
                injection h' with h''
                injection h'' with hk hv
                exact hk.symm
          · rw [if_neg hs] at h
            rw [if_neg hs]
            by_cases hi : strHasSuffix col "_id" = true
            · rw [if_pos hi] at h
              rw [if_pos hi]
              by_cases hz : symIdOf ((alookup row col).getD SQLVal.null) = 0
              · rw [if_pos hz] at h
                injection h with h'
                cases h'
              · rw [if_neg hz] at h
                cases hst : alookup dbs ref with
                | none =>
                    rw [hst] at h
                    cases h
                | some st =>
                    rw [hst] at h
                    dsimp only at h
                    cases hsub : subByID st
                        (symIdOf ((alookup row col).getD SQLVal.null)) with
                    | none =>
                        rw [hsub] at h
                        cases h
                    | some so =>
                        rw [hsub] at h
                        cases so with
                        | none =>
                            injection h with h'
                            cases h'
                        | some subObj =>
                            dsimp only at h
                            by_cases he : subObj.isEmpty = true
                            · rw [if_pos he] at h
                              injection h with h'
                              cases h'
                            · rw [if_neg he] at h
                              injection h with h'
                              injection h' with h''
                              injection h'' with hk hv
                              exact hk.symm
            · rw [if_neg hi] at h
              rw [if_neg hi]
              injection h with h'
              injection h' with h''
              injection h'' with hk hv
              exact hk.symm

theorem dumpCols_untouched (dbs : List (String × TableSchema)) (db : DB)
    (subByID : TableSchema → Int → Option (Option (List (String × JVal))))
    (ts : TableSchema) (row : Row) :
    ∀ (cols : List String) (obj obj' : List (String × JVal)) (k : String),
      dumpColsF dbs db subByID ts row cols obj = some obj' →
      (∀ col ∈ cols, dumpKey ts col = k →
        dumpOneCol dbs db subByID ts row col = some none) →
      alookup obj' k = alookup obj k
  | [], obj, obj', k, h, _ => by
      rw [dumpColsF] at h
      injection h with h'
      rw [h']
  | col :: more, obj, obj', k, h, homit => by
      rw [dumpColsF] at h
      cases h1 : dumpOneCol dbs db subByID ts row col with
      | none =>
          rw [h1] at h
          cases h
      | some q =>
          rw [h1] at h
          cases q with
          | none =>
              dsimp only at h
              exact dumpCols_untouched dbs db subByID ts row more obj obj' k h
                (fun c hc hk => homit c (List.mem_cons_of_mem _ hc) hk)
          | some p =>
              obtain ⟨k', v⟩ := p
              dsimp only at h
              have hk' : k' = dumpKey ts col :=
                dumpOneCol_key dbs db subByID ts row col k' v h1
              have hne : k' ≠ k := by
                intro he
                have := homit col (List.mem_cons_self _ _) (by rw [← hk', he])
                rw [this] at h1
                injection h1 with h1'
                cases h1'
              rw [dumpCols_untouched dbs db subByID ts row more _ obj' k h
                (fun c hc hk => homit c (List.mem_cons_of_mem _ hc) hk)]
              exact alookup_aset_ne obj v hne

end JSQL

namespace JSQL

/-- C6: the dumper never emits a null placeholder for a redirected field.
When no sibling column reconstructs the same base name: a symbol column
whose stored value is NULL or whose symbol lookup fails, and an `_id`
column whose stored value is NULL or id 0, whose sub-row resolution errors,
or whose reconstructed sub-object is empty, all leave the base field
entirely absent from the dumped object. -/
theorem C6_dump_omission
    (dbs : List (String × TableSchema)) (db : DB) (fuel : Nat)
    (ts : TableSchema) (row : Row) (obj' : List (String × JVal))
    (col ref : String)
    (h : dumpRowValueSetF dbs db fuel ts row = some obj')
    (href : alookup ts.FKs col = some ref)
    (hsib : ∀ c ∈ ts.Fields.map Prod.fst, dumpKey ts c = dumpKey ts col → c = col) :
    (strHasSuffix col "_symbol" = true →
      ((alookup row col).getD SQLVal.null = SQLVal.null
        ∨ getSymbolValue db ref (symIdOf ((alookup row col).getD SQLVal.null)) = none) →
      alookup obj' (trimSuffix col "_symbol") = none)
    ∧ (strHasSuffix col "_symbol" = false → strHasSuffix col "_id" = true →
        ((alookup row col).getD SQLVal.null = SQLVal.null
          ∨ symIdOf ((alookup row col).getD SQLVal.null) = 0
          ∨ (∃ st, alookup dbs ref = some st
              ∧ (dumpRowByIDF dbs db fuel st
                    (symIdOf ((alookup row col).getD SQLVal.null)) = some none
                ∨ dumpRowByIDF dbs db fuel st
                    (symIdOf ((alookup row col).getD SQLVal.null))
                      = some (some [])))) →
        alookup obj' (trimSuffix col "_id") = none) := by
  constructor
  · intro hs hcond
    have hkey : dumpKey ts col = trimSuffix col "_symbol" := by
      rw [dumpKey, href]
      rw [if_pos hs]
    have homit : dumpOneCol dbs db (dumpRowByIDF dbs db fuel) ts row col
        = some none := by
      rw [dumpOneCol]
      by_cases h0 : (alookup row col).getD SQLVal.null = SQLVal.null
      · rw [if_pos h0]
      · rw [if_neg h0]
        have hid : col ≠ "id" := by
          intro he
          rw [he] at hs
          exact absurd hs (by decide)
        rw [if_neg hid, href]
        dsimp only
        rw [if_pos hs]
        rcases hcond with h0' | hg
        · exact absurd h0' h0
        · rw [hg]
    rw [dumpRowValueSetF] at h
    have := dumpCols_untouched dbs db (dumpRowByIDF dbs db fuel) ts row
      (ts.Fields.map Prod.fst) [] obj' (trimSuffix col "_symbol") h
      (fun c hc hk => by
        have hc2 : c = col := hsib c hc (by rw [hk, hkey])
        subst hc2
        exact homit)
    rw [this]
    rfl
  · intro hs hi hcond
    have hkey : dumpKey ts col = trimSuffix col "_id" := by
      rw [dumpKey, href]
      rw [if_neg (by rw [hs]; exact Bool.false_ne_true), if_pos hi]
    have homit : dumpOneCol dbs db (dumpRowByIDF dbs db fuel) ts row col
        = some none := by
      rw [dumpOneCol]
      by_cases h0 : (alookup row col).getD SQLVal.null = SQLVal.null
      · rw [if_pos h0]
      · rw [if_neg h0]
        have hid : col ≠ "id" := by
          intro he
          rw [he] at hi
          exact absurd hi (by decide)
        rw [if_neg hid, href]
        dsimp only
        rw [if_neg (by rw [hs]; exact Bool.false_ne_true), if_pos hi]
        by_cases hz : symIdOf ((alookup row col).getD SQLVal.null) = 0
        · rw [if_pos hz]
        · rw [if_neg hz]
          rcases hcond with h0' | hz' | ⟨st, hst, hres⟩
          · exact absurd h0' h0
          · exact absurd hz' hz
          · rw [hst]
            dsimp only
            rcases hres with hr | hr
            · rw [hr]
            · rw [hr]
              rfl
    rw [dumpRowValueSetF] at h
    have := dumpCols_untouched dbs db (dumpRowByIDF dbs db fuel) ts row
      (ts.Fields.map Prod.fst) [] obj' (trimSuffix col "_id") h
      (fun c hc hk => by
        have hc2 : c = col := hsib c hc (by rw [hk, hkey])
        subst hc2
        exact homit)
    rw [this]
    rfl

def exC6ts : TableSchema :=
  ⟨"main", [("id", "INTEGER"), ("sub_id", "INTEGER")], [("sub_id", "sub")], []⟩

/-- Witness: a stored NULL in the `sub_id` column leaves `sub` absent from
the dumped object. -/
theorem C6_witness :
    (strHasSuffix "sub_id" "_symbol" = true →
      ((alookup [("sub_id", SQLVal.null)] "sub_id").getD SQLVal.null = SQLVal.null
        ∨ getSymbolValue [] "sub"
            (symIdOf ((alookup [("sub_id", SQLVal.null)] "sub_id").getD SQLVal.null))
              = none) →
      alookup ([] : List (String × JVal)) (trimSuffix "sub_id" "_symbol") = none)
    ∧ (strHasSuffix "sub_id" "_symbol" = false → strHasSuffix "sub_id" "_id" = true →
        ((alookup [("sub_id", SQLVal.null)] "sub_id").getD SQLVal.null = SQLVal.null
          ∨ symIdOf ((alookup [("sub_id", SQLVal.null)] "sub_id").getD SQLVal.null) = 0
          ∨ (∃ st, alookup ([("main", exC6ts), ("sub", symbolTS "s")]) "sub" = some st
              ∧ (dumpRowByIDF [("main", exC6ts), ("sub", symbolTS "s")] [] 2 st
                    (symIdOf ((alookup [("sub_id", SQLVal.null)] "sub_id").getD
                      SQLVal.null)) = some none
                ∨ dumpRowByIDF [("main", exC6ts), ("sub", symbolTS "s")] [] 2 st
                    (symIdOf ((alookup [("sub_id", SQLVal.null)] "sub_id").getD
                      SQLVal.null)) = some (some [])))) →
        alookup ([] : List (String × JVal)) (trimSuffix "sub_id" "_id") = none) :=
  C6_dump_omission [("main", exC6ts), ("sub", symbolTS "s")] [] 2 exC6ts
    [("sub_id", SQLVal.null)] [] "sub_id" "sub" rfl (by decide) (by decide)

end JSQL

namespace JSQL

/-! ## The full analysis entry point (`AnalyzeJSON`, default options) -/

/-- `determineIndexes` on one table (default options: FK and symbol indexes
both on).  Symbol-table value indexes are never added: symbol tables are not
in the schema map at this point. -/
def determineIndexesTable (ts : TableSchema) : TableSchema :=
  let fkIdx := ts.FKs.filterMap (fun p =>
    if p.1 = "id" then none
    else some ⟨"idx_" ++ ts.Name ++ "_" ++ p.1, ts.Name, [p.1], false⟩)
  let marked := ts.FKs.filterMap (fun p => if p.1 = "id" then none else some p.1)
  let symIdx := ts.Fields.filterMap (fun p =>
    if (alookup ts.Fields (p.1 ++ "_symbol")).isSome ∧ (p.1 ++ "_symbol") ∉ marked then
      some ⟨"idx_" ++ ts.Name ++ "_" ++ (p.1 ++ "_symbol"), ts.Name,
        [p.1 ++ "_symbol"], false⟩
    else none)
  { ts with Indexes := ts.Indexes ++ fkIdx ++ symIdx }

def determineIndexes (schema : List (String × TableSchema)) :
    List (String × TableSchema) :=
  schema.map (fun p => (p.1, determineIndexesTable p.2))

/-- `AnalyzeJSON` with default options on the given input lines: sample,
analyze, decide symbols, add indexes, order tables, emit the DDL text. -/
def AnalyzeJSONW (lines : List (List Char)) (sample : Nat) (fuel : Nat) :
    Option String :=
  let roots := (lines.take sample).filterMap jUnmarshalObj
  if roots.isEmpty then none
  else
    match analyzeObjectSymbol fuel "main" roots ([], [], []) with
    | none => none
    | some st =>
        let symF := symbolDecision st.2.1 roots.length
        let symJ := symbolDecision st.2.2 roots.length
        let schema := determineIndexes st.1
        match resolveTableOrder schema fuel with
        | none => none
        | some order => emitDDL schema symF symJ order

end JSQL

namespace JSQL

def exC1lines : List (List Char) := ["\x7b\"a\":null\x7d".data]

def exC1ddl : String := (AnalyzeJSONW exC1lines 20 5).getD ""

def exC1sch : DatabaseSchema := (ParseDDL exC1ddl 10).getD ⟨[], []⟩

def exC1db0 : DB := exC1sch.Tables.map (fun p => (p.1, []))

def exC1res : Option (DB × List LoadEvent) := LoadData exC1sch 5 exC1lines exC1db0

def exC1dump : Option (List (List (String × JVal))) :=
  match exC1res with
  | some p => DumpRows exC1sch.Tables p.1 5
  | none => none

/-- C1 counterexample: the single record `a: null` survives parsing with
its field present, but the full inference → load → dump pipeline returns
the empty object — the field is erased even though it is not an `id`, so
the round trip is not the identity up to surrogate-key erasure. -/
theorem C1_counterexample :
    (∃ o, jUnmarshalObj "\x7b\"a\":null\x7d".data = some o
      ∧ alookup o "a" = some JVal.null)
    ∧ exC1dump = some [[]]
    ∧ alookup ([] : List (String × JVal)) "a" = none := by
  refine ⟨⟨[("a", JVal.null)], rfl, rfl⟩, rfl, rfl⟩

end JSQL

namespace JSQL

/-! ## The load → dump round trip on flat records -/

/-- Values the modelled round trip carries verbatim: strings that do not
begin with a bracket or brace (the dumper would re-decode those) and
integral numbers. -/
def plainVal : JVal → Bool
  | JVal.str s => !(s.data.head? = some '[') && !(s.data.head? = some lbrace)
  | JVal.num _ => true
  | _ => false

/-- A record matching a flat table: non-`id` keys, all of them columns,
plain values, and every non-`id` column present. -/
def FlatObj (ts : TableSchema) (o : List (String × JVal)) : Prop :=
  o ≠ []
  ∧ (∀ p ∈ o, p.1 ≠ "id" ∧ p.1 ∈ ts.Fields.map Prod.fst ∧ plainVal p.2 = true)
  ∧ (∀ f ∈ ts.Fields.map Prod.fst, f ≠ "id" → (alookup o f).isSome = true)

/-- The row `InsertRow` stores for a flat table. -/
def flatRow (obj : List (String × JVal)) (fields : List (String × FieldType)) : Row :=
  fields.filterMap (fun p =>
    if p.1 = "id" then none else some (p.1, normalVal obj p.1))

theorem insertCols_flat (dbs : List (String × TableSchema))
    (sub : TableSchema → List (String × JVal) → DB → Option (Int × DB))
    (ts : TableSchema) (obj : List (String × JVal)) (hFK : ts.FKs = []) :
    ∀ (fields : List (String × FieldType)) (db : DB),
      insertColsWith dbs sub ts obj fields db = some (flatRow obj fields, db)
  | [], db => rfl
  | (f, ty) :: rest, db => by
      rw [insertColsWith]
      by_cases hid : f = "id"
      · rw [show insertOneCol dbs sub ts obj f db = some (none, db) from by
          rw [insertOneCol, if_pos hid]]
        dsimp only
        rw [insertCols_flat dbs sub ts obj hFK rest db]
        dsimp only
        rw [show flatRow obj ((f, ty) :: rest) = flatRow obj rest from by
          simp [flatRow, List.filterMap_cons, hid]]
      · rw [show insertOneCol dbs sub ts obj f db
            = some (some (f, normalVal obj f), db) from by
          rw [insertOneCol, if_neg hid, hFK]
          rw [if_neg (fun hc => hc.1 rfl), if_neg (fun hc => hc.1 rfl)]]
        dsimp only
        rw [insertCols_flat dbs sub ts obj hFK rest db]
        dsimp only
        rw [show flatRow obj ((f, ty) :: rest)
            = (f, normalVal obj f) :: flatRow obj rest from by
          simp [flatRow, List.filterMap_cons, hid]]

theorem alookup_flatRow (obj : List (String × JVal)) :
    ∀ (fields : List (String × FieldType)) (col : String), col ≠ "id" →
      alookup (flatRow obj fields) col
        = if col ∈ fields.map Prod.fst then some (normalVal obj col) else none
  | [], col, hcol => by simp [flatRow, alookup]
  | (f, ty) :: rest, col, hcol => by
      by_cases hid : f = "id"
      · rw [show flatRow obj ((f, ty) :: rest) = flatRow obj rest from by
          simp [flatRow, List.filterMap_cons, hid]]
        rw [alookup_flatRow obj rest col hcol]
        have hne : col ≠ f := by rw [hid]; exact hcol
        simp only [List.map_cons, List.mem_cons, hne, false_or]
      · rw [show flatRow obj ((f, ty) :: rest)
            = (f, normalVal obj f) :: flatRow obj rest from by
          simp [flatRow, List.filterMap_cons, hid]]
        by_cases hcf : f = col
        · subst hcf
          simp [alookup]
        · rw [show alookup ((f, normalVal obj f) :: flatRow obj rest) col
              = alookup (flatRow obj rest) col from by simp [alookup, hcf]]
          rw [alookup_flatRow obj rest col hcol]
          have hne : col ≠ f := fun he => hcf he.symm
          simp only [List.map_cons, List.mem_cons, hne, false_or]

theorem alookup_flatRow_id (obj : List (String × JVal)) :
    ∀ (fields : List (String × FieldType)),
      alookup (flatRow obj fields) "id" = none
  | [] => rfl
  | (f, ty) :: rest => by
      by_cases hid : f = "id"
      · rw [show flatRow obj ((f, ty) :: rest) = flatRow obj rest from by
          simp [flatRow, List.filterMap_cons, hid]]
        exact alookup_flatRow_id obj rest
      · rw [show flatRow obj ((f, ty) :: rest)
            = (f, normalVal obj f) :: flatRow obj rest from by
          simp [flatRow, List.filterMap_cons, hid]]
        rw [show alookup ((f, normalVal obj f) :: flatRow obj rest) "id"
            = alookup (flatRow obj rest) "id" from by simp [alookup, hid]]
        exact alookup_flatRow_id obj rest

end JSQL

namespace JSQL

theorem dumpPlainVal_plain (ts : TableSchema) (col : String) (v : JVal)
    (obj : List (String × JVal)) (hv : alookup obj col = some v)
    (hp : plainVal v = true) :
    dumpPlainVal ts col (normalVal obj col) = v := by
  cases v with
  | str s =>
      cases hs : s.data with
      | nil =>
          have hse : s = "" := by
            cases s with
            | mk d => cases hs; rfl
          subst hse
          have hnv : normalVal obj col = SQLVal.text [] := by
            simp only [normalVal, hv]
          rw [hnv, dumpPlainVal]
          by_cases hty : ((alookup ts.Fields col).getD "" = TypeJSON
              ∨ (alookup ts.Fields col).getD "" = TypeText)
          · rw [if_pos hty]
          · rw [if_neg hty]
            rfl
      | cons c cs =>
          have hc : ¬(c = '[' ∨ c = lbrace) := by
            rw [plainVal] at hp
            simp only [hs, List.head?] at hp
            intro hor
            rcases hor with h1 | h1 <;> rw [h1] at hp <;> simp at hp
          have hnv : normalVal obj col = SQLVal.text (c :: cs) := by
            simp only [normalVal, hv, hs]
          rw [hnv, dumpPlainVal]
          by_cases hty : ((alookup ts.Fields col).getD "" = TypeJSON
              ∨ (alookup ts.Fields col).getD "" = TypeText)
          · rw [if_pos hty]
            rw [if_neg hc]
            rw [show JVal.str (String.mk (c :: cs)) = JVal.str (String.mk s.data) from by
              rw [hs]]
          · rw [if_neg hty]
            rw [show sqlToJ (SQLVal.text (c :: cs))
                = JVal.str (String.mk (c :: cs)) from rfl]
            rw [show JVal.str (String.mk (c :: cs)) = JVal.str (String.mk s.data) from by
              rw [hs]]
  | num n =>
      have hnv : normalVal obj col = SQLVal.real n := by
        simp only [normalVal, hv]
      rw [hnv, dumpPlainVal]
      · by_cases hty : ((alookup ts.Fields col).getD "" = TypeJSON
            ∨ (alookup ts.Fields col).getD "" = TypeText)
        · rw [if_pos hty]
          rfl
        · rw [if_neg hty]
          rfl
      · intro s h
        cases h
  | null => exact absurd hp (by simp [plainVal])
  | bool b => exact absurd hp (by simp [plainVal])
  | arr l => exact absurd hp (by simp [plainVal])
  | obj o => exact absurd hp (by simp [plainVal])

theorem normalVal_ne_null (obj : List (String × JVal)) (col : String) (v : JVal)
    (hv : alookup obj col = some v) (hp : plainVal v = true) :
    normalVal obj col ≠ SQLVal.null := by
  cases v with
  | str s => simp [normalVal, hv]
  | num n => simp [normalVal, hv]
  | null => exact absurd hp (by simp [plainVal])
  | bool b => exact absurd hp (by simp [plainVal])
  | arr l => exact absurd hp (by simp [plainVal])
  | obj o => exact absurd hp (by simp [plainVal])

theorem dumpOneCol_flatRow (dbs : List (String × TableSchema)) (db : DB)
    (subByID : TableSchema → Int → Option (Option (List (String × JVal))))
    (ts : TableSchema) (obj : List (String × JVal))
    (fields : List (String × FieldType)) (col : String) (v : JVal)
    (hFK : ts.FKs = []) (hcol : col ≠ "id")
    (hmem : col ∈ fields.map Prod.fst)
    (hv : alookup obj col = some v) (hp : plainVal v = true) :
    dumpOneCol dbs db subByID ts (flatRow obj fields) col = some (some (col, v)) := by
  rw [dumpOneCol]
  rw [alookup_flatRow obj fields col hcol, if_pos hmem]
  simp only [Option.getD_some]
  rw [if_neg (normalVal_ne_null obj col v hv hp), if_neg hcol, hFK]
  dsimp only [alookup]
  rw [dumpPlainVal_plain ts col v obj hv hp]

theorem dumpOneCol_flatRow_id (dbs : List (String × TableSchema)) (db : DB)
    (subByID : TableSchema → Int → Option (Option (List (String × JVal))))
    (ts : TableSchema) (obj : List (String × JVal))
    (fields : List (String × FieldType)) :
    dumpOneCol dbs db subByID ts (flatRow obj fields) "id" = some none := by
  rw [dumpOneCol]
  rw [if_pos (by rw [alookup_flatRow_id]; rfl)]

end JSQL

namespace JSQL

/-- The object the dumper reconstructs from a flat row. -/
def dumpFlat (ts : TableSchema) (obj : List (String × JVal)) :
    List (String × JVal) :=
  (ts.Fields.map Prod.fst).foldl
    (fun a c => if c = "id" then a else aset a c ((alookup obj c).getD JVal.null)) []

theorem dumpCols_flatRow (dbs : List (String × TableSchema)) (db : DB)
    (subByID : TableSchema → Int → Option (Option (List (String × JVal))))
    (ts : TableSchema) (obj : List (String × JVal))
    (fields : List (String × FieldType)) (hFK : ts.FKs = []) :
    ∀ (cols : List String) (acc : List (String × JVal)),
      (∀ c ∈ cols, c ≠ "id" → c ∈ fields.map Prod.fst
        ∧ ∃ v, alookup obj c = some v ∧ plainVal v = true) →
      dumpColsF dbs db subByID ts (flatRow obj fields) cols acc
        = some (cols.foldl (fun a c => if c = "id" then a
            else aset a c ((alookup obj c).getD JVal.null)) acc)
  | [], acc, _ => rfl
  | c :: more, acc, hc => by
      rw [dumpColsF]
      by_cases hid : c = "id"
      · subst hid
        rw [dumpOneCol_flatRow_id dbs db subByID ts obj fields]
        dsimp only
        rw [dumpCols_flatRow dbs db subByID ts obj fields hFK more acc
          (fun x hx => hc x (List.mem_cons_of_mem _ hx))]
        rw [List.foldl_cons, if_pos rfl]
      · obtain ⟨hmem, v, hv, hp⟩ := hc c (List.mem_cons_self _ _) hid
        rw [dumpOneCol_flatRow dbs db subByID ts obj fields c v hFK hid hmem hv hp]
        dsimp only
        rw [dumpCols_flatRow dbs db subByID ts obj fields hFK more (aset acc c v)
          (fun x hx => hc x (List.mem_cons_of_mem _ hx))]
        rw [List.foldl_cons, if_neg hid, hv]
        rfl

theorem alookup_dump_foldl (obj : List (String × JVal)) :
    ∀ (cols : List String) (acc : List (String × JVal)) (k : String),
      alookup (cols.foldl (fun a c => if c = "id" then a
          else aset a c ((alookup obj c).getD JVal.null)) acc) k
        = if k ≠ "id" ∧ k ∈ cols then some ((alookup obj k).getD JVal.null)
          else alookup acc k
  | [], acc, k => by simp
  | c :: more, acc, k => by
      rw [List.foldl_cons, alookup_dump_foldl obj more _ k]
      by_cases hid : c = "id"
      · rw [if_pos hid]
        by_cases hk : k ≠ "id" ∧ k ∈ more
        · rw [if_pos hk, if_pos ⟨hk.1, List.mem_cons_of_mem _ hk.2⟩]
        · rw [if_neg hk]
          by_cases hk2 : k ≠ "id" ∧ k ∈ c :: more
          · exfalso
            rcases List.mem_cons.mp hk2.2 with he | hm
            · exact hk2.1 (he.trans hid)
            · exact hk ⟨hk2.1, hm⟩
          · rw [if_neg hk2]
      · rw [if_neg hid]
        by_cases hk : k ≠ "id" ∧ k ∈ more
        · rw [if_pos hk, if_pos ⟨hk.1, List.mem_cons_of_mem _ hk.2⟩]
        · rw [if_neg hk]
          by_cases hkc : k = c
          · subst hkc
            rw [if_pos ⟨hid, List.mem_cons_self _ _⟩]
            exact alookup_aset_self _ _ _
          · rw [alookup_aset_ne acc _ (fun he => hkc he.symm)]
            by_cases hk2 : k ≠ "id" ∧ k ∈ c :: more
            · exfalso
              rcases List.mem_cons.mp hk2.2 with he | hm
              · exact hkc he
              · exact hk ⟨hk2.1, hm⟩
            · rw [if_neg hk2]

end JSQL

namespace JSQL

theorem dumpRow_flat (dbs : List (String × TableSchema)) (db : DB) (fuel : Nat)
    (ts : TableSchema) (obj : List (String × JVal))
    (hFK : ts.FKs = []) (hflat : FlatObj ts obj) :
    dumpRowValueSetF dbs db fuel ts (flatRow obj ts.Fields) = some (dumpFlat ts obj)
      ∧ (∀ k, k ≠ "id" → alookup (dumpFlat ts obj) k = alookup obj k)
      ∧ alookup (dumpFlat ts obj) "id" = none := by
  obtain ⟨hne, hmemP, hcov⟩ := hflat
  refine ⟨?_, ?_, ?_⟩
  · exact dumpCols_flatRow dbs db (dumpRowByIDF dbs db fuel) ts obj ts.Fields hFK
      (ts.Fields.map Prod.fst) []
      (fun c hc hcne => ⟨hc, by
        have hsome := hcov c hc hcne
        cases halk : alookup obj c with
        | none => rw [halk] at hsome; cases hsome
        | some v =>
            exact ⟨v, rfl, (hmemP (c, v) (alookup_some_mem halk)).2.2⟩⟩)
  · intro k hk
    rw [dumpFlat, alookup_dump_foldl]
    by_cases hmem : k ∈ ts.Fields.map Prod.fst
    · rw [if_pos ⟨hk, hmem⟩]
      have hsome := hcov k hmem hk
      cases halk : alookup obj k with
      | none => rw [halk] at hsome; cases hsome
      | some v => rfl
    · rw [if_neg (fun hc => hmem hc.2)]
      cases halk : alookup obj k with
      | none => rfl
      | some v =>
          exact absurd ((hmemP (k, v) (alookup_some_mem halk)).2.1) hmem
  · rw [dumpFlat, alookup_dump_foldl]
    rw [if_neg (fun hc => hc.1 rfl)]
    rfl

theorem flatRow_ne_nil (ts : TableSchema) (obj : List (String × JVal))
    (hne : obj ≠ [])
    (hmemP : ∀ p ∈ obj, p.1 ≠ "id" ∧ p.1 ∈ ts.Fields.map Prod.fst
      ∧ plainVal p.2 = true) :
    flatRow obj ts.Fields ≠ [] := by
  obtain ⟨p, hpmem⟩ : ∃ p, p ∈ obj := by
    cases obj with
    | nil => exact absurd rfl hne
    | cons a l => exact ⟨a, List.mem_cons_self _ _⟩
  have h1 := hmemP p hpmem
  intro hnil
  have h2 := alookup_flatRow obj ts.Fields p.1 h1.1
  rw [hnil, if_pos h1.2.1] at h2
  simp [alookup] at h2

theorem loadLoop_flat (dbs : DatabaseSchema) (fuel : Nat) (ts : TableSchema)
    (hFK : ts.FKs = []) :
    ∀ (lines : List (List Char)) (objs : List (List (String × JVal))) (n : Nat)
      (db : DB) (rows : List Row),
      List.Forall₂ (fun l o => trimSpace l ≠ [] ∧ jUnmarshalObj l = some o)
        lines objs →
      (∀ o ∈ objs, FlatObj ts o) →
      alookup db ts.Name = some rows →
      ∃ db' evs, loadLoop dbs (Nat.succ fuel) (some ts) lines n db = some (db', evs)
        ∧ alookup db' ts.Name
            = some (rows ++ objs.map (fun o => flatRow o ts.Fields))
  | [], objs, n, db, rows, hpl, _, hdb => by
      cases hpl
      exact ⟨db, [], rfl, by simpa using hdb⟩
  | line :: lines, [], n, db, rows, hpl, _, _ => by cases hpl
  | line :: lines, o :: objs, n, db, rows, hpl, hflat, hdb => by
      have hlo : trimSpace line ≠ [] ∧ jUnmarshalObj line = some o := by
        cases hpl with
        | cons h1 _ => exact h1
      have hrest :
          List.Forall₂ (fun l o => trimSpace l ≠ [] ∧ jUnmarshalObj l = some o)
            lines objs := by
        cases hpl with
        | cons _ h2 => exact h2
      obtain ⟨hbl, hparse⟩ := hlo
      have hof := hflat o (List.mem_cons_self _ _)
      obtain ⟨hone, hmemP, hcov⟩ := hof
      have hrowne := flatRow_ne_nil ts o hone hmemP
      have hins : InsertRow dbs.Tables (Nat.succ fuel) ts o db
          = some ((rows.length : Int) + 1,
              aset db ts.Name (rows ++ [flatRow o ts.Fields])) := by
        rw [InsertRow]
        rw [insertCols_flat dbs.Tables (InsertRow dbs.Tables fuel) ts o hFK
          ts.Fields db]
        dsimp only
        rw [if_neg (by
          intro hemp
          exact hrowne (List.isEmpty_iff.mp hemp))]
        rw [hdb]
      rw [loadLoop, if_neg hbl, hparse]
      dsimp only
      rw [hins]
      dsimp only
      obtain ⟨db', evs, hloop, hdb'⟩ :=
        loadLoop_flat dbs fuel ts hFK lines objs (n + 1)
          (aset db ts.Name (rows ++ [flatRow o ts.Fields]))
          (rows ++ [flatRow o ts.Fields])
          hrest (fun x hx => hflat x (List.mem_cons_of_mem _ hx))
          (alookup_aset_self _ _ _)
      refine ⟨db', LoadEvent.inserted n :: evs, ?_, ?_⟩
      · rw [hloop]
        rfl
      · rw [hdb']
        simp

theorem mapM_eq_some {α β : Type} (f : α → Option β) (g : α → β) :
    ∀ (l : List α), (∀ a ∈ l, f a = some (g a)) → l.mapM f = some (l.map g)
  | [], _ => rfl
  | a :: l, h => by
      rw [List.mapM_cons, h a (List.mem_cons_self _ _),
        mapM_eq_some f g l (fun x hx => h x (List.mem_cons_of_mem _ hx))]
      rfl

theorem forall₂_map_self {α β : Type} (g : α → β) (R : β → α → Prop) :
    ∀ (l : List α), (∀ a ∈ l, R (g a) a) → List.Forall₂ R (l.map g) l
  | [], _ => List.Forall₂.nil
  | a :: l, h =>
      List.Forall₂.cons (h a (List.mem_cons_self _ _))
        (forall₂_map_self g R l (fun x hx => h x (List.mem_cons_of_mem _ hx)))

end JSQL

namespace JSQL

theorem mapM_map_eq_some {α β γ : Type} (m : α → β) (f : β → Option γ)
    (g : α → γ) :
    ∀ (l : List α), (∀ a ∈ l, f (m a) = some (g a)) →
      (l.map m).mapM f = some (l.map g)
  | [], _ => rfl
  | a :: l, h => by
      rw [List.map_cons, List.mapM_cons, h a (List.mem_cons_self _ _),
        mapM_map_eq_some m f g l (fun x hx => h x (List.mem_cons_of_mem _ hx))]
      rfl

/-- C1 (amended): the full analyze-load-dump pipeline is not the identity on
records (see `C1_counterexample`: the record with a single null field dumps as
the empty object), but the load-dump half is the identity up to `id`-erasure
on flat records: for a main table without foreign keys, loading a stream of
non-blank lines that parse to records whose keys are exactly the non-`id`
columns and whose values are plain (strings not starting with a bracket or
brace, and integral numbers), then dumping, returns one object per input
record that agrees with it on every key other than `id` and has no `id`
key. -/
theorem C1_flat_roundtrip (dbs : DatabaseSchema) (fuel : Nat) (ts : TableSchema)
    (hmt : alookup dbs.Tables "main" = some ts) (hFK : ts.FKs = [])
    (lines : List (List Char)) (objs : List (List (String × JVal)))
    (db0 : DB) (hdb0 : alookup db0 ts.Name = some [])
    (hpl : List.Forall₂
      (fun l o => trimSpace l ≠ [] ∧ jUnmarshalObj l = some o) lines objs)
    (hflat : ∀ o ∈ objs, FlatObj ts o) :
    ∃ db' evs douts,
      LoadData dbs (Nat.succ fuel) lines db0 = some (db', evs)
      ∧ DumpRows dbs.Tables db' (Nat.succ fuel) = some douts
      ∧ List.Forall₂ (fun d o =>
          (∀ k, k ≠ "id" → alookup d k = alookup o k)
          ∧ alookup d "id" = none) douts objs := by
  obtain ⟨db', evs, hloop, hdb'⟩ :=
    loadLoop_flat dbs fuel ts hFK lines objs 1 db0 [] hpl hflat hdb0
  refine ⟨db', LoadEvent.begin :: evs ++ [LoadEvent.commit],
    objs.map (fun o => dumpFlat ts o), ?_, ?_, ?_⟩
  · rw [LoadData, hmt, hloop]
  · rw [DumpRows, hmt]
    dsimp only
    rw [hdb']
    dsimp only
    rw [List.nil_append]
    exact mapM_map_eq_some (fun o => flatRow o ts.Fields)
      (fun r => dumpRowValueSetF dbs.Tables db' (Nat.succ fuel) ts r)
      (fun o => dumpFlat ts o) objs
      (fun o ho =>
        (dumpRow_flat dbs.Tables db' (Nat.succ fuel) ts o hFK (hflat o ho)).1)
  · refine forall₂_map_self (fun o => dumpFlat ts o) _ objs (fun o ho => ?_)
    have h := dumpRow_flat dbs.Tables db' (Nat.succ fuel) ts o hFK (hflat o ho)
    exact ⟨h.2.1, h.2.2⟩

def exC1Wts : TableSchema := ⟨"main", [("a", TypeText), ("id", TypeInt)], [], []⟩

def exC1Wdbs : DatabaseSchema := ⟨[("main", exC1Wts)], ["main"]⟩

def exC1Wdb0 : DB := [("main", [])]

def exC1Wlines : List (List Char) := ["\x7b\"a\":\"x\"\x7d".data]

def exC1Wobjs : List (List (String × JVal)) := [[("a", JVal.str "x")]]

theorem C1_witness :
    ∃ db' evs douts,
      LoadData exC1Wdbs (Nat.succ 4) exC1Wlines exC1Wdb0 = some (db', evs)
      ∧ DumpRows exC1Wdbs.Tables db' (Nat.succ 4) = some douts
      ∧ List.Forall₂ (fun d o =>
          (∀ k, k ≠ "id" → alookup d k = alookup o k)
          ∧ alookup d "id" = none) douts exC1Wobjs :=
  C1_flat_roundtrip exC1Wdbs 4 exC1Wts rfl rfl exC1Wlines exC1Wobjs exC1Wdb0 rfl
    (List.Forall₂.cons ⟨by decide, rfl⟩ List.Forall₂.nil)
    (by
      intro o ho
      rw [exC1Wobjs, List.mem_singleton] at ho
      subst ho
      refine ⟨by simp, ?_, by decide⟩
      intro p hp
      rw [List.mem_singleton] at hp
      subst hp
      exact ⟨by decide, by decide, rfl⟩)

end JSQL
